import Mathlib

/-!
A shallow embedding of the `ooc` object runtime.

The development follows `object.h` (class descriptors, `new_object`, `delete`,
`object_size`, `is_a`, `inherits_from`, the root class `abstract_object` and the
public entry points `display`, `clone`, `differs`) together with the
constructors, destructors, clone and display overrides of the classes built on
it (`vector.h`, `matrix.h`, `set.h`, `iterator.h` and the `time_iterator` of
`examples/iterator_example.c`), the sum and difference of vectors, the
transpose and product of matrices, the set operations, `get` on iterators, and
the growable lists of `list.h`.

Modelling decisions:

* A pointer to a heap block is a natural number, `0` being `NULL`.  A pointer
  to a class descriptor is a `ClassRef`: descriptors are compared by identity
  (which descriptor it is), never by contents.
* A function pointer is the name of the function it points to (`Ctor`, `Dtor`,
  `CloneFn`, ...); `none` is the null function pointer.
* The heap is an association list from addresses to blocks.  `calloc` hands
  out an address that is not in use and never fails.
* Dereferencing a pointer that is not a live block of the expected kind is
  undefined in C; the embedding returns `none` there.  `none` is also the
  answer when the ancestor walk of `inherits_from` has not finished within
  the given number of loop iterations (`fuel`).
* `real` (a C `double`) and `union iterator_value` are idealised as integers;
  the text produced for `%p`, `%d`, `%f` is the decimal rendering of the value.
  An `int` is an integer without bound: the dimensions and indices of the
  arrays that occur are those of allocated arrays.
* The state carries a trace of the calls made to constructors, destructors
  and `free`, in the order in which they happen.
-/

namespace ooc

/-! ## Pointers, function pointers, class descriptors -/

/-- Address of a heap block. -/
abbrev Ptr := Nat

/-- The null pointer. -/
abbrev NULL : Ptr := 0

/-- Idealised `real` (`double`). -/
abbrev real := Int

/-- Identity of a class descriptor (a `const struct Class *` that is not null):
the six descriptors defined in the repository and any number of further ones. -/
inductive ClassRef
  | _abstract_object
  | _vector
  | _matrix
  | _set
  | _iterator
  | _time_iterator
  | user (n : Nat)
  deriving DecidableEq, Repr

/-- Functions of type `void * (*)(void * self, va_list * arguments)`. -/
inductive Ctor
  | abstract_object_constructor
  | vector_constructor
  | matrix_constructor
  | set_constructor
  | iterator_constructor
  | time_iterator_constructor
  deriving DecidableEq, Repr

/-- Functions of type `void * (*)(void * self)` used as destructors. -/
inductive Dtor
  | abstract_object_destructor
  | vector_destructor
  | matrix_destructor
  | set_destructor
  deriving DecidableEq, Repr

/-- Functions stored in the `differs` entry. -/
inductive DiffersFn
  | abstract_object_differs
  deriving DecidableEq, Repr

/-- Functions stored in the `clone` entry. -/
inductive CloneFn
  | abstract_object_clone
  | vector_clone
  | matrix_clone
  | set_clone
  | iterator_clone
  | time_iterator_clone
  deriving DecidableEq, Repr

/-- Functions stored in the `display` entry. -/
inductive DisplayFn
  | abstract_object_display
  | vector_display
  | set_display
  | iterator_display
  | time_iterator_display
  deriving DecidableEq, Repr

/-- Functions stored in the `find`, `insert`, `drop`, `equal` entries of a set. -/
inductive SetFn
  | set_find
  | set_insert
  | set_drop
  | set_equal
  deriving DecidableEq, Repr

/-- Functions stored in the `next`, `prev`, `set`, `get` entries of an iterator. -/
inductive IterFn
  | iterator_next
  | iterator_prev
  | iterator_set
  | iterator_get
  | time_iterator_next
  | time_iterator_prev
  | time_iterator_set
  deriving DecidableEq, Repr

/-- The record `struct Class` of `object.h`. -/
structure Class where
  size : Nat
  name : String
  parent : Option ClassRef
  constructor : Option Ctor
  destructor : Option Dtor
  deriving DecidableEq, Repr

/-- The static data of a linked program: the values of `sizeof` for the six
structs of the repository and the descriptors defined outside it. -/
structure Static where
  sizeof_abstract_object : Nat
  sizeof_vector : Nat
  sizeof_matrix : Nat
  sizeof_set : Nat
  sizeof_iterator : Nat
  sizeof_time_iterator : Nat
  user : Nat → Class

/-- The descriptor `_abstract_object` of `object.h`. -/
def _abstract_object (P : Static) : Class :=
  { size := P.sizeof_abstract_object, name := "abstract object", parent := none,
    constructor := some Ctor.abstract_object_constructor,
    destructor := some Dtor.abstract_object_destructor }

/-- The descriptor `_vector` of `vector.h`. -/
def _vector (P : Static) : Class :=
  { size := P.sizeof_vector, name := "vector", parent := some ClassRef._abstract_object,
    constructor := some Ctor.vector_constructor,
    destructor := some Dtor.vector_destructor }

/-- The descriptor `_matrix` of `matrix.h`. -/
def _matrix (P : Static) : Class :=
  { size := P.sizeof_matrix, name := "matrix", parent := some ClassRef._abstract_object,
    constructor := some Ctor.matrix_constructor,
    destructor := some Dtor.matrix_destructor }

/-- The descriptor `_set` of `set.h`. -/
def _set (P : Static) : Class :=
  { size := P.sizeof_set, name := "set", parent := some ClassRef._abstract_object,
    constructor := some Ctor.set_constructor,
    destructor := some Dtor.set_destructor }

/-- The descriptor `_iterator` of `iterator.h`; it has no destructor. -/
def _iterator (P : Static) : Class :=
  { size := P.sizeof_iterator, name := "iterator", parent := some ClassRef._abstract_object,
    constructor := some Ctor.iterator_constructor,
    destructor := none }

/-- The descriptor `_time_iterator` of `examples/iterator_example.c`. -/
def _time_iterator (P : Static) : Class :=
  { size := P.sizeof_time_iterator, name := "time iterator",
    parent := some ClassRef._iterator,
    constructor := some Ctor.time_iterator_constructor,
    destructor := none }

/-- Reading the descriptor a class pointer points to. -/
def classAt (P : Static) : ClassRef → Class
  | ClassRef._abstract_object => _abstract_object P
  | ClassRef._vector => _vector P
  | ClassRef._matrix => _matrix P
  | ClassRef._set => _set P
  | ClassRef._iterator => _iterator P
  | ClassRef._time_iterator => _time_iterator P
  | ClassRef.user n => P.user n

/-- The global `const void * abstract_object = &_abstract_object`. -/
abbrev abstract_object : ClassRef := ClassRef._abstract_object

/-- The global `const void * vector = &_vector`. -/
abbrev vector : ClassRef := ClassRef._vector

/-- The global `const void * matrix = &_matrix`. -/
abbrev matrix : ClassRef := ClassRef._matrix

/-- The global `const void * set = &_set`. -/
abbrev set : ClassRef := ClassRef._set

/-- The global `const void * iterator = &_iterator`. -/
abbrev iterator : ClassRef := ClassRef._iterator

/-- The global `const void * time_iterator = &_time_iterator`. -/
abbrev time_iterator : ClassRef := ClassRef._time_iterator

/-! ## Instances and the heap -/

/-- The enumeration `variable_type` of `iterator.h`. -/
inductive variable_type
  | POINTER
  | INT
  | FLOAT
  | DOUBLE
  | CHAR
  | STRING
  deriving DecidableEq, Repr

/-- The fields `struct vector` adds to `struct abstract_object`. -/
structure vector_fields where
  dim : Int := 0
  dat : Ptr := NULL
  deriving DecidableEq, Repr

/-- The fields `struct matrix` adds to `struct abstract_object`. -/
structure matrix_fields where
  rows : Int := 0
  cols : Int := 0
  dat : Ptr := NULL
  deriving DecidableEq, Repr

/-- The fields `struct set` adds to `struct abstract_object`. -/
structure set_fields where
  nelements : Int := 0
  element : Ptr := NULL
  find : Option SetFn := none
  insert : Option SetFn := none
  drop : Option SetFn := none
  equal : Option SetFn := none
  deriving DecidableEq, Repr

/-- The fields `struct iterator` adds to `struct abstract_object`. -/
structure iterator_fields where
  val_type : variable_type := variable_type.POINTER
  val : Int := 0
  next : Option IterFn := none
  prev : Option IterFn := none
  set : Option IterFn := none
  get : Option IterFn := none
  deriving DecidableEq, Repr

/-- The fields `struct time_iterator` adds to `struct iterator`. -/
structure time_iterator_fields where
  t0 : real := 0
  dt : real := 0
  step : Int := 0
  deriving DecidableEq, Repr

/-- The contents of an instance block.  The first four fields are
`struct abstract_object` (the class tag comes first); the others are the
fields of the structs that extend it.  The default value of every field is the
all-zero value `calloc` leaves behind. -/
structure Obj where
  «class» : Option ClassRef := none
  differs : Option DiffersFn := none
  clone : Option CloneFn := none
  display : Option DisplayFn := none
  vector : vector_fields := {}
  matrix : matrix_fields := {}
  set : set_fields := {}
  iterator : iterator_fields := {}
  time_iterator : time_iterator_fields := {}
  deriving DecidableEq, Repr

/-- A block handed out by the allocator. -/
inductive Block
  | object (size : Nat) (o : Obj)
  | reals (xs : List real)
  | ptrs (ps : List Ptr)
  deriving DecidableEq, Repr

/-- A call recorded in the trace. -/
inductive Event
  | constructor (c : Ctor) (self : Ptr)
  | destructor (d : Dtor) (self : Ptr)
  | free (p : Ptr)
  deriving DecidableEq, Repr

/-- The state of the running program: the live heap blocks, the text written
to the output stream so far, and the trace of calls. -/
structure State where
  heap : List (Ptr × Block) := []
  out : List String := []
  trace : List Event := []
  deriving DecidableEq, Repr

/-- The block a pointer points to, if it is live. -/
def State.load (s : State) (p : Ptr) : Option Block :=
  if p = NULL then none else s.heap.lookup p

/-- The instance a pointer points to. -/
def State.obj (s : State) (p : Ptr) : Option Obj :=
  match s.load p with
  | some (Block.object _ o) => some o
  | _ => none

/-- The array of reals a pointer points to. -/
def State.reals (s : State) (p : Ptr) : Option (List real) :=
  match s.load p with
  | some (Block.reals xs) => some xs
  | _ => none

/-- The array of pointers a pointer points to. -/
def State.ptrs (s : State) (p : Ptr) : Option (List Ptr) :=
  match s.load p with
  | some (Block.ptrs ps) => some ps
  | _ => none

/-- An address that no live block has. -/
def fresh (heap : List (Ptr × Block)) : Ptr :=
  (heap.map Prod.fst).foldr max 0 + 1

/-- Allocation of a new block with the given contents. -/
def State.alloc (s : State) (b : Block) : Ptr × State :=
  (fresh s.heap, { s with heap := (fresh s.heap, b) :: s.heap })

/-- Overwriting the contents of the block at `p`. -/
def State.store (s : State) (p : Ptr) (b : Block) : State :=
  { s with heap := s.heap.map (fun e => if e.1 = p then (p, b) else e) }

/-- Assignment to fields of the instance at `p`. -/
def State.update (s : State) (p : Ptr) (f : Obj → Obj) : Option State :=
  match s.load p with
  | some (Block.object n o) => some (s.store p (Block.object n (f o)))
  | _ => none

/-- The call `fprintf(fp, ...)` with the formatted text `line`. -/
def State.fprintf (s : State) (line : String) : State :=
  { s with out := s.out ++ [line] }

/-- Adding a call to the trace. -/
def State.record (s : State) (e : Event) : State :=
  { s with trace := s.trace ++ [e] }

/-- The library call `free(p)`: nothing happens for the null pointer,
otherwise the block at `p` is released. -/
def free (p : Ptr) (s : State) : State :=
  if p = NULL then s.record (Event.free p)
  else { s.record (Event.free p) with heap := s.heap.filter (fun e => e.1 != p) }

/-! ## `object.h`: constructors and `new_object` -/

/-- The function `abstract_object_constructor` of `object.h`. -/
def abstract_object_constructor (_self : Ptr) (_args : List Int) (s : State) :
    Option (Ptr × State) := do
  let s0 := s.record (Event.constructor Ctor.abstract_object_constructor _self)
  let s1 ← s0.update _self (fun self =>
    { self with differs := some DiffersFn.abstract_object_differs,
                clone := some CloneFn.abstract_object_clone,
                display := some DisplayFn.abstract_object_display })
  return (_self, s1)

/-- The function `vector_constructor` of `vector.h`. -/
def vector_constructor (_self : Ptr) (args : List Int) (s : State) :
    Option (Ptr × State) := do
  let s0 := s.record (Event.constructor Ctor.vector_constructor _self)
  let (obj, s1) ← abstract_object_constructor _self args s0
  let s2 ← s1.update obj (fun o =>
    { o with clone := some CloneFn.vector_clone, display := some DisplayFn.vector_display })
  let s3 ← s2.update _self (fun self => { self with vector := { dim := 0, dat := NULL } })
  return (_self, s3)

/-- The function `matrix_constructor` of `matrix.h`. -/
def matrix_constructor (_self : Ptr) (args : List Int) (s : State) :
    Option (Ptr × State) := do
  let s0 := s.record (Event.constructor Ctor.matrix_constructor _self)
  let (obj, s1) ← abstract_object_constructor _self args s0
  let s2 ← s1.update obj (fun o => { o with clone := some CloneFn.matrix_clone })
  let s3 ← s2.update _self (fun self =>
    { self with matrix := { rows := 0, cols := 0, dat := NULL } })
  return (_self, s3)

/-- The function `set_constructor` of `set.h`. -/
def set_constructor (_self : Ptr) (args : List Int) (s : State) :
    Option (Ptr × State) := do
  let s0 := s.record (Event.constructor Ctor.set_constructor _self)
  let (obj, s1) ← abstract_object_constructor _self args s0
  let s2 ← s1.update obj (fun o =>
    { o with clone := some CloneFn.set_clone, display := some DisplayFn.set_display })
  let s3 ← s2.update _self (fun self =>
    { self with set := { nelements := 0, element := NULL,
                         find := some SetFn.set_find, insert := some SetFn.set_insert,
                         drop := some SetFn.set_drop, equal := some SetFn.set_equal } })
  return (_self, s3)

/-- The value `va_arg(*args, variable_type)` checked as `iterator_constructor`
does: a value from `0` to `STRING` is kept, any other becomes `POINTER`. -/
def variable_type.ofInt (val_type : Int) : variable_type :=
  if val_type = 1 then variable_type.INT
  else if val_type = 2 then variable_type.FLOAT
  else if val_type = 3 then variable_type.DOUBLE
  else if val_type = 4 then variable_type.CHAR
  else if val_type = 5 then variable_type.STRING
  else variable_type.POINTER

/-- The function `iterator_constructor` of `iterator.h`; the next variadic
argument is the head of `args`. -/
def iterator_constructor (_self : Ptr) (args : List Int) (s : State) :
    Option (Ptr × State) := do
  let s0 := s.record (Event.constructor Ctor.iterator_constructor _self)
  let (obj, s1) ← abstract_object_constructor _self args s0
  let s2 ← s1.update obj (fun o =>
    { o with clone := some CloneFn.iterator_clone, display := some DisplayFn.iterator_display })
  let val_type := args.headD 0
  let s3 ← s2.update _self (fun self =>
    { self with iterator := { val_type := variable_type.ofInt val_type, val := 0,
                              next := some IterFn.iterator_next,
                              prev := some IterFn.iterator_prev,
                              set := some IterFn.iterator_set,
                              get := some IterFn.iterator_get } })
  return (_self, s3)

/-- The function `time_iterator_constructor` of `examples/iterator_example.c`. -/
def time_iterator_constructor (_self : Ptr) (args : List Int) (s : State) :
    Option (Ptr × State) := do
  let s0 := s.record (Event.constructor Ctor.time_iterator_constructor _self)
  let (obj, s1) ← abstract_object_constructor _self args s0
  let s2 ← s1.update obj (fun o =>
    { o with clone := some CloneFn.time_iterator_clone,
             display := some DisplayFn.time_iterator_display })
  let s3 ← s2.update _self (fun self =>
    { self with iterator := { self.iterator with
                                val_type := variable_type.DOUBLE, val := 0,
                                next := some IterFn.time_iterator_next,
                                prev := some IterFn.time_iterator_prev,
                                set := some IterFn.time_iterator_set } })
  let s4 ← s3.update _self (fun tself =>
    { tself with time_iterator := { t0 := 0, dt := 1, step := 0 } })
  return (_self, s4)

/-- The call `f(self, &args)` through a constructor pointer `f`. -/
def call_constructor : Ctor → Ptr → List Int → State → Option (Ptr × State)
  | Ctor.abstract_object_constructor => abstract_object_constructor
  | Ctor.vector_constructor => vector_constructor
  | Ctor.matrix_constructor => matrix_constructor
  | Ctor.set_constructor => set_constructor
  | Ctor.iterator_constructor => iterator_constructor
  | Ctor.time_iterator_constructor => time_iterator_constructor

/-- The function `new_object` of `object.h`: `_class` is the descriptor and
`args` the variadic arguments.  The block is `calloc(1, class->size)`, the tag
is written, and the constructor, if there is one, is called. -/
def new_object (P : Static) (_class : ClassRef) (args : List Int) (s : State) :
    Option (Ptr × State) := do
  let «class» := classAt P _class
  let (objectPointer, s1) := s.alloc (Block.object «class».size {})
  let s2 ← s1.update objectPointer (fun o => { o with «class» := some _class })
  match «class».constructor with
  | some constructor => call_constructor constructor objectPointer args s2
  | none => return (objectPointer, s2)

/-- The statement `new(varname, vartype, ...)`: the macro of `object.h` calls
`new_object(vartype, ..., NULL)`. -/
def new (P : Static) (vartype : ClassRef) (args : List Int) (s : State) :
    Option (Ptr × State) :=
  new_object P vartype (args ++ [0]) s

/-! ## `object.h`: `delete` and the destructors -/

/-- The function `abstract_object_destructor` of `object.h`. -/
def abstract_object_destructor (_self : Ptr) (s : State) : Option (Ptr × State) :=
  some (NULL, s.record (Event.destructor Dtor.abstract_object_destructor _self))

/-- The function `vector_destructor` of `vector.h`. -/
def vector_destructor (_self : Ptr) (s : State) : Option (Ptr × State) := do
  let s0 := s.record (Event.destructor Dtor.vector_destructor _self)
  let self ← s0.obj _self
  return (NULL, free self.vector.dat s0)

/-- The function `matrix_destructor` of `matrix.h`. -/
def matrix_destructor (_self : Ptr) (s : State) : Option (Ptr × State) := do
  let s0 := s.record (Event.destructor Dtor.matrix_destructor _self)
  let self ← s0.obj _self
  return (NULL, free self.matrix.dat s0)

/-- The function `set_destructor` of `set.h`. -/
def set_destructor (_self : Ptr) (s : State) : Option (Ptr × State) := do
  let s0 := s.record (Event.destructor Dtor.set_destructor _self)
  let self ← s0.obj _self
  return (NULL, free self.set.element s0)

/-- The call `f(self)` through a destructor pointer `f`. -/
def call_destructor : Dtor → Ptr → State → Option (Ptr × State)
  | Dtor.abstract_object_destructor => abstract_object_destructor
  | Dtor.vector_destructor => vector_destructor
  | Dtor.matrix_destructor => matrix_destructor
  | Dtor.set_destructor => set_destructor

/-- The function `delete` of `object.h`: when `_self`, its tag and the tag's
destructor are all non-null, `_self` is replaced by what the destructor
returns; then `free(_self)`. -/
def delete (P : Static) (_self : Ptr) (s : State) : Option State :=
  if _self = NULL then some (free _self s)
  else do
    let self ← s.obj _self
    match self.«class» with
    | none => return free _self s
    | some objectClass =>
      match (classAt P objectClass).destructor with
      | none => return free _self s
      | some destructor =>
        let (r, s1) ← call_destructor destructor _self s
        return free r s1

/-! ## `object.h`: run-time type information -/

/-- The function `object_size` of `object.h`. -/
def object_size (P : Static) (s : State) (_self : Ptr) : Option Nat :=
  if _self = NULL then some 0
  else do
    let self ← s.obj _self
    match self.«class» with
    | some c => return (classAt P c).size
    | none => return 0

/-- The function `is_a` of `object.h`: `(*self) == class`. -/
def is_a (s : State) (_self : Ptr) (_class : Option ClassRef) : Option Int := do
  let self ← s.obj _self
  return if self.«class» = _class then 1 else 0

/-- The loop of `inherits_from`, started at `ancestor_class`; each test of the
loop condition with a non-null `ancestor_class` uses one unit of fuel. -/
def inherits_from_loop (P : Static) («class» : Option ClassRef) :
    Nat → Option ClassRef → Option Int
  | _, none => some 0
  | 0, some _ => none
  | fuel + 1, some ancestor_class =>
    if some ancestor_class = «class» then some 1
    else inherits_from_loop P «class» fuel (classAt P ancestor_class).parent

/-- The function `inherits_from` of `object.h`. -/
def inherits_from (P : Static) (fuel : Nat) (s : State) (_self : Ptr)
    («class» : Option ClassRef) : Option Int := do
  let self ← s.obj _self
  inherits_from_loop P «class» fuel self.«class»

/-! ## `object.h`: the root class -/

/-- The function `abstract_object_differs` of `object.h`: `a != b`. -/
def abstract_object_differs (_a _b : Ptr) : Int :=
  if _a ≠ _b then 1 else 0

/-- The function `abstract_object_clone` of `object.h`. -/
def abstract_object_clone (P : Static) (_self : Ptr) (s : State) : Option (Ptr × State) :=
  if _self ≠ NULL then new P abstract_object [] s
  else some (NULL, s)

/-- The function `abstract_object_display` of `object.h`. -/
def abstract_object_display (P : Static) (_self : Ptr) (s : State) :
    Option (Ptr × State) := do
  let self ← s.obj _self
  let c ← self.«class»
  let «class» := classAt P c
  let s1 := s.fprintf ("Object: " ++ toString _self ++ "\n")
  let s2 := s1.fprintf ("Class: " ++ «class».name ++ "\n")
  let s3 := s2.fprintf ("Size: " ++ toString «class».size ++ "\n")
  match «class».parent with
  | some parent => return (_self, s3.fprintf ("Parent: " ++ (classAt P parent).name ++ "\n"))
  | none => return (_self, s3)

/-! ## `vector.h`, `matrix.h`, `set.h`, `iterator.h`: clone and display overrides -/

/-- The call `calloc(n, sizeof(real))` for an `int` count `n`: a negative
count is a size no allocator grants, and the result is `NULL`. -/
def calloc_reals (n : Int) (s : State) : Ptr × State :=
  if n < 0 then (NULL, s) else s.alloc (Block.reals (List.replicate n.toNat 0))

/-- The call `calloc(sizeof(void *), n)` for an `int` count `n`. -/
def calloc_ptrs (n : Int) (s : State) : Ptr × State :=
  if n < 0 then (NULL, s) else s.alloc (Block.ptrs (List.replicate n.toNat NULL))

/-- The loop `for(i = ...; ...; ++i) dst[i] = src[i]` over arrays of reals, with
`count` iterations left. -/
def copy_reals (dst src : Ptr) : Nat → Nat → State → Option State
  | 0, _, s => some s
  | count + 1, i, s => do
    let xs ← s.reals src
    let x ← xs[i]?
    let ys ← s.reals dst
    if i < ys.length then copy_reals dst src count (i + 1) (s.store dst (Block.reals (ys.set i x)))
    else none

/-- The loop `for(i = ...; ...; ++i) dst[i] = src[i]` over arrays of pointers,
with `count` iterations left. -/
def copy_ptrs (dst src : Ptr) : Nat → Nat → State → Option State
  | 0, _, s => some s
  | count + 1, i, s => do
    let xs ← s.ptrs src
    let x ← xs[i]?
    let ys ← s.ptrs dst
    if i < ys.length then copy_ptrs dst src count (i + 1) (s.store dst (Block.ptrs (ys.set i x)))
    else none

/-- The function `vector_set_dim` of `vector.h`.  When `dat` is already set the
source calls `realloc(self, dim)` on the instance itself; what follows is
undefined, and the embedding has no result there. -/
def vector_set_dim (P : Static) (fuel : Nat) (_self : Ptr) (dim : Int) (s : State) :
    Option State := do
  if (← inherits_from P fuel s _self (some vector)) ≠ 0 then
    let s1 ← s.update _self (fun self => { self with vector := { self.vector with dim := dim } })
    let self ← s1.obj _self
    if self.vector.dat = NULL then
      let (p, s2) := calloc_reals dim s1
      s2.update _self (fun self => { self with vector := { self.vector with dat := p } })
    else none
  else return s

/-- The function `vector_clone` of `vector.h`. -/
def vector_clone (P : Static) (fuel : Nat) (_self : Ptr) (s : State) :
    Option (Ptr × State) := do
  if (← inherits_from P fuel s _self (some vector)) ≠ 0 then
    let self ← s.obj _self
    let (w, s1) ← new P vector [] s
    let s2 ← vector_set_dim P fuel w self.vector.dim s1
    let wobj ← s2.obj w
    let s3 ← copy_reals wobj.vector.dat self.vector.dat self.vector.dim.toNat 0 s2
    return (w, s3)
  else return (NULL, s)

/-- The function `vector_display` of `vector.h`. -/
def vector_display (P : Static) (fuel : Nat) (_self : Ptr) (s : State) :
    Option (Ptr × State) := do
  let (_, s1) ← abstract_object_display P _self s
  if (← inherits_from P fuel s1 _self (some vector)) ≠ 0 then
    let self ← s1.obj _self
    return (NULL, s1.fprintf ("dim: " ++ toString self.vector.dim ++ "\n"))
  else return (NULL, s1)

/-- The function `matrix_set_dim` of `matrix.h`; as in `vector_set_dim`, the
branch that calls `realloc(self, dim)` has no result. -/
def matrix_set_dim (P : Static) (fuel : Nat) (_self : Ptr) (rows cols : Int) (s : State) :
    Option State := do
  if (← inherits_from P fuel s _self (some matrix)) ≠ 0 then
    let s1 ← s.update _self (fun self =>
      { self with matrix := { self.matrix with rows := rows, cols := cols } })
    let dim := rows * cols
    let self ← s1.obj _self
    if self.matrix.dat = NULL then
      let (p, s2) := calloc_reals dim s1
      s2.update _self (fun self => { self with matrix := { self.matrix with dat := p } })
    else none
  else return s

/-- The function `matrix_clone` of `matrix.h`. -/
def matrix_clone (P : Static) (fuel : Nat) (_self : Ptr) (s : State) :
    Option (Ptr × State) := do
  if (← inherits_from P fuel s _self (some matrix)) ≠ 0 then
    let self ← s.obj _self
    let (A, s1) ← new P matrix [] s
    let s2 ← matrix_set_dim P fuel A self.matrix.rows self.matrix.cols s1
    let Aobj ← s2.obj A
    let s3 ← copy_reals Aobj.matrix.dat self.matrix.dat
      (self.matrix.rows * self.matrix.cols).toNat 0 s2
    return (A, s3)
  else return (NULL, s)

/-- The function `set_clone` of `set.h`. -/
def set_clone (P : Static) (fuel : Nat) (_self : Ptr) (s : State) :
    Option (Ptr × State) := do
  if (← inherits_from P fuel s _self (some set)) ≠ 0 then
    let self ← s.obj _self
    let (A, s1) ← new P set [] s
    let s2 ← s1.update A (fun a => { a with set := { a.set with nelements := self.set.nelements } })
    let (p, s3) := calloc_ptrs self.set.nelements s2
    let s4 ← s3.update A (fun a => { a with set := { a.set with element := p } })
    let s5 ← copy_ptrs p self.set.element self.set.nelements.toNat 0 s4
    return (A, s5)
  else return (NULL, s)

/-- The function `set_display` of `set.h`. -/
def set_display (P : Static) (fuel : Nat) (_self : Ptr) (s : State) :
    Option (Ptr × State) := do
  let (_, s1) ← abstract_object_display P _self s
  if (← inherits_from P fuel s1 _self (some set)) ≠ 0 then
    let self ← s1.obj _self
    return (NULL, s1.fprintf ("Number of elements: " ++ toString self.set.nelements ++ "\n"))
  else return (NULL, s1)

/-- The function `iterator_set` of `iterator.h`. -/
def iterator_set (_self : Ptr) (val : Int) (s : State) : Option (Int × State) := do
  let s1 ← s.update _self (fun self => { self with iterator := { self.iterator with val := val } })
  return (val, s1)

/-- The function `iterator_clone` of `iterator.h`. -/
def iterator_clone (P : Static) (fuel : Nat) (_self : Ptr) (s : State) :
    Option (Ptr × State) := do
  if (← inherits_from P fuel s _self (some iterator)) ≠ 0 then
    let self ← s.obj _self
    let (i, s1) ← new P iterator [] s
    let s2 ← s1.update i (fun o =>
      { o with iterator := { o.iterator with val_type := self.iterator.val_type } })
    let s3 ← s2.update i (fun o => { o with iterator := { o.iterator with val := self.iterator.val } })
    return (i, s3)
  else return (NULL, s)

/-- The function `iterator_display` of `iterator.h`; every case of the
`switch` prints the current value followed by a newline. -/
def iterator_display (P : Static) (fuel : Nat) (_self : Ptr) (s : State) :
    Option (Ptr × State) := do
  let (_, s1) ← abstract_object_display P _self s
  if (← inherits_from P fuel s1 _self (some iterator)) ≠ 0 then
    let self ← s1.obj _self
    let s2 := s1.fprintf "Current value: "
    return (NULL, s2.fprintf (toString self.iterator.val ++ "\n"))
  else return (NULL, s1)

/-- The function `time_iterator_clone` of `examples/iterator_example.c`. -/
def time_iterator_clone (P : Static) (fuel : Nat) (_self : Ptr) (s : State) :
    Option (Ptr × State) := do
  if (← inherits_from P fuel s _self (some time_iterator)) ≠ 0 then
    let self ← s.obj _self
    let (i, s1) ← new P time_iterator [] s
    let s2 ← s1.update i (fun o =>
      { o with time_iterator := { t0 := self.time_iterator.t0, dt := self.time_iterator.dt,
                                  step := self.time_iterator.step } })
    let s3 ← s2.update i (fun iti =>
      { iti with iterator := { iti.iterator with val_type := self.iterator.val_type } })
    let (_, s4) ← iterator_set i self.iterator.val s3
    return (i, s4)
  else return (NULL, s)

/-- The function `time_iterator_display` of `examples/iterator_example.c`. -/
def time_iterator_display (P : Static) (fuel : Nat) (_self : Ptr) (s : State) :
    Option (Ptr × State) := do
  let (_, s1) ← iterator_display P fuel _self s
  if (← inherits_from P fuel s1 _self (some time_iterator)) ≠ 0 then
    let self ← s1.obj _self
    let s2 := s1.fprintf ("Initial time: " ++ toString self.time_iterator.t0 ++ "\n")
    return (NULL, s2.fprintf ("Time step: " ++ toString self.time_iterator.dt ++ "\n"))
  else return (NULL, s1)

/-! ## `object.h`: the public entry points -/

/-- The call `f(a, b)` through a `differs` pointer `f`. -/
def call_differs : DiffersFn → Ptr → Ptr → Int
  | DiffersFn.abstract_object_differs => abstract_object_differs

/-- The call `f(self)` through a `clone` pointer `f`. -/
def call_clone (P : Static) (fuel : Nat) : CloneFn → Ptr → State → Option (Ptr × State)
  | CloneFn.abstract_object_clone => abstract_object_clone P
  | CloneFn.vector_clone => vector_clone P fuel
  | CloneFn.matrix_clone => matrix_clone P fuel
  | CloneFn.set_clone => set_clone P fuel
  | CloneFn.iterator_clone => iterator_clone P fuel
  | CloneFn.time_iterator_clone => time_iterator_clone P fuel

/-- The call `f(self, fp)` through a `display` pointer `f`. -/
def call_display (P : Static) (fuel : Nat) : DisplayFn → Ptr → State → Option (Ptr × State)
  | DisplayFn.abstract_object_display => abstract_object_display P
  | DisplayFn.vector_display => vector_display P fuel
  | DisplayFn.set_display => set_display P fuel
  | DisplayFn.iterator_display => iterator_display P fuel
  | DisplayFn.time_iterator_display => time_iterator_display P fuel

/-- The function `display` of `object.h`. -/
def display (P : Static) (fuel : Nat) (_self : Ptr) (s : State) : Option (Ptr × State) := do
  if (← inherits_from P fuel s _self (some abstract_object)) ≠ 0 then
    let self ← s.obj _self
    match self.display with
    | some f => call_display P fuel f _self s
    | none => return (NULL, s)
  else return (NULL, s)

/-- The function `clone` of `object.h`. -/
def clone (P : Static) (fuel : Nat) (_self : Ptr) (s : State) : Option (Ptr × State) := do
  if (← inherits_from P fuel s _self (some abstract_object)) ≠ 0 then
    let self ← s.obj _self
    match self.clone with
    | some f => if _self ≠ NULL then call_clone P fuel f _self s else return (NULL, s)
    | none => return (NULL, s)
  else return (NULL, s)

/-- The function `differs` of `object.h`. -/
def differs (P : Static) (fuel : Nat) (s : State) (_self b : Ptr) : Option Int := do
  if (← inherits_from P fuel s _self (some abstract_object)) ≠ 0 then
    let self ← s.obj _self
    match self.differs with
    | some f => if _self ≠ NULL then return call_differs f _self b else return 1
    | none => return 1
  else return 1

/-! ## `vector.h`: components, sum and difference -/

/-- The value of `v->dat[i]` for a vector `v`. -/
def vector_component (s : State) (_v : Ptr) (i : Nat) : Option real := do
  let v ← s.obj _v
  let xs ← s.reals v.vector.dat
  xs[i]?

/-- The value of `M->dat[k]` for a matrix `M`. -/
def matrix_dat (s : State) (_M : Ptr) (k : Nat) : Option real := do
  let M ← s.obj _M
  let xs ← s.reals M.matrix.dat
  xs[k]?

/-- The assignment `a[i] = val` to an entry of an array of reals. -/
def State.write_real (s : State) (a : Ptr) (i : Int) (val : real) : Option State := do
  let xs ← s.reals a
  if 0 ≤ i ∧ i.toNat < xs.length then some (s.store a (Block.reals (xs.set i.toNat val)))
  else none

/-- The value of `a[i]` in an array of reals. -/
def State.read_real (s : State) (a : Ptr) (i : Int) : Option real := do
  let xs ← s.reals a
  if 0 ≤ i then xs[i.toNat]? else none

/-- The loop `for(i = ...; ...; ++i) dst[i] = a[i] + b[i]` of `vector_add` and
`vector_subtract`, with `count` iterations left. -/
def sum_loop (dst a b : Ptr) : Nat → Int → State → Option State
  | 0, _, s => some s
  | count + 1, i, s => do
    let x ← s.read_real a i
    let y ← s.read_real b i
    let s1 ← s.write_real dst i (x + y)
    sum_loop dst a b count (i + 1) s1

/-- The loop `for(i = ...; ...; ++i) dst[i] = src[i]` of `vector_add` and
`vector_subtract`, started at any index, with `count` iterations left. -/
def tail_loop (dst src : Ptr) : Nat → Int → State → Option State
  | 0, _, s => some s
  | count + 1, i, s => do
    let x ← s.read_real src i
    let s1 ← s.write_real dst i x
    tail_loop dst src count (i + 1) s1

/-- The function `vector_add` of `vector.h`.  The dimensions are compared
before the guard; the first loop runs over `0 .. uminus->dim - 1`, the second
over `uminus->dim + 1 .. uplus->dim - 1`. -/
def vector_add (P : Static) (fuel : Nat) (_v _w : Ptr) (s : State) : Option (Ptr × State) := do
  let v ← s.obj _v
  let w ← s.obj _w
  let uminus := if v.vector.dim > w.vector.dim then w else v
  let uplus := if v.vector.dim > w.vector.dim then v else w
  if (← inherits_from P fuel s _v (some vector)) ≠ 0 then
    if (← inherits_from P fuel s _w (some vector)) ≠ 0 then
      let (vplusw, s1) ← new P vector [] s
      let s2 ← vector_set_dim P fuel vplusw uplus.vector.dim s1
      let r ← s2.obj vplusw
      let s3 ← sum_loop r.vector.dat uminus.vector.dat uplus.vector.dat
        uminus.vector.dim.toNat 0 s2
      let s4 ← tail_loop r.vector.dat uplus.vector.dat
        (uplus.vector.dim - (uminus.vector.dim + 1)).toNat (uminus.vector.dim + 1) s3
      return (vplusw, s4)
    else return (NULL, s)
  else return (NULL, s)

/-- The function `vector_subtract` of `vector.h`; its body is that of
`vector_add`, the sum included. -/
def vector_subtract (P : Static) (fuel : Nat) (_v _w : Ptr) (s : State) :
    Option (Ptr × State) := do
  let v ← s.obj _v
  let w ← s.obj _w
  let uminus := if v.vector.dim > w.vector.dim then w else v
  let uplus := if v.vector.dim > w.vector.dim then v else w
  if (← inherits_from P fuel s _v (some vector)) ≠ 0 then
    if (← inherits_from P fuel s _w (some vector)) ≠ 0 then
      let (vminusw, s1) ← new P vector [] s
      let s2 ← vector_set_dim P fuel vminusw uplus.vector.dim s1
      let r ← s2.obj vminusw
      let s3 ← sum_loop r.vector.dat uminus.vector.dat uplus.vector.dat
        uminus.vector.dim.toNat 0 s2
      let s4 ← tail_loop r.vector.dat uplus.vector.dat
        (uplus.vector.dim - (uminus.vector.dim + 1)).toNat (uminus.vector.dim + 1) s3
      return (vminusw, s4)
    else return (NULL, s)
  else return (NULL, s)

/-- The assignments `a[i] = x0; a[i + 1] = x1; ...` for the values `xs`. -/
def write_reals (a : Ptr) : List real → Int → State → Option State
  | [], _, s => some s
  | x :: xs, i, s => do
    let s1 ← s.write_real a i x
    write_reals a xs (i + 1) s1

/-- The statements `vector_set_dim(v, n); v->dat[0] = x0; v->dat[1] = x1; ...`
as in `examples/vector_example.c`, for a vector `v` and the `n` values `xs`. -/
def vector_fill (P : Static) (fuel : Nat) (_v : Ptr) (xs : List real) (s : State) :
    Option State := do
  let s1 ← vector_set_dim P fuel _v xs.length s
  let v ← s1.obj _v
  write_reals v.vector.dat xs 0 s1

/-! ## `set.h`: the set operations -/

/-- The loop of `set_find`: `for(i = ...; ...; ++i) if(self_element[i] == element) return i;`
with `count` iterations left, and `return -1` after it. -/
def set_find_loop (s : State) (self_element element : Ptr) : Nat → Nat → Option Int
  | 0, _ => some (-1)
  | count + 1, i => do
    let ps ← s.ptrs self_element
    let e ← ps[i]?
    if e = element then some (i : Int)
    else set_find_loop s self_element element count (i + 1)

/-- The function `set_find` of `set.h`. -/
def set_find (s : State) (_self _element : Ptr) : Option Int := do
  let self ← s.obj _self
  set_find_loop s self.set.element _element self.set.nelements.toNat 0

/-- The condition `inherits_from(_self, set) && inherits_from(_element, abstract_object)`;
the second call is made only when the first returns non-zero. -/
def set_guard (P : Static) (fuel : Nat) (s : State) (_self _element : Ptr) : Option Bool := do
  if (← inherits_from P fuel s _self (some set)) ≠ 0 then
    return decide ((← inherits_from P fuel s _element (some abstract_object)) ≠ 0)
  else return false

/-- The call `self->find(_self, _element)`.  The function the repository stores
in the `find` entry is `set_find`; a call through another pointer is not
modelled. -/
def call_find : SetFn → State → Ptr → Ptr → Option Int
  | SetFn.set_find => set_find
  | _ => fun _ _ _ => none

/-- The function `find` of `set.h`. -/
def find (P : Static) (fuel : Nat) (s : State) (_self _element : Ptr) : Option Int := do
  if (← set_guard P fuel s _self _element) then
    let self ← s.obj _self
    match self.set.find with
    | some f => call_find f s _self _element
    | none => return -1
  else return -1

/-- The function `contains` of `set.h`: `find(_self, _element) != -1`. -/
def contains (P : Static) (fuel : Nat) (s : State) (_self _element : Ptr) : Option Int := do
  return if (← find P fuel s _self _element) ≠ -1 then 1 else 0

/-- The call `realloc(p, n * sizeof(void *))` for a positive count `n`: a null
`p` gives a new block; otherwise the block keeps its address (which the library
allows), keeps its first `n` entries and is extended to `n` entries. -/
def realloc_ptrs (p : Ptr) (n : Int) (s : State) : Option (Ptr × State) :=
  if n ≤ 0 then none
  else if p = NULL then some (s.alloc (Block.ptrs (List.replicate n.toNat NULL)))
  else do
    let ps ← s.ptrs p
    return (p, s.store p
      (Block.ptrs (ps.take n.toNat ++ List.replicate (n.toNat - ps.length) NULL)))

/-- The assignment `a[i] = val` to an entry of an array of pointers. -/
def State.write_ptr (s : State) (a : Ptr) (i : Int) (val : Ptr) : Option State := do
  let ps ← s.ptrs a
  if 0 ≤ i ∧ i.toNat < ps.length then some (s.store a (Block.ptrs (ps.set i.toNat val)))
  else none

/-- The value of `a[i]` in an array of pointers. -/
def State.read_ptr (s : State) (a : Ptr) (i : Int) : Option Ptr := do
  let ps ← s.ptrs a
  if 0 ≤ i then ps[i.toNat]? else none

/-- The function `set_insert` of `set.h`. -/
def set_insert (P : Static) (fuel : Nat) (_self _element : Ptr) (s : State) : Option State := do
  if (← set_guard P fuel s _self _element) then
    if (← contains P fuel s _self _element) = 0 then
      let s1 ← s.update _self (fun self =>
        { self with set := { self.set with nelements := self.set.nelements + 1 } })
      let self ← s1.obj _self
      let (p, s2) ← realloc_ptrs self.set.element self.set.nelements s1
      let s3 ← s2.update _self (fun self => { self with set := { self.set with element := p } })
      s3.write_ptr p (self.set.nelements - 1) _element
    else return s
  else return s

/-- The function `set_drop` of `set.h`. -/
def set_drop (P : Static) (fuel : Nat) (_self _element : Ptr) (s : State) : Option State := do
  if (← contains P fuel s _self _element) ≠ 0 then
    let i ← set_find s _self _element
    let self ← s.obj _self
    let last ← s.read_ptr self.set.element (self.set.nelements - 1)
    let s1 ← s.write_ptr self.set.element i last
    let s2 ← s1.write_ptr self.set.element (self.set.nelements - 1) NULL
    s2.update _self (fun self =>
      { self with set := { self.set with nelements := self.set.nelements - 1 } })
  else return s

/-- The loop of `set_equal`: `for(i = ...; ...; ++i) if(!contains(B, A_element[i])) return 0;`
with `count` iterations left, and `return 1` after it. -/
def set_equal_loop (P : Static) (fuel : Nat) (s : State) (A_element _B : Ptr) :
    Nat → Nat → Option Int
  | 0, _ => some 1
  | count + 1, i => do
    let e ← s.read_ptr A_element i
    if (← contains P fuel s _B e) = 0 then some 0
    else set_equal_loop P fuel s A_element _B count (i + 1)

/-- The function `set_equal` of `set.h`. -/
def set_equal (P : Static) (fuel : Nat) (s : State) (_A _B : Ptr) : Option Int := do
  let A ← s.obj _A
  let B ← s.obj _B
  if A.set.nelements = B.set.nelements then
    set_equal_loop P fuel s A.set.element _B A.set.nelements.toNat 0
  else return 0

/-- The calls `self->insert(_self, _element)` and `self->drop(_self, _element)`:
the functions of that type are `set_insert` and `set_drop`. -/
def call_set_update (P : Static) (fuel : Nat) : SetFn → Ptr → Ptr → State → Option State
  | SetFn.set_insert => set_insert P fuel
  | SetFn.set_drop => set_drop P fuel
  | _ => fun _ _ _ => none

/-- The call `A->equal(_A, _B)`: the functions of that type are `set_equal` and
`set_find`. -/
def call_equal (P : Static) (fuel : Nat) : SetFn → State → Ptr → Ptr → Option Int
  | SetFn.set_equal => set_equal P fuel
  | SetFn.set_find => set_find
  | _ => fun _ _ _ => none

/-- The function `insert` of `set.h`. -/
def insert (P : Static) (fuel : Nat) (_self _element : Ptr) (s : State) : Option State := do
  if (← set_guard P fuel s _self _element) then
    let self ← s.obj _self
    match self.set.insert with
    | some f => call_set_update P fuel f _self _element s
    | none => return s
  else return s

/-- The function `drop` of `set.h`. -/
def drop (P : Static) (fuel : Nat) (_self _element : Ptr) (s : State) : Option State := do
  if (← set_guard P fuel s _self _element) then
    let self ← s.obj _self
    match self.set.drop with
    | some f => call_set_update P fuel f _self _element s
    | none => return s
  else return s

/-- The function `equal` of `set.h`; `inherits_from(_B, set)` is evaluated only
when `inherits_from(_A, set)` is non-zero. -/
def equal (P : Static) (fuel : Nat) (s : State) (_A _B : Ptr) : Option Int := do
  if (← inherits_from P fuel s _A (some set)) ≠ 0 then
    if (← inherits_from P fuel s _B (some set)) ≠ 0 then
      let A ← s.obj _A
      match A.set.equal with
      | some f => call_equal P fuel f s _A _B
      | none => return 0
    else return 0
  else return 0

/-! ## `list.h`: growable lists -/

/-- The record `struct int_list`: `element` holds the contents of the array the
pointer `element` points to, one entry per allocated slot. -/
structure int_list where
  n : Int
  element : List Int
  size : Int
  deriving DecidableEq, Repr

/-- The record `struct string_list`; a `char *` entry is the string it points
to, the null pointer being the empty string. -/
structure string_list where
  n : Int
  element : List String
  size : Int
  deriving DecidableEq, Repr

/-- The array `realloc(element, n * sizeof(...))` returns: the first `n` entries
are kept, new entries hold `fill`. -/
def realloc_array {α : Type} (fill : α) (element : List α) (n : Int) : List α :=
  element.take n.toNat ++ List.replicate (n.toNat - element.length) fill

/-- The loop `for(n = ...; n > i; --n) element[n] = element[n - 1];` of the push
functions, at index `n`, with `count` iterations left. -/
def push_loop {α : Type} : Nat → Nat → List α → Option (List α)
  | 0, _, element => some element
  | count + 1, n, element => do
    if n = 0 then none
    else
      let v ← element[n - 1]?
      if n < element.length then push_loop count (n - 1) (element.set n v) else none

/-- The loop `for(n = ...; n < list->n - 1; ++n) element[n] = element[n + 1];` of
the pop functions, at index `n`, with `count` iterations left. -/
def pop_loop {α : Type} : Nat → Nat → List α → Option (List α)
  | 0, _, element => some element
  | count + 1, n, element => do
    let v ← element[n + 1]?
    if n < element.length then pop_loop count (n + 1) (element.set n v) else none

/-- The function `int_list_alloc` of `list.h`. -/
def int_list_alloc (list : int_list) (n : Int) : int_list :=
  { list with size := n, n := n, element := List.replicate n.toNat 0 }

/-- The function `string_list_alloc` of `list.h`. -/
def string_list_alloc (list : string_list) (n : Int) : string_list :=
  { list with size := n, n := n, element := List.replicate n.toNat "" }

/-- The function `int_list_set` of `list.h`. -/
def int_list_set (list : int_list) (i : Int) (val : Int) : Option (Int × int_list) :=
  if 0 ≤ i ∧ i.toNat < list.element.length then
    some (val, { list with element := list.element.set i.toNat val })
  else none

/-- The function `int_read` of `list.h`. -/
def int_read (list : int_list) (i : Int) : Option Int :=
  if 0 ≤ i then list.element[i.toNat]? else none

/-- The function `string_read` of `list.h`. -/
def string_read (list : string_list) (i : Int) : Option String :=
  if 0 ≤ i then list.element[i.toNat]? else none

/-- The function `int_list_pop` of `list.h`. -/
def int_list_pop (list : int_list) (i : Int) : Option (Int × int_list) := do
  let val ← int_read list i
  let element ← pop_loop (list.n - 1 - i).toNat i.toNat list.element
  return (val, { list with element := element, n := list.n - 1 })

/-- The function `int_list_push` of `list.h`. -/
def int_list_push (list : int_list) (i : Int) (val : Int) : Option (Int × int_list) := do
  let list1 := { list with n := list.n + 1 }
  let list2 :=
    if list1.n > list1.size then
      { list1 with size := list1.n, element := realloc_array 0 list1.element list1.n }
    else list1
  if i < 0 then none
  else
    let element ← push_loop (list2.n - 1 - i).toNat (list2.n - 1).toNat list2.element
    if i.toNat < element.length then
      return (val, { list2 with element := element.set i.toNat val })
    else none

/-- The function `string_list_push` of `list.h`. -/
def string_list_push (list : string_list) (i : Int) (val : String) :
    Option (String × string_list) := do
  let list1 := { list with n := list.n + 1 }
  let list2 :=
    if list1.n > list1.size then
      { list1 with size := list1.n, element := realloc_array "" list1.element list1.n }
    else list1
  if i < 0 then none
  else
    let element ← push_loop (list2.n - 1 - i).toNat (list2.n - 1).toNat list2.element
    if i.toNat < element.length then
      return (val, { list2 with element := element.set i.toNat val })
    else none

/-- The entries `list_read(list, 0) .. list_read(list, n - 1)` that the loops of
`examples/list_example.c` print. -/
def int_list_contents (list : int_list) : List Int :=
  list.element.take list.n.toNat

/-- The entries of a string list that the loops of `examples/list_example.c`
print. -/
def string_list_contents (list : string_list) : List String :=
  list.element.take list.n.toNat

/-- The statements `list_init(&intl, 10); for(i = 0; i < intl.n; ++i) list_set(&intl, i, i + 1);`
of `examples/list_example.c`. -/
def example_intl : Option int_list :=
  (List.range 10).foldl
    (fun acc i => acc.bind fun l => (int_list_set l i (i + 1)).map Prod.snd)
    (some (int_list_alloc { n := 0, element := [], size := 0 } 10))

/-! ## `matrix.h`: transpose and product -/

/-- The statement `for(int i = ...; i < bound; ++i) body`, with `count`
iterations left and `i` the current index.  The bounds of the loops modelled
with it (`M->rows`, `M->cols`, `A->cols`, `v->dim`) are fields of instances,
and the bodies assign to entries of arrays of reals only, so the bound is the
same at every test of the loop condition. -/
def for_loop (body : Int → State → Option State) : Nat → Int → State → Option State
  | 0, _, s => some s
  | count + 1, i, s => do
    let s1 ← body i s
    for_loop body count (i + 1) s1

/-- The assignment `M->dat[M->cols*i + j] = A->dat[A->cols*j + i]` of
`matrix_transpose`. -/
def transpose_assign (A M : Obj) (i j : Int) (s : State) : Option State := do
  let x ← s.read_real A.matrix.dat (A.matrix.cols * j + i)
  s.write_real M.matrix.dat (M.matrix.cols * i + j) x

/-- The function `matrix_transpose` of `matrix.h`. -/
def matrix_transpose (P : Static) (fuel : Nat) (_A : Ptr) (s : State) :
    Option (Ptr × State) := do
  if (← inherits_from P fuel s _A (some matrix)) ≠ 0 then
    let A ← s.obj _A
    let (_M, s1) ← new P matrix [] s
    let s2 ← matrix_set_dim P fuel _M A.matrix.cols A.matrix.rows s1
    let M ← s2.obj _M
    let s3 ← for_loop (fun i => for_loop (fun j => transpose_assign A M i j)
      M.matrix.cols.toNat 0) M.matrix.rows.toNat 0 s2
    return (_M, s3)
  else return (NULL, s)

/-- The assignment `M->dat[M->cols*i + j] += A->dat[A->cols*i + k]*B->dat[B->cols*k + j]`
of `matrix_dot`. -/
def dot_assign (A B M : Obj) (i j k : Int) (s : State) : Option State := do
  let m ← s.read_real M.matrix.dat (M.matrix.cols * i + j)
  let a ← s.read_real A.matrix.dat (A.matrix.cols * i + k)
  let b ← s.read_real B.matrix.dat (B.matrix.cols * k + j)
  s.write_real M.matrix.dat (M.matrix.cols * i + j) (m + a * b)

/-- The condition `inherits_from(A, matrix) && inherits_from(B, matrix) && A->cols == B->rows`
of `matrix_dot`, evaluated from left to right. -/
def matrix_dot_matrix_case (P : Static) (fuel : Nat) (s : State) (_A _B : Ptr) :
    Option Bool := do
  if (← inherits_from P fuel s _A (some matrix)) ≠ 0 then
    if (← inherits_from P fuel s _B (some matrix)) ≠ 0 then
      let A ← s.obj _A
      let B ← s.obj _B
      return decide (A.matrix.cols = B.matrix.rows)
    else return false
  else return false

/-- The condition `inherits_from(A, matrix) && inherits_from(u, vector) && A->cols == u->dim`
of `matrix_dot`, evaluated from left to right. -/
def matrix_dot_vector_case (P : Static) (fuel : Nat) (s : State) (_A _B : Ptr) :
    Option Bool := do
  if (← inherits_from P fuel s _A (some matrix)) ≠ 0 then
    if (← inherits_from P fuel s _B (some vector)) ≠ 0 then
      let A ← s.obj _A
      let u ← s.obj _B
      return decide (A.matrix.cols = u.vector.dim)
    else return false
  else return false

/-- The function `matrix_dot` of `matrix.h`: the product of two matrices, or of
a matrix and a vector. -/
def matrix_dot (P : Static) (fuel : Nat) (_A _B : Ptr) (s : State) : Option (Ptr × State) := do
  if (← matrix_dot_matrix_case P fuel s _A _B) then
    let A ← s.obj _A
    let B ← s.obj _B
    let (_M, s1) ← new P matrix [] s
    let s2 ← matrix_set_dim P fuel _M A.matrix.rows B.matrix.cols s1
    let M ← s2.obj _M
    let s3 ← for_loop (fun i => for_loop (fun j => for_loop (fun k => dot_assign A B M i j k)
      A.matrix.cols.toNat 0) M.matrix.cols.toNat 0) M.matrix.rows.toNat 0 s2
    return (_M, s3)
  else if (← matrix_dot_vector_case P fuel s _A _B) then
    let A ← s.obj _A
    let u ← s.obj _B
    let (_v, s1) ← new P vector [] s
    let s2 ← vector_set_dim P fuel _v A.matrix.rows s1
    let v ← s2.obj _v
    let s3 ← for_loop (fun i => for_loop (fun j s => do
        let m ← s.read_real v.vector.dat i
        let a ← s.read_real A.matrix.dat (A.matrix.cols * i + j)
        let b ← s.read_real u.vector.dat j
        s.write_real v.vector.dat i (m + a * b)) A.matrix.cols.toNat 0) v.vector.dim.toNat 0 s2
    return (_v, s3)
  else return (NULL, s)

/-- The statements `matrix_set_dim(M, rows, cols); M->dat[0] = x0; M->dat[1] = x1; ...`
as in `examples/matrix_example.c`, for a matrix `M` and the values `xs` of its
entries, row after row. -/
def matrix_fill (P : Static) (fuel : Nat) (_M : Ptr) (rows cols : Int) (xs : List real)
    (s : State) : Option State := do
  let s1 ← matrix_set_dim P fuel _M rows cols s
  let M ← s1.obj _M
  write_reals M.matrix.dat xs 0 s1

/-! ## `iterator.h`: reading the current value -/

/-- The function `iterator_get` of `iterator.h`. -/
def iterator_get (_self : Ptr) (s : State) : Option Int := do
  let self ← s.obj _self
  return self.iterator.val

/-- The call `self->get(_self)`.  The function the repository stores in the
`get` entry is `iterator_get`; a call through another pointer is not
modelled. -/
def call_get : IterFn → Ptr → State → Option Int
  | IterFn.iterator_get => iterator_get
  | _ => fun _ _ => none

/-- The function `get` of `iterator.h`; `(union iterator_value) NULL` is the
value 0. -/
def get (P : Static) (fuel : Nat) (_self : Ptr) (s : State) : Option Int := do
  if (← inherits_from P fuel s _self (some iterator)) ≠ 0 then
    let self ← s.obj _self
    match self.iterator.get with
    | some f => call_get f _self s
    | none => return 0
  else return 0

/-! ## Notions used to state the properties -/

/-- The class `Q` is reached from `C` by following parent links zero or more
times: `Q` is `C` itself or one of its ancestors. -/
inductive Reaches (P : Static) : ClassRef → ClassRef → Prop
  | self (C : ClassRef) : Reaches P C C
  | parent {C D Q : ClassRef} :
      (classAt P C).parent = some D → Reaches P D Q → Reaches P C Q

/-- The parent chain of `C` ends after `d` parent links: `d = 0` when `C` has
no parent, and one more than the depth of the parent otherwise. -/
inductive Depth (P : Static) : ClassRef → Nat → Prop
  | root {C : ClassRef} : (classAt P C).parent = none → Depth P C 0
  | parent {C D : ClassRef} {d : Nat} :
      (classAt P C).parent = some D → Depth P D d → Depth P C (d + 1)

/-- A program with the sizes of a 64-bit ABI and four further descriptors:
`user 0` is a class without parent, constructor and destructor; `user 1` has the
same contents as `_vector`; `user 2` derives from `abstract_object`, delegates
construction to the root constructor and declares no destructor; `user 3` is
its own parent. -/
def demo : Static :=
  { sizeof_abstract_object := 32, sizeof_vector := 48, sizeof_matrix := 48,
    sizeof_set := 80, sizeof_iterator := 80, sizeof_time_iterator := 104,
    user := fun n =>
      if n = 0 then
        { size := 8, name := "plain", parent := none, constructor := none, destructor := none }
      else if n = 1 then
        { size := 48, name := "vector", parent := some ClassRef._abstract_object,
          constructor := some Ctor.vector_constructor,
          destructor := some Dtor.vector_destructor }
      else if n = 2 then
        { size := 40, name := "derived", parent := some ClassRef._abstract_object,
          constructor := some Ctor.abstract_object_constructor, destructor := none }
      else
        { size := 8, name := "loop", parent := some (ClassRef.user 3),
          constructor := none, destructor := none } }

/-- The state a run of statements ends in (the empty state when the run has
no result). -/
def after (r : Option (Ptr × State)) : State :=
  (r.map Prod.snd).getD {}

/-- The state of `examples/abstract_object_example.c` after
`new(a, abstract_object); new(b, abstract_object);`: `a` is block 1 and `b` is
block 2. -/
def example_roots : State :=
  after ((new demo abstract_object [] {}).bind fun a => new demo abstract_object [] a.2)

/-- The state after `new(v, vector); new(p, user 0); new(x, user 2); new(it, iterator, INT);`
in the program `demo`: blocks 1 to 4. -/
def example_mixed : State :=
  after ((new demo vector [] {}).bind fun v =>
    (new demo (ClassRef.user 0) [] v.2).bind fun p =>
      (new demo (ClassRef.user 2) [] p.2).bind fun x => new demo iterator [1] x.2)

/-- The state of `examples/set_example.c` after the statements up to
`insert(A, A);`: `A` is block 1, `M` block 2, `v` block 4, `B` block 5, `C`
block 6; blocks 3 and 7 are the arrays of `A` and `C`. -/
def example_sets : State :=
  ((new demo set [] {}).bind fun A =>
    (new demo matrix [] A.2).bind fun M =>
    (insert demo 3 A.1 M.1 M.2).bind fun s1 =>
    (insert demo 3 A.1 M.1 s1).bind fun s2 =>
    (new demo vector [] s2).bind fun v =>
    (insert demo 3 A.1 v.1 v.2).bind fun s3 =>
    (new demo set [] s3).bind fun B =>
    (clone demo 3 A.1 B.2).bind fun C =>
    (insert demo 3 A.1 B.1 C.2).bind fun s4 =>
    (insert demo 3 A.1 C.1 s4).bind fun s5 =>
    insert demo 3 A.1 A.1 s5).getD {}

/-- The state after `new(A, set); insert(A, A);`: `A` is block 1 and its array
block 2. -/
def example_self : State :=
  ((new demo set [] {}).bind fun A => insert demo 3 A.1 A.1 A.2).getD {}

/-- The state after `new(A, set); insert(A, A); C = clone(A);`: `A` is block 1,
`C` block 3, their arrays blocks 2 and 4. -/
def example_cloned : State :=
  after (clone demo 3 1 example_self)

/-- The state after `new(v, vector); new(w, vector);` and the filling of `v`
with `(1, 0, -2)` and of `w` with `(0, 1, -5)`, as in
`examples/vector_example.c` with whole numbers: `v` is block 1, `w` block 2,
their arrays blocks 3 and 4. -/
def example_vectors : State :=
  ((new demo vector [] {}).bind fun v =>
    (new demo vector [] v.2).bind fun w =>
    (vector_fill demo 2 v.1 [1, 0, -2] w.2).bind fun s1 =>
    vector_fill demo 2 w.1 [0, 1, -5] s1).getD {}

/-- The state after `new(v, vector); new(w, vector);` and the filling of `v`
with `(1)` and of `w` with `(1, 2, 3)`: `v` is block 1, `w` block 2, their
arrays blocks 3 and 4. -/
def example_short_long : State :=
  ((new demo vector [] {}).bind fun v =>
    (new demo vector [] v.2).bind fun w =>
    (vector_fill demo 2 v.1 [1] w.2).bind fun s1 =>
    vector_fill demo 2 w.1 [1, 2, 3] s1).getD {}

/-- The contents of a block right after `calloc`, the tagging with
`abstract_object` and `abstract_object_constructor`: the three entries hold the
root defaults and every other field is zero. -/
def root_default : Obj :=
  { «class» := some abstract_object,
    differs := some DiffersFn.abstract_object_differs,
    clone := some CloneFn.abstract_object_clone,
    display := some DisplayFn.abstract_object_display }

/-- The destructor calls of a trace, in order. -/
def destructor_calls : List Event → List (Dtor × Ptr)
  | [] => []
  | Event.destructor d self :: t => (d, self) :: destructor_calls t
  | _ :: t => destructor_calls t

/-- The pointers handed to `free` in a trace, in order. -/
def freed : List Event → List Ptr
  | [] => []
  | Event.free p :: t => p :: freed t
  | _ :: t => freed t

/-- The instance `x` is live and its class `C` is `K` or a descendant of `K`,
with a parent chain short enough for a walk of `fuel` iterations. -/
def Inherits (P : Static) (fuel : Nat) (s : State) (x : Ptr) (K : ClassRef) : Prop :=
  ∃ o C d, s.obj x = some o ∧ o.«class» = some C ∧ Depth P C d ∧ d + 1 ≤ fuel ∧ Reaches P C K

/-- The instance `x` is live and its class, whose parent chain is short enough
for a walk of `fuel` iterations, is neither `K` nor a descendant of `K`. -/
def NotInherits (P : Static) (fuel : Nat) (s : State) (x : Ptr) (K : ClassRef) : Prop :=
  ∃ o C d, s.obj x = some o ∧ o.«class» = some C ∧ Depth P C d ∧ d + 1 ≤ fuel
    ∧ ¬ Reaches P C K

/-- Every instance of `s` is an instance of `s2` with the same size, the same
tag and the same `clone` entry. -/
def TagsKept (s s2 : State) : Prop :=
  ∀ q n o, s.load q = some (Block.object n o) →
    ∃ o2, s2.load q = some (Block.object n o2) ∧ o2.«class» = o.«class» ∧ o2.clone = o.clone

/-- The set `A` of the state `s` is reachable from a freshly constructed set
by `insert`, `drop` and `clone`, with any other activity in between that
leaves the live blocks as they are (such as the creation of further
instances). -/
inductive ReachableSet (P : Static) (fuel : Nat) : State → Ptr → Prop
  | fresh {s s1 : State} {args : List Int} {A : Ptr} :
      new_object P set args s = some (A, s1) → ReachableSet P fuel s1 A
  | insert {s s2 : State} {A x : Ptr} :
      ReachableSet P fuel s A → Inherits P fuel s x abstract_object →
      insert P fuel A x s = some s2 → ReachableSet P fuel s2 A
  | drop {s s2 : State} {A x : Ptr} :
      ReachableSet P fuel s A → Inherits P fuel s x abstract_object →
      drop P fuel A x s = some s2 → ReachableSet P fuel s2 A
  | clone {s s2 : State} {A c : Ptr} :
      ReachableSet P fuel s A → clone P fuel A s = some (c, s2) → ReachableSet P fuel s2 c
  | frame {s s2 : State} {A : Ptr} :
      ReachableSet P fuel s A → (∀ q, s.load q ≠ none → s2.load q = s.load q) →
      ReachableSet P fuel s2 A

/-- The instance `A` is a set (its class is `set` or a descendant, the four
entries are those `set_constructor` installs) that stores the elements `l`, in
this order, at the indices `0 .. nelements - 1` of its array, and every stored
element is a live instance that descends from `abstract_object`. -/
def SetView (P : Static) (fuel : Nat) (s : State) (A : Ptr) (l : List Ptr) : Prop :=
  ∃ o, s.obj A = some o ∧ Inherits P fuel s A set
    ∧ o.set.find = some SetFn.set_find ∧ o.set.insert = some SetFn.set_insert
    ∧ o.set.drop = some SetFn.set_drop ∧ o.set.equal = some SetFn.set_equal
    ∧ o.set.nelements = (l.length : Int)
    ∧ ((o.set.element = NULL ∧ l = []) ∨ ∃ ps, s.ptrs o.set.element = some ps ∧ l <+: ps)
    ∧ ∀ e ∈ l, Inherits P fuel s e abstract_object

/-- A list as `list_init`, `list_push` and `list_pop` leave it: the length `n`
is between 0 and `size`, and the array has `size` slots. -/
def int_list_wf (list : int_list) : Prop :=
  0 ≤ list.n ∧ list.n ≤ list.size ∧ (list.element.length : Int) = list.size

/-- The contents a constructor of the repository leaves in a block whose
contents were `o`, as a summary of the assignments it makes. -/
def constructed : Ctor → List Int → Obj → Obj
  | Ctor.abstract_object_constructor, _, o =>
    { o with differs := some DiffersFn.abstract_object_differs,
             clone := some CloneFn.abstract_object_clone,
             display := some DisplayFn.abstract_object_display }
  | Ctor.vector_constructor, _, o =>
    { o with differs := some DiffersFn.abstract_object_differs,
             clone := some CloneFn.vector_clone,
             display := some DisplayFn.vector_display,
             vector := { dim := 0, dat := NULL } }
  | Ctor.matrix_constructor, _, o =>
    { o with differs := some DiffersFn.abstract_object_differs,
             clone := some CloneFn.matrix_clone,
             display := some DisplayFn.abstract_object_display,
             matrix := { rows := 0, cols := 0, dat := NULL } }
  | Ctor.set_constructor, _, o =>
    { o with differs := some DiffersFn.abstract_object_differs,
             clone := some CloneFn.set_clone,
             display := some DisplayFn.set_display,
             set := { nelements := 0, element := NULL,
                      find := some SetFn.set_find, insert := some SetFn.set_insert,
                      drop := some SetFn.set_drop, equal := some SetFn.set_equal } }
  | Ctor.iterator_constructor, args, o =>
    { o with differs := some DiffersFn.abstract_object_differs,
             clone := some CloneFn.iterator_clone,
             display := some DisplayFn.iterator_display,
             iterator := { val_type := variable_type.ofInt (args.headD 0), val := 0,
                           next := some IterFn.iterator_next,
                           prev := some IterFn.iterator_prev,
                           set := some IterFn.iterator_set,
                           get := some IterFn.iterator_get } }
  | Ctor.time_iterator_constructor, _, o =>
    { o with differs := some DiffersFn.abstract_object_differs,
             clone := some CloneFn.time_iterator_clone,
             display := some DisplayFn.time_iterator_display,
             iterator := { o.iterator with
                             val_type := variable_type.DOUBLE, val := 0,
                             next := some IterFn.time_iterator_next,
                             prev := some IterFn.time_iterator_prev,
                             set := some IterFn.time_iterator_set },
             time_iterator := { t0 := 0, dt := 1, step := 0 } }

/-- The constructor calls of a trace, in order. -/
def constructor_calls : List Event → List (Ctor × Ptr)
  | [] => []
  | Event.constructor c self :: t => (c, self) :: constructor_calls t
  | _ :: t => constructor_calls t

/-- The entry `M[i][j]` of a matrix in row-major storage: `M->dat[M->cols*i + j]`,
as `matrix_print` reads it. -/
def matrix_entry (s : State) (_M : Ptr) (i j : Nat) : Option real := do
  let M ← s.obj _M
  s.read_real M.matrix.dat (M.matrix.cols * i + j)

/-- Between the states `s0` and `s` only the array of reals at `dst` has been
assigned to, and it holds `zs` in `s`. -/
def ArrayFrame (s0 s : State) (dst : Ptr) (zs : List real) : Prop :=
  s.reals dst = some zs ∧ (∀ q, q ≠ dst → s.load q = s0.load q) ∧ s.out = s0.out
    ∧ s.trace = s0.trace

/-- The instance `A` is a matrix (its class is `matrix` or a descendant) with
`r` rows and `c` columns whose array holds `r * c` reals or more; a matrix
without entries needs no array. -/
def MatrixView (P : Static) (fuel : Nat) (s : State) (A : Ptr) (r c : Nat) : Prop :=
  ∃ o, s.obj A = some o ∧ Inherits P fuel s A matrix
    ∧ o.matrix.rows = (r : Int) ∧ o.matrix.cols = (c : Int)
    ∧ (r * c = 0 ∨ ∃ xs, s.reals o.matrix.dat = some xs ∧ r * c ≤ xs.length)

/-- The state after `new(A, matrix); new(B, matrix);`, with `A` set to the
2 x 3 matrix of rows `(1, 2, 3)`, `(4, 5, 6)` and `B` to the 3 x 2 matrix of
rows `(1, 0)`, `(0, 1)`, `(2, 2)`: `A` is block 1, `B` block 2, their arrays
blocks 3 and 4. -/
def example_matrices : State :=
  ((new demo matrix [] {}).bind fun A =>
    (new demo matrix [] A.2).bind fun B =>
    (matrix_fill demo 2 A.1 2 3 [1, 2, 3, 4, 5, 6] B.2).bind fun s1 =>
    matrix_fill demo 2 B.1 3 2 [1, 0, 0, 1, 2, 2] s1).getD {}

/-! ## Facts about the heap -/

theorem mem_of_lookup (heap : List (Ptr × Block)) (k : Ptr) (b : Block)
    (h : heap.lookup k = some b) : (k, b) ∈ heap := by
  induction heap with
  | nil => simp at h
  | cons e t ih =>
    obtain ⟨k1, b1⟩ := e
    by_cases hk : k = k1
    · subst hk
      simp only [List.lookup_cons, beq_self_eq_true, Option.some.injEq] at h
      subst h
      exact List.mem_cons_self _ _
    · have hb : (k == k1) = false := by simpa using hk
      simp only [List.lookup_cons, hb] at h
      exact List.mem_cons_of_mem _ (ih h)

theorem lt_fresh (heap : List (Ptr × Block)) (k : Ptr) (b : Block) (h : (k, b) ∈ heap) :
    k < fresh heap := by
  induction heap with
  | nil => cases h
  | cons e t ih =>
    simp only [fresh, List.map_cons, List.foldr_cons] at ih ⊢
    rcases List.mem_cons.1 h with h1 | h1
    · subst h1
      exact Nat.lt_succ_of_le (Nat.le_max_left _ _)
    · have h2 := ih h1
      exact Nat.lt_succ_of_le (le_trans (Nat.le_of_lt_succ h2) (Nat.le_max_right _ _))

theorem lookup_fresh (heap : List (Ptr × Block)) : heap.lookup (fresh heap) = none := by
  cases hl : heap.lookup (fresh heap) with
  | none => rfl
  | some b => exact absurd (lt_fresh heap _ b (mem_of_lookup heap _ b hl)) (lt_irrefl _)

theorem lookup_store (heap : List (Ptr × Block)) (p q : Ptr) (b : Block) :
    (heap.map (fun e => if e.1 = p then (p, b) else e)).lookup q
      = if q = p then (heap.lookup p).map (fun _ => b) else heap.lookup q := by
  induction heap with
  | nil => simp
  | cons e t ih =>
    obtain ⟨k1, b1⟩ := e
    by_cases hq : q = p
    · subst hq
      by_cases hk : k1 = q
      · subst hk; simp
      · have hb : (q == k1) = false := by simpa using fun h => hk h.symm
        simp only [List.map_cons, hk, if_false, List.lookup_cons, hb, ih, if_true]
    · by_cases hk : k1 = p
      · subst hk
        have hb : (q == k1) = false := by simpa using hq
        simp only [List.map_cons, if_true, List.lookup_cons, hb, ih, hq, if_false]
      · simp only [List.map_cons, hk, if_false, List.lookup_cons, ih, hq]

theorem lookup_erase (heap : List (Ptr × Block)) (p q : Ptr) :
    (heap.filter (fun e => e.1 != p)).lookup q = if q = p then none else heap.lookup q := by
  induction heap with
  | nil => simp
  | cons e t ih =>
    obtain ⟨k1, b1⟩ := e
    by_cases hk : k1 = p
    · have hf : (k1 != p) = false := by simp [hk]
      rw [List.filter_cons, if_neg (by simp [hf]), ih]
      by_cases hq : q = p
      · simp [hq]
      · have hb : (q == k1) = false := by simpa [hk] using hq
        simp [hq, List.lookup_cons, hb]
    · have hf : (k1 != p) = true := by simp [hk]
      rw [List.filter_cons, if_pos (by simp [hf]), List.lookup_cons, ih, List.lookup_cons]
      by_cases hq : q = p
      · subst hq
        have hb : (q == k1) = false := by simpa using fun h => hk h.symm
        simp [hb]
      · simp [hq]

/-! ## Facts about loading from a state -/

@[simp] theorem load_null (s : State) : s.load 0 = none := by
  simp [State.load]

@[simp] theorem load_record (s : State) (e : Event) (q : Ptr) :
    (s.record e).load q = s.load q := rfl

@[simp] theorem load_fprintf (s : State) (l : String) (q : Ptr) :
    (s.fprintf l).load q = s.load q := rfl

theorem fresh_pos (heap : List (Ptr × Block)) : fresh heap ≠ 0 := by
  simp [fresh]

theorem load_fresh (s : State) : s.load (fresh s.heap) = none := by
  simp [State.load, lookup_fresh]

theorem load_alloc (s : State) (b : Block) (q : Ptr) :
    (s.alloc b).2.load q = if q = fresh s.heap then some b else s.load q := by
  by_cases hq : q = fresh s.heap
  · subst hq
    simp [State.load, State.alloc, fresh_pos]
  · have hb : (q == fresh s.heap) = false := by simpa using hq
    simp [State.load, State.alloc, hq, List.lookup_cons, hb]

theorem load_store (s : State) (p q : Ptr) (b : Block) :
    (s.store p b).load q = if q = p then (s.load p).map (fun _ => b) else s.load q := by
  by_cases h0 : q = 0
  · subst h0
    by_cases hp : (0 : Ptr) = p
    · subst hp; simp
    · simp [hp]
  · simp only [State.load, State.store, h0, if_false, lookup_store]
    by_cases hq : q = p
    · subst hq; simp [h0]
    · simp [hq]

theorem load_free (p : Ptr) (s : State) (q : Ptr) :
    (free p s).load q = if q = p then none else s.load q := by
  by_cases hp : p = 0
  · subst hp
    by_cases hq : q = 0
    · subst hq; simp
    · simp [free, hq]
  · by_cases h0 : q = 0
    · subst h0; simp
    · simp only [free, hp, if_false, State.load, h0, lookup_erase, State.record]

theorem load_store_self (s : State) (p : Ptr) (b0 b : Block) (h : s.load p = some b0) :
    (s.store p b).load p = some b := by
  simp [load_store, h]

theorem load_store_other (s : State) (p q : Ptr) (b : Block) (h : q ≠ p) :
    (s.store p b).load q = s.load q := by
  simp [load_store, h]

theorem obj_of_load (s : State) (p : Ptr) (n : Nat) (o : Obj)
    (h : s.load p = some (Block.object n o)) : s.obj p = some o := by
  simp [State.obj, h]

theorem load_of_obj (s : State) (p : Ptr) (o : Obj) (h : s.obj p = some o) :
    ∃ n, s.load p = some (Block.object n o) := by
  unfold State.obj at h
  split at h
  · rename_i n o1 hl
    cases h
    exact ⟨n, hl⟩
  · cases h

theorem update_of_load (s : State) (p : Ptr) (n : Nat) (o : Obj) (f : Obj → Obj)
    (h : s.load p = some (Block.object n o)) :
    s.update p f = some (s.store p (Block.object n (f o))) := by
  simp [State.update, h]

@[simp] theorem store_out (s : State) (p : Ptr) (b : Block) : (s.store p b).out = s.out := rfl

@[simp] theorem store_trace (s : State) (p : Ptr) (b : Block) :
    (s.store p b).trace = s.trace := rfl

@[simp] theorem record_out (s : State) (e : Event) : (s.record e).out = s.out := rfl

@[simp] theorem record_trace (s : State) (e : Event) :
    (s.record e).trace = s.trace ++ [e] := rfl

/-- What the root constructor leaves in the block it is given. -/
theorem abstract_object_constructor_eq (s : State) (p : Ptr) (args : List Int) (n : Nat)
    (o : Obj) (h : s.load p = some (Block.object n o)) :
    abstract_object_constructor p args s
      = some (p, (s.record (Event.constructor Ctor.abstract_object_constructor p)).store p
          (Block.object n { o with differs := some DiffersFn.abstract_object_differs,
                                   clone := some CloneFn.abstract_object_clone,
                                   display := some DisplayFn.abstract_object_display })) := by
  have h0 : (s.record (Event.constructor Ctor.abstract_object_constructor p)).load p
      = some (Block.object n o) := by simpa using h
  simp [abstract_object_constructor, update_of_load _ p n o _ h0]

/-- Every constructor of the repository returns the block it was given, leaves
the tag and every other block alone, writes nothing to the output, and leaves
the `differs` entry at the root default. -/
theorem call_constructor_spec (c : Ctor) (s : State) (p : Ptr) (args : List Int) (n : Nat)
    (o : Obj) (h : s.load p = some (Block.object n o)) :
    ∃ s1 o1, call_constructor c p args s = some (p, s1)
      ∧ s1.load p = some (Block.object n o1)
      ∧ o1.«class» = o.«class»
      ∧ o1.differs = some DiffersFn.abstract_object_differs
      ∧ (∀ q, q ≠ p → s1.load q = s.load q)
      ∧ s1.out = s.out := by
  cases c <;>
  simp [call_constructor, vector_constructor, matrix_constructor, set_constructor,
      iterator_constructor, time_iterator_constructor,
      abstract_object_constructor, State.update, load_store, h] <;>
  intro q hq <;> simp [hq]

/-- The state and block `new_object` produces: the block is new, carries the
size and the tag of the class, and no other block is touched. -/
theorem new_object_spec (P : Static) (C : ClassRef) (args : List Int) (s : State) :
    ∃ s1 o1, new_object P C args s = some (fresh s.heap, s1)
      ∧ s1.load (fresh s.heap) = some (Block.object (classAt P C).size o1)
      ∧ o1.«class» = some C
      ∧ ((classAt P C).constructor ≠ none → o1.differs = some DiffersFn.abstract_object_differs)
      ∧ (∀ q, q ≠ fresh s.heap → s1.load q = s.load q)
      ∧ s1.out = s.out := by
  have ha : (s.alloc (Block.object (classAt P C).size {})).2.load (fresh s.heap)
      = some (Block.object (classAt P C).size {}) := by simp [load_alloc]
  have hu := update_of_load _ _ _ _ (fun o => { o with «class» := some C }) ha
  have hl := load_store_self _ (fresh s.heap) _
    (Block.object (classAt P C).size ({ «class» := some C } : Obj)) ha
  have hother : ∀ q, q ≠ fresh s.heap →
      ((s.alloc (Block.object (classAt P C).size {})).2.store (fresh s.heap)
        (Block.object (classAt P C).size ({ «class» := some C } : Obj))).load q = s.load q := by
    intro q hq
    rw [load_store_other _ _ _ _ hq, load_alloc, if_neg hq]
  cases hc : (classAt P C).constructor with
  | none =>
    refine ⟨_, _, ?_, hl, rfl, ?_, hother, rfl⟩
    · simp only [new_object, State.alloc] at hu ⊢
      simp [State.alloc, hu, hc]
    · intro h; exact absurd rfl h
  | some c =>
    obtain ⟨s1, o1, h1, h2, h3, h4, h5, h6⟩ := call_constructor_spec c _ _ args _ _ hl
    refine ⟨s1, o1, ?_, h2, h3, fun _ => h4, ?_, ?_⟩
    · simp only [new_object, State.alloc] at hu h1 ⊢
      simp [State.alloc, hu, hc, h1]
    · intro q hq
      rw [h5 q hq, hother q hq]
    · rw [h6]; rfl

/-! ## Facts about the ancestor walk -/

theorem depth_parent (P : Static) (C D : ClassRef) (d : Nat) (hd : Depth P C d)
    (hp : (classAt P C).parent = some D) : ∃ e, d = e + 1 ∧ Depth P D e := by
  cases hd with
  | root h => rw [h] at hp; cases hp
  | parent h hD => rw [h] at hp; cases hp; exact ⟨_, rfl, hD⟩

/-- The walk answers within `d + 1` iterations when the chain has depth `d`. -/
theorem loop_total (P : Static) (Q : Option ClassRef) (C : ClassRef) (d : Nat)
    (hd : Depth P C d) :
    ∀ fuel, d + 1 ≤ fuel →
      inherits_from_loop P Q fuel (some C) = some 1
        ∨ inherits_from_loop P Q fuel (some C) = some 0 := by
  induction hd with
  | @root C0 h =>
    intro fuel hf
    obtain ⟨k, rfl⟩ : ∃ k, fuel = k + 1 := ⟨fuel - 1, by omega⟩
    by_cases hq : some C0 = Q
    · left; simp [inherits_from_loop, hq]
    · right; simp [inherits_from_loop, hq, h]
  | @parent C0 D0 d0 h _ ih =>
    intro fuel hf
    obtain ⟨k, rfl⟩ : ∃ k, fuel = k + 1 := ⟨fuel - 1, by omega⟩
    by_cases hq : some C0 = Q
    · left; simp [inherits_from_loop, hq]
    · simp only [inherits_from_loop, hq, if_false, h]
      exact ih k (by omega)

/-- An answer of 1 means that the class was met on the chain. -/
theorem loop_sound (P : Static) (Q : Option ClassRef) :
    ∀ (fuel : Nat) (C : ClassRef), inherits_from_loop P Q fuel (some C) = some 1 →
      ∃ A, Q = some A ∧ Reaches P C A := by
  intro fuel
  induction fuel with
  | zero => intro C h; simp [inherits_from_loop] at h
  | succ k ih =>
    intro C h
    by_cases hq : some C = Q
    · exact ⟨C, hq.symm, Reaches.self C⟩
    · simp only [inherits_from_loop, hq, if_false] at h
      cases hp : (classAt P C).parent with
      | none => rw [hp] at h; simp [inherits_from_loop] at h
      | some D =>
        rw [hp] at h
        obtain ⟨A, hA, hr⟩ := ih D h
        exact ⟨A, hA, Reaches.parent hp hr⟩

/-- A class on the chain is found when the fuel covers the depth of the chain. -/
theorem loop_complete (P : Static) (C A : ClassRef) (hr : Reaches P C A) :
    ∀ (d fuel : Nat), Depth P C d → d + 1 ≤ fuel →
      inherits_from_loop P (some A) fuel (some C) = some 1 := by
  induction hr with
  | self C =>
    intro d fuel _ hf
    obtain ⟨k, rfl⟩ : ∃ k, fuel = k + 1 := ⟨fuel - 1, by omega⟩
    simp [inherits_from_loop]
  | @parent C0 D0 A0 hp _ ih =>
    intro d fuel hd hf
    obtain ⟨k, rfl⟩ : ∃ k, fuel = k + 1 := ⟨fuel - 1, by omega⟩
    obtain ⟨e, rfl, hD⟩ := depth_parent P _ _ d hd hp
    by_cases hq : some C0 = some A0
    · simp only [inherits_from_loop, hq, if_true]
    · simp only [inherits_from_loop, hq, if_false, hp]
      exact ih e k hD (by omega)

/-! ## Run-time type information (C1, C2, C3) -/

/-- C1: `new_object` returns an instance tagged with its class `C`; for every
instance `x` tagged `C`, when the parent chain of `C` ends after `d` links and
the walk is given at least `d + 1` iterations, `inherits_from(x, Q)` returns 1
or 0, and it returns 1 exactly when `Q` is `C` or an ancestor of `C`; so it is
1 for `C` and for the parent of `C`, and 0 for every `Q` not on the chain. -/
theorem C1_inherits_from_iff_on_chain (P : Static) (C : ClassRef) (d fuel : Nat)
    (hd : Depth P C d) (hf : d + 1 ≤ fuel) :
    (∀ (s : State) (args : List Int), ∃ x s1 o,
        new_object P C args s = some (x, s1) ∧ x ≠ NULL ∧ s1.obj x = some o
          ∧ o.«class» = some C)
    ∧ (∀ (s : State) (x : Ptr) (o : Obj), s.obj x = some o → o.«class» = some C →
        (∀ Q : Option ClassRef,
          (inherits_from P fuel s x Q = some 1 ∨ inherits_from P fuel s x Q = some 0)
          ∧ (inherits_from P fuel s x Q = some 1 ↔ ∃ A, Q = some A ∧ Reaches P C A)
          ∧ (inherits_from P fuel s x Q = some 0 ↔ ¬ ∃ A, Q = some A ∧ Reaches P C A))
        ∧ inherits_from P fuel s x (some C) = some 1
        ∧ (∀ D, (classAt P C).parent = some D → inherits_from P fuel s x (some D) = some 1)) := by
  have key : ∀ (s : State) (x : Ptr) (o : Obj), s.obj x = some o → o.«class» = some C →
      ∀ Q : Option ClassRef, inherits_from P fuel s x Q = inherits_from_loop P Q fuel (some C) := by
    intro s x o ho hc Q
    simp [inherits_from, ho, hc]
  have iff1 : ∀ Q : Option ClassRef,
      inherits_from_loop P Q fuel (some C) = some 1 ↔ ∃ A, Q = some A ∧ Reaches P C A := by
    intro Q
    constructor
    · exact loop_sound P Q fuel C
    · rintro ⟨A, rfl, hr⟩
      exact loop_complete P C A hr d fuel hd hf
  refine ⟨?_, ?_⟩
  · intro s args
    obtain ⟨s1, o1, h1, h2, h3, -, -, -⟩ := new_object_spec P C args s
    exact ⟨_, s1, o1, h1, fresh_pos _, obj_of_load _ _ _ _ h2, h3⟩
  · intro s x o ho hc
    refine ⟨?_, ?_, ?_⟩
    · intro Q
      rw [key s x o ho hc Q]
      refine ⟨loop_total P Q C d hd fuel hf, iff1 Q, ?_⟩
      constructor
      · intro h0 h1
        rw [(iff1 Q).2 h1] at h0
        cases h0
      · intro hn
        rcases loop_total P Q C d hd fuel hf with h | h
        · exact absurd ((iff1 Q).1 h) hn
        · exact h
    · rw [key s x o ho hc]
      exact (iff1 _).2 ⟨C, rfl, Reaches.self C⟩
    · intro D hD
      rw [key s x o ho hc]
      exact (iff1 _).2 ⟨D, rfl, Reaches.parent hD (Reaches.self D)⟩

/-- Witness for C1: the vector of the mixed state (block 1) inherits from
`vector` and from `abstract_object`, and not from `matrix`. -/
theorem C1_inherits_from_iff_on_chain_witness :
    Depth demo vector 1 ∧ 1 + 1 ≤ 2
      ∧ inherits_from demo 2 example_mixed 1 (some vector) = some 1
      ∧ inherits_from demo 2 example_mixed 1 (some abstract_object) = some 1
      ∧ inherits_from demo 2 example_mixed 1 (some matrix) = some 0 :=
  have hn : ¬ ∃ A, some matrix = some A ∧ Reaches demo vector A := by
    rintro ⟨A, hA, hr⟩
    cases hA
    cases hr with
    | parent hp h2 =>
      cases hp
      cases h2 with
      | parent hp2 _ => cases hp2
  ⟨Depth.parent rfl (Depth.root rfl), le_refl 2,
    ((C1_inherits_from_iff_on_chain demo vector 1 2 (Depth.parent rfl (Depth.root rfl))
      (le_refl 2)).2 example_mixed 1 _ rfl rfl).2.1,
    ((C1_inherits_from_iff_on_chain demo vector 1 2 (Depth.parent rfl (Depth.root rfl))
      (le_refl 2)).2 example_mixed 1 _ rfl rfl).2.2 abstract_object rfl,
    (((C1_inherits_from_iff_on_chain demo vector 1 2 (Depth.parent rfl (Depth.root rfl))
      (le_refl 2)).2 example_mixed 1 _ rfl rfl).1 (some matrix)).2.2.2 hn⟩

/-- C2: for every instance `x` created by `new_object` from `C`, and for every
instance tagged `C`, `is_a(x, Q)` returns 1 when `Q` is the descriptor `C` and 0
for every other `Q`: 0 for every strict ancestor of `C` and 0 for a different
descriptor with the same contents as `C`. -/
theorem C2_is_a_iff_same_descriptor (P : Static) (C : ClassRef) :
    (∀ (s : State) (args : List Int), ∃ x s1 o,
        new_object P C args s = some (x, s1) ∧ s1.obj x = some o ∧ o.«class» = some C
          ∧ ∀ Q : Option ClassRef, is_a s1 x Q = some (if Q = some C then 1 else 0))
    ∧ (∀ (s : State) (x : Ptr) (o : Obj), s.obj x = some o → o.«class» = some C →
        (∀ Q : Option ClassRef, is_a s x Q = some 1 ↔ Q = some C)
        ∧ (∀ Q : Option ClassRef, is_a s x Q = some 0 ↔ Q ≠ some C)
        ∧ (∀ A, Reaches P C A → A ≠ C → is_a s x (some A) = some 0)
        ∧ (∀ Q, Q ≠ C → classAt P Q = classAt P C → is_a s x (some Q) = some 0)) := by
  have key : ∀ (s : State) (x : Ptr) (o : Obj), s.obj x = some o → o.«class» = some C →
      ∀ Q : Option ClassRef, is_a s x Q = some (if Q = some C then 1 else 0) := by
    intro s x o ho hc Q
    by_cases hq : Q = some C
    · simp [is_a, ho, hc, hq]
    · have hq2 : ¬ some C = Q := fun h => hq h.symm
      simp [is_a, ho, hc, hq, hq2]
  refine ⟨?_, ?_⟩
  · intro s args
    obtain ⟨s1, o1, h1, h2, h3, -, -, -⟩ := new_object_spec P C args s
    have ho := obj_of_load _ _ _ _ h2
    exact ⟨_, s1, o1, h1, ho, h3, key s1 _ o1 ho h3⟩
  · intro s x o ho hc
    refine ⟨?_, ?_, ?_, ?_⟩
    · intro Q
      rw [key s x o ho hc Q]
      by_cases hq : Q = some C <;> simp [hq]
    · intro Q
      rw [key s x o ho hc Q]
      by_cases hq : Q = some C <;> simp [hq]
    · intro A _ hA
      rw [key s x o ho hc]
      simp [hA]
    · intro Q hQ _
      rw [key s x o ho hc]
      simp [hQ]

/-- Witness for C2: the vector of the mixed state (block 1) is a `vector`, is
not an `abstract_object`, and is not an instance of `user 1`, a descriptor with
the same contents as `_vector`. -/
theorem C2_is_a_iff_same_descriptor_witness :
    classAt demo (ClassRef.user 1) = classAt demo vector
      ∧ is_a example_mixed 1 (some vector) = some 1
      ∧ is_a example_mixed 1 (some abstract_object) = some 0
      ∧ is_a example_mixed 1 (some (ClassRef.user 1)) = some 0 :=
  ⟨rfl,
    (((C2_is_a_iff_same_descriptor demo vector).2 example_mixed 1 _ rfl rfl).1 _).2 rfl,
    ((C2_is_a_iff_same_descriptor demo vector).2 example_mixed 1 _ rfl rfl).2.2.1
      abstract_object (Reaches.parent rfl (Reaches.self _)) (by decide),
    ((C2_is_a_iff_same_descriptor demo vector).2 example_mixed 1 _ rfl rfl).2.2.2
      (ClassRef.user 1) (by decide) rfl⟩

/-- C3: for every class `C`, the instance `x` that `new_object` creates from
`C` has `object_size(x) = C.size`, and so has every instance tagged `C`; for
the null handle and for a block whose tag is null, `object_size` returns 0. -/
theorem C3_object_size (P : Static) :
    (∀ (C : ClassRef) (s : State) (args : List Int), ∃ x s1,
        new_object P C args s = some (x, s1)
          ∧ object_size P s1 x = some (classAt P C).size)
    ∧ (∀ (C : ClassRef) (s : State) (x : Ptr) (o : Obj), s.obj x = some o →
        o.«class» = some C → object_size P s x = some (classAt P C).size)
    ∧ (∀ s : State, object_size P s NULL = some 0)
    ∧ (∀ (s : State) (x : Ptr) (o : Obj), s.obj x = some o → o.«class» = none →
        object_size P s x = some 0) := by
  have key : ∀ (C : ClassRef) (s : State) (x : Ptr) (o : Obj), s.obj x = some o →
      o.«class» = some C → object_size P s x = some (classAt P C).size := by
    intro C s x o ho hc
    have hx : x ≠ 0 := by
      rintro rfl
      simp [State.obj] at ho
    simp [object_size, hx, ho, hc]
  refine ⟨?_, key, ?_, ?_⟩
  · intro C s args
    obtain ⟨s1, o1, h1, h2, h3, -, -, -⟩ := new_object_spec P C args s
    exact ⟨_, s1, h1, key C s1 _ o1 (obj_of_load _ _ _ _ h2) h3⟩
  · intro s
    simp [object_size]
  · intro s x o ho hc
    have hx : x ≠ 0 := by
      rintro rfl
      simp [State.obj] at ho
    simp [object_size, hx, ho, hc]

/-- Witness for C3: block 3 of the mixed state is an instance of `user 2`,
whose size is 40; a block whose tag is null has size 0. -/
theorem C3_object_size_witness :
    object_size demo example_mixed 3 = some 40
      ∧ object_size demo { heap := [(1, Block.object 8 {})] } 1 = some 0 :=
  ⟨(C3_object_size demo).2.1 (ClassRef.user 2) example_mixed 3 _ rfl rfl,
    (C3_object_size demo).2.2.2 { heap := [(1, Block.object 8 {})] } 1 _ rfl rfl⟩

/-! ## Frame facts: what allocation, construction and copying leave alone -/

theorem ne_null_of_load (s : State) (x : Ptr) (b : Block) (h : s.load x = some b) : x ≠ 0 := by
  rintro rfl
  simp at h

theorem ne_fresh_of_load (s : State) (x : Ptr) (b : Block) (h : s.load x = some b) :
    x ≠ fresh s.heap := by
  rintro rfl
  rw [load_fresh] at h
  cases h

theorem update_some (s : State) (w : Ptr) (f : Obj → Obj) (s1 : State)
    (h : s.update w f = some s1) :
    ∃ n o, s.load w = some (Block.object n o) ∧ s1 = s.store w (Block.object n (f o)) := by
  unfold State.update at h
  split at h
  · rename_i n o hl
    cases h
    exact ⟨n, o, hl, rfl⟩
  · cases h

theorem load_update_other (s : State) (w x : Ptr) (f : Obj → Obj) (s1 : State)
    (h : s.update w f = some s1) (hx : x ≠ w) : s1.load x = s.load x := by
  obtain ⟨n, o, -, rfl⟩ := update_some s w f s1 h
  exact load_store_other _ _ _ _ hx

theorem load_update_self (s : State) (w : Ptr) (f : Obj → Obj) (s1 : State)
    (h : s.update w f = some s1) :
    ∃ n o, s.load w = some (Block.object n o) ∧ s1.load w = some (Block.object n (f o)) := by
  obtain ⟨n, o, hl, rfl⟩ := update_some s w f s1 h
  exact ⟨n, o, hl, load_store_self _ _ _ _ hl⟩

/-- The statement `new` leaves every live block as it is and returns a block
that was not live. -/
theorem new_frame (P : Static) (C : ClassRef) (args : List Int) (s s1 : State) (w x : Ptr)
    (b : Block) (h : new P C args s = some (w, s1)) (hx : s.load x = some b) :
    s1.load x = some b ∧ w ≠ x := by
  obtain ⟨s1a, o1, h1, -, -, -, h5, -⟩ := new_object_spec P C (args ++ [0]) s
  unfold new at h
  rw [h1] at h
  cases h
  have hne := ne_fresh_of_load s x b hx
  exact ⟨by rw [h5 x hne, hx], fun e => hne e.symm⟩

theorem calloc_reals_frame (n : Int) (s : State) (x : Ptr) (b : Block)
    (hx : s.load x = some b) : (calloc_reals n s).2.load x = some b := by
  unfold calloc_reals
  split
  · exact hx
  · rw [load_alloc, if_neg (ne_fresh_of_load s x b hx), hx]

theorem calloc_ptrs_frame (n : Int) (s : State) (x : Ptr) (b : Block)
    (hx : s.load x = some b) : (calloc_ptrs n s).2.load x = some b := by
  unfold calloc_ptrs
  split
  · exact hx
  · rw [load_alloc, if_neg (ne_fresh_of_load s x b hx), hx]

theorem reals_some (s : State) (p : Ptr) (xs : List real) (h : s.reals p = some xs) :
    s.load p = some (Block.reals xs) := by
  unfold State.reals at h
  split at h
  · rename_i ys hl; cases h; exact hl
  · cases h

theorem ptrs_some (s : State) (p : Ptr) (xs : List Ptr) (h : s.ptrs p = some xs) :
    s.load p = some (Block.ptrs xs) := by
  unfold State.ptrs at h
  split at h
  · rename_i ys hl; cases h; exact hl
  · cases h

theorem copy_reals_frame (dst src x : Ptr) (n : Nat) (o : Obj) :
    ∀ (count i : Nat) (s s2 : State), copy_reals dst src count i s = some s2 →
      s.load x = some (Block.object n o) → s2.load x = some (Block.object n o) := by
  intro count
  induction count with
  | zero =>
    intro i s s2 h hx
    simp only [copy_reals, Option.some.injEq] at h
    subst h
    exact hx
  | succ k ih =>
    intro i s s2 h hx
    simp only [copy_reals, Option.bind_eq_bind, Option.bind_eq_some] at h
    obtain ⟨xs, -, v, -, ys, hys, h⟩ := h
    split at h
    · refine ih _ _ _ h ?_
      have hd : x ≠ dst := by
        rintro rfl
        rw [reals_some _ _ _ hys] at hx
        cases hx
      rw [load_store_other _ _ _ _ hd, hx]
    · cases h

theorem copy_ptrs_frame (dst src x : Ptr) (n : Nat) (o : Obj) :
    ∀ (count i : Nat) (s s2 : State), copy_ptrs dst src count i s = some s2 →
      s.load x = some (Block.object n o) → s2.load x = some (Block.object n o) := by
  intro count
  induction count with
  | zero =>
    intro i s s2 h hx
    simp only [copy_ptrs, Option.some.injEq] at h
    subst h
    exact hx
  | succ k ih =>
    intro i s s2 h hx
    simp only [copy_ptrs, Option.bind_eq_bind, Option.bind_eq_some] at h
    obtain ⟨xs, -, v, -, ys, hys, h⟩ := h
    split at h
    · refine ih _ _ _ h ?_
      have hd : x ≠ dst := by
        rintro rfl
        rw [ptrs_some _ _ _ hys] at hx
        cases hx
      rw [load_store_other _ _ _ _ hd, hx]
    · cases h

theorem vector_set_dim_frame (P : Static) (fuel : Nat) (w x : Ptr) (dim : Int) (s s2 : State)
    (b : Block) (h : vector_set_dim P fuel w dim s = some s2) (hw : x ≠ w)
    (hx : s.load x = some b) : s2.load x = some b := by
  unfold vector_set_dim at h
  simp only [Option.bind_eq_bind, Option.bind_eq_some, Option.pure_def] at h
  obtain ⟨r, -, h⟩ := h
  split at h
  · simp only [Option.bind_eq_bind, Option.bind_eq_some] at h
    obtain ⟨s1, h1, self, -, h⟩ := h
    split at h
    · rw [load_update_other _ _ _ _ _ h hw]
      exact calloc_reals_frame _ _ _ _ (by rw [load_update_other _ _ _ _ _ h1 hw, hx])
    · cases h
  · cases h
    exact hx

theorem matrix_set_dim_frame (P : Static) (fuel : Nat) (w x : Ptr) (rows cols : Int)
    (s s2 : State) (b : Block) (h : matrix_set_dim P fuel w rows cols s = some s2)
    (hw : x ≠ w) (hx : s.load x = some b) : s2.load x = some b := by
  unfold matrix_set_dim at h
  simp only [Option.bind_eq_bind, Option.bind_eq_some, Option.pure_def] at h
  obtain ⟨r, -, h⟩ := h
  split at h
  · simp only [Option.bind_eq_bind, Option.bind_eq_some] at h
    obtain ⟨s1, h1, self, -, h⟩ := h
    split at h
    · rw [load_update_other _ _ _ _ _ h hw]
      exact calloc_reals_frame _ _ _ _ (by rw [load_update_other _ _ _ _ _ h1 hw, hx])
    · cases h
  · cases h
    exact hx

/-- Every clone function leaves the instance it copies as it is, and what it
returns is never that instance. -/
theorem call_clone_frame (P : Static) (fuel : Nat) (f : CloneFn) (x c : Ptr) (s s2 : State)
    (n : Nat) (o : Obj) (hx : s.load x = some (Block.object n o))
    (h : call_clone P fuel f x s = some (c, s2)) :
    s2.load x = some (Block.object n o) ∧ c ≠ x := by
  have hx0 : (0 : Ptr) ≠ x := fun e => ne_null_of_load s x _ hx e.symm
  cases f with
  | abstract_object_clone =>
    simp only [call_clone, abstract_object_clone, ne_eq, ne_null_of_load s x _ hx,
      not_false_eq_true, if_true] at h
    exact new_frame P _ _ s s2 c x _ h hx
  | vector_clone =>
    simp only [call_clone] at h
    unfold vector_clone at h
    simp only [Option.bind_eq_bind, Option.bind_eq_some, Option.pure_def] at h
    obtain ⟨r, -, h⟩ := h
    split at h
    · simp only [Option.bind_eq_bind, Option.bind_eq_some, Option.some.injEq, Prod.mk.injEq] at h
      obtain ⟨self, -, ⟨w, s1⟩, hnew, sa, hdim, wobj, -, sb, hcopy, rfl, rfl⟩ := h
      obtain ⟨h1, hw⟩ := new_frame P _ _ s s1 w x _ hnew hx
      have h2 := vector_set_dim_frame P fuel w x _ s1 sa _ hdim (fun e => hw e.symm) h1
      exact ⟨copy_reals_frame _ _ x n o _ _ _ _ hcopy h2, hw⟩
    · cases h
      exact ⟨hx, hx0⟩
  | matrix_clone =>
    simp only [call_clone] at h
    unfold matrix_clone at h
    simp only [Option.bind_eq_bind, Option.bind_eq_some, Option.pure_def] at h
    obtain ⟨r, -, h⟩ := h
    split at h
    · simp only [Option.bind_eq_bind, Option.bind_eq_some, Option.some.injEq, Prod.mk.injEq] at h
      obtain ⟨self, -, ⟨w, s1⟩, hnew, sa, hdim, wobj, -, sb, hcopy, rfl, rfl⟩ := h
      obtain ⟨h1, hw⟩ := new_frame P _ _ s s1 w x _ hnew hx
      have h2 := matrix_set_dim_frame P fuel w x _ _ s1 sa _ hdim (fun e => hw e.symm) h1
      exact ⟨copy_reals_frame _ _ x n o _ _ _ _ hcopy h2, hw⟩
    · cases h
      exact ⟨hx, hx0⟩
  | set_clone =>
    simp only [call_clone] at h
    unfold set_clone at h
    simp only [Option.bind_eq_bind, Option.bind_eq_some, Option.pure_def] at h
    obtain ⟨r, -, h⟩ := h
    split at h
    · simp only [Option.bind_eq_bind, Option.bind_eq_some, Option.some.injEq, Prod.mk.injEq] at h
      obtain ⟨self, -, ⟨w, s1⟩, hnew, sa, hupd, sb, hupd2, sc, hcopy, rfl, rfl⟩ := h
      obtain ⟨h1, hw⟩ := new_frame P _ _ s s1 w x _ hnew hx
      have hxw : x ≠ w := fun e => hw e.symm
      have h2 : sa.load x = some (Block.object n o) := by
        rw [load_update_other _ _ _ _ _ hupd hxw, h1]
      have h3 := calloc_ptrs_frame self.set.nelements sa x _ h2
      have h4 : sb.load x = some (Block.object n o) := by
        rw [load_update_other _ _ _ _ _ hupd2 hxw, h3]
      exact ⟨copy_ptrs_frame _ _ x n o _ _ _ _ hcopy h4, hw⟩
    · cases h
      exact ⟨hx, hx0⟩
  | iterator_clone =>
    simp only [call_clone] at h
    unfold iterator_clone at h
    simp only [Option.bind_eq_bind, Option.bind_eq_some, Option.pure_def] at h
    obtain ⟨r, -, h⟩ := h
    split at h
    · simp only [Option.bind_eq_bind, Option.bind_eq_some, Option.some.injEq, Prod.mk.injEq] at h
      obtain ⟨self, -, ⟨w, s1⟩, hnew, sa, hupd, sb, hupd2, rfl, rfl⟩ := h
      obtain ⟨h1, hw⟩ := new_frame P _ _ s s1 w x _ hnew hx
      have hxw : x ≠ w := fun e => hw e.symm
      refine ⟨?_, hw⟩
      rw [load_update_other _ _ _ _ _ hupd2 hxw, load_update_other _ _ _ _ _ hupd hxw, h1]
    · cases h
      exact ⟨hx, hx0⟩
  | time_iterator_clone =>
    simp only [call_clone] at h
    unfold time_iterator_clone at h
    simp only [Option.bind_eq_bind, Option.bind_eq_some, Option.pure_def] at h
    obtain ⟨r, -, h⟩ := h
    split at h
    · simp only [iterator_set, Option.bind_eq_bind, Option.bind_eq_some, Option.some.injEq,
        Prod.mk.injEq, Option.pure_def] at h
      obtain ⟨self, -, ⟨w, s1⟩, hnew, sa, hupd, sb, hupd2, r4, ⟨sc, hupd3, rfl⟩, rfl, rfl⟩ := h
      obtain ⟨h1, hw⟩ := new_frame P _ _ s s1 w x _ hnew hx
      have hxw : x ≠ w := fun e => hw e.symm
      refine ⟨?_, hw⟩
      rw [load_update_other _ _ _ _ _ hupd3 hxw, load_update_other _ _ _ _ _ hupd2 hxw,
        load_update_other _ _ _ _ _ hupd hxw, h1]
    · cases h
      exact ⟨hx, hx0⟩

theorem obj_congr (s s2 : State) (x : Ptr) (h : s2.load x = s.load x) : s2.obj x = s.obj x := by
  simp [State.obj, h]

theorem inherits_from_congr (P : Static) (fuel : Nat) (s s2 : State) (x : Ptr)
    (Q : Option ClassRef) (h : s2.load x = s.load x) :
    inherits_from P fuel s2 x Q = inherits_from P fuel s x Q := by
  simp [inherits_from, obj_congr s s2 x h]

theorem differs_congr (P : Static) (fuel : Nat) (s s2 : State) (x b : Ptr)
    (h : s2.load x = s.load x) : differs P fuel s2 x b = differs P fuel s x b := by
  simp [differs, obj_congr s s2 x h, inherits_from_congr P fuel s s2 x _ h]

/-- The entry point `differs` on an instance that descends from the root class
and whose `differs` entry is the root default. -/
theorem differs_default (P : Static) (fuel : Nat) (s : State) (a b : Ptr) (o : Obj)
    (ho : s.obj a = some o) (hd : o.differs = some DiffersFn.abstract_object_differs)
    (hi : inherits_from P fuel s a (some abstract_object) = some 1) :
    differs P fuel s a b = some (if a = b then 0 else 1) := by
  obtain ⟨n, hl⟩ := load_of_obj s a o ho
  have ha := ne_null_of_load s a _ hl
  by_cases hab : a = b
  · subst hab
    simp [differs, hi, ho, hd, call_differs, abstract_object_differs, ha]
  · simp [differs, hi, ho, hd, call_differs, abstract_object_differs, ha, hab]

/-- What the entry point `clone` returns is never the instance it was given,
and that instance is left as it is. -/
theorem clone_frame (P : Static) (fuel : Nat) (x c : Ptr) (s s2 : State) (n : Nat) (o : Obj)
    (hx : s.load x = some (Block.object n o)) (h : clone P fuel x s = some (c, s2)) :
    s2.load x = some (Block.object n o) ∧ c ≠ x := by
  have hx0 : (0 : Ptr) ≠ x := fun e => ne_null_of_load s x _ hx e.symm
  unfold clone at h
  simp only [Option.bind_eq_bind, Option.bind_eq_some, Option.pure_def] at h
  obtain ⟨r, -, h⟩ := h
  split at h
  · simp only [Option.bind_eq_bind, Option.bind_eq_some] at h
    obtain ⟨self, -, h⟩ := h
    split at h
    · split at h
      · exact call_clone_frame P fuel _ x c s s2 n o hx h
      · cases h; exact ⟨hx, hx0⟩
    · cases h; exact ⟨hx, hx0⟩
  · cases h; exact ⟨hx, hx0⟩

/-! ## The root defaults (C4, C5, C6) -/

/-- C4: default equality is identity.  Let `C` be a class that descends from
`abstract_object` (its parent chain has depth `d`, the walk gets at least
`d + 1` iterations).  For an instance `a` of `C` whose `differs` entry is the
root default, whatever its other fields hold, `differs(a, b)` returns 0 when `b`
is `a` and 1 otherwise; so `differs(a, a) = 0`, and `differs(a, c) = 1` for
whatever `clone(a)` returns, which it does return when the `clone` entry is the
root default.  Every constructor of the repository leaves the `differs` entry
at the root default, and the six classes of the repository descend from
`abstract_object` and have a constructor. -/
theorem C4_default_differs_is_identity (P : Static) (C : ClassRef) (d fuel : Nat)
    (hd : Depth P C d) (hr : Reaches P C abstract_object) (hf : d + 1 ≤ fuel) :
    (∀ (s : State) (a : Ptr) (o : Obj), s.obj a = some o → o.«class» = some C →
        o.differs = some DiffersFn.abstract_object_differs →
        (∀ b, differs P fuel s a b = some (if a = b then 0 else 1))
        ∧ (∀ b, differs P fuel s a b = some 0 ↔ a = b)
        ∧ differs P fuel s a a = some 0
        ∧ (∀ c s2, clone P fuel a s = some (c, s2) → differs P fuel s2 a c = some 1)
        ∧ (o.clone = some CloneFn.abstract_object_clone →
            ∃ c s2, clone P fuel a s = some (c, s2)))
    ∧ ((classAt P C).constructor ≠ none → ∀ (s : State) (args : List Int), ∃ x s1 o,
          new_object P C args s = some (x, s1) ∧ s1.obj x = some o ∧ o.«class» = some C
            ∧ o.differs = some DiffersFn.abstract_object_differs)
    ∧ (∀ K ∈ [abstract_object, vector, matrix, set, iterator, time_iterator],
        (classAt P K).constructor ≠ none ∧ Reaches P K abstract_object
          ∧ ∃ e, e ≤ 2 ∧ Depth P K e) := by
  refine ⟨?_, ?_, ?_⟩
  · intro s a o ho htag hdf
    have hi : inherits_from P fuel s a (some abstract_object) = some 1 := by
      simp only [inherits_from, ho, htag, Option.bind_eq_bind, Option.some_bind]
      exact loop_complete P C abstract_object hr d fuel hd hf
    have key := fun b => differs_default P fuel s a b o ho hdf hi
    obtain ⟨n, hl⟩ := load_of_obj s a o ho
    have ha := ne_null_of_load s a _ hl
    refine ⟨key, ?_, ?_, ?_, ?_⟩
    · intro b
      rw [key b]
      by_cases hab : a = b <;> simp [hab]
    · rw [key a]; simp
    · intro c s2 hc
      obtain ⟨h1, h2⟩ := clone_frame P fuel a c s s2 n o hl hc
      rw [differs_congr P fuel s s2 a c (by rw [h1, hl]), key c]
      have h3 : ¬ a = c := fun e => h2 e.symm
      simp [h3]
    · intro hcl
      obtain ⟨s1, o1, h1, -⟩ := new_object_spec P abstract_object [0] s
      exact ⟨fresh s.heap, s1,
        by simp [clone, hi, ho, hcl, ha, call_clone, abstract_object_clone, new, h1]⟩
  · intro hctor s args
    obtain ⟨s1, o1, h1, h2, h3, h4, -, -⟩ := new_object_spec P C args s
    exact ⟨_, s1, o1, h1, obj_of_load _ _ _ _ h2, h3, h4 hctor⟩
  · intro K hK
    simp only [List.mem_cons, List.mem_singleton, List.not_mem_nil, or_false] at hK
    have h0 : Depth P abstract_object 0 := Depth.root rfl
    have hi1 : Depth P iterator 1 := Depth.parent rfl h0
    rcases hK with rfl | rfl | rfl | rfl | rfl | rfl
    · exact ⟨by simp [classAt, _abstract_object], Reaches.self _, 0, by omega, h0⟩
    · exact ⟨by simp [classAt, _vector], Reaches.parent rfl (Reaches.self _), 1, by omega,
        Depth.parent rfl h0⟩
    · exact ⟨by simp [classAt, _matrix], Reaches.parent rfl (Reaches.self _), 1, by omega,
        Depth.parent rfl h0⟩
    · exact ⟨by simp [classAt, _set], Reaches.parent rfl (Reaches.self _), 1, by omega,
        Depth.parent rfl h0⟩
    · exact ⟨by simp [classAt, _iterator], Reaches.parent rfl (Reaches.self _), 1, by omega, hi1⟩
    · exact ⟨by simp [classAt, _time_iterator],
        Reaches.parent rfl (Reaches.parent rfl (Reaches.self _)), 2, by omega,
        Depth.parent rfl hi1⟩

/-- Witness for C4: in the state of the example program, `a` does not differ
from itself and differs from `b`; the vector of the mixed state differs from
the iterator. -/
theorem C4_default_differs_is_identity_witness :
    Depth demo vector 1 ∧ Reaches demo vector abstract_object ∧ 1 + 1 ≤ 2
      ∧ differs demo 2 example_mixed 1 1 = some 0
      ∧ differs demo 2 example_mixed 1 4 = some 1 :=
  ⟨Depth.parent rfl (Depth.root rfl), Reaches.parent rfl (Reaches.self _), le_refl 2,
    ((C4_default_differs_is_identity demo vector 1 2 (Depth.parent rfl (Depth.root rfl))
      (Reaches.parent rfl (Reaches.self _)) (le_refl 2)).1 example_mixed 1 _
      rfl rfl rfl).2.2.1,
    by simpa using ((C4_default_differs_is_identity demo vector 1 2
      (Depth.parent rfl (Depth.root rfl)) (Reaches.parent rfl (Reaches.self _))
      (le_refl 2)).1 example_mixed 1 _ rfl rfl rfl).1 4⟩

/-- The statement `new(x, abstract_object)`: the block is new and holds the
root defaults, and no other block is touched. -/
theorem new_root_spec (P : Static) (args : List Int) (s : State) :
    ∃ s1, new_object P abstract_object args s = some (fresh s.heap, s1)
      ∧ s1.load (fresh s.heap) = some (Block.object P.sizeof_abstract_object root_default)
      ∧ (∀ q, q ≠ fresh s.heap → s1.load q = s.load q)
      ∧ s1.out = s.out := by
  have ha : (s.alloc (Block.object P.sizeof_abstract_object {})).2.load (fresh s.heap)
      = some (Block.object P.sizeof_abstract_object {}) := by simp [load_alloc]
  have hu := update_of_load _ _ _ _ (fun o => { o with «class» := some abstract_object }) ha
  have hl := load_store_self _ (fresh s.heap) _
    (Block.object P.sizeof_abstract_object ({ «class» := some abstract_object } : Obj)) ha
  have hc := abstract_object_constructor_eq _ _ args _ _ hl
  have hnew : new_object P abstract_object args s
      = abstract_object_constructor (fresh s.heap) args
          ((s.alloc (Block.object P.sizeof_abstract_object {})).2.store (fresh s.heap)
            (Block.object P.sizeof_abstract_object { «class» := some abstract_object })) := by
    simp only [new_object, State.alloc, classAt, _abstract_object] at hu ⊢
    simp only [Option.bind_eq_bind, hu, Option.some_bind, call_constructor]
  rw [hc] at hnew
  refine ⟨_, hnew, ?_, ?_, rfl⟩
  · exact load_store_self _ _ _ _ (by simpa using hl)
  · intro q hq
    rw [load_store_other _ _ _ _ hq, load_record, load_store_other _ _ _ _ hq, load_alloc,
      if_neg hq]

/-- The entry point `clone` on an instance that descends from the root class
and whose `clone` entry is the root default is the statement
`new(c, abstract_object)`. -/
theorem clone_default (P : Static) (fuel : Nat) (s : State) (x : Ptr) (o : Obj)
    (ho : s.obj x = some o) (hc : o.clone = some CloneFn.abstract_object_clone)
    (hi : inherits_from P fuel s x (some abstract_object) = some 1) :
    clone P fuel x s = new P abstract_object [] s := by
  obtain ⟨n, hl⟩ := load_of_obj s x o ho
  have hx := ne_null_of_load s x _ hl
  simp [clone, hi, ho, hc, hx, call_clone, abstract_object_clone]

/-- C5: for every instance `a` of the root class (tag `abstract_object`, the
`clone` entry as the root constructor leaves it), `clone(a)` returns a non-null
pointer `c` to a block that was not live before, different from `a`, with
`inherits_from(c, abstract_object) = 1` and `is_a(c, abstract_object) = 1`; `a`
and every other block that was live are unchanged.  The instance `new_object`
creates from `abstract_object` is such an instance. -/
theorem C5_root_clone (P : Static) (fuel : Nat) (hf : 1 ≤ fuel) :
    (∀ (s : State) (a : Ptr) (o : Obj), s.obj a = some o →
        o.«class» = some abstract_object →
        o.clone = some CloneFn.abstract_object_clone →
        ∃ c s2, clone P fuel a s = some (c, s2) ∧ c ≠ NULL ∧ c ≠ a ∧ s.load c = none
          ∧ s2.obj c = some root_default
          ∧ inherits_from P fuel s2 c (some abstract_object) = some 1
          ∧ is_a s2 c (some abstract_object) = some 1
          ∧ s2.obj a = some o
          ∧ (∀ q, q ≠ c → s2.load q = s.load q))
    ∧ (∀ (s : State) (args : List Int), ∃ a s1 o,
        new_object P abstract_object args s = some (a, s1) ∧ s1.obj a = some o
          ∧ o.«class» = some abstract_object
          ∧ o.clone = some CloneFn.abstract_object_clone) := by
  obtain ⟨k, rfl⟩ : ∃ k, fuel = k + 1 := ⟨fuel - 1, by omega⟩
  refine ⟨?_, ?_⟩
  · intro s a o ho htag hcl
    obtain ⟨n, hl⟩ := load_of_obj s a o ho
    have hi : inherits_from P (k + 1) s a (some abstract_object) = some 1 := by
      simp [inherits_from, ho, htag, inherits_from_loop]
    obtain ⟨s2, h1, h2, h3, -⟩ := new_root_spec P [0] s
    have hne := ne_fresh_of_load s a _ hl
    have hc := obj_of_load _ _ _ _ h2
    refine ⟨fresh s.heap, s2, ?_, fresh_pos _, fun e => hne e.symm, load_fresh s, hc, ?_, ?_, ?_,
      h3⟩
    · rw [clone_default P (k + 1) s a o ho hcl hi]
      simpa [new] using h1
    · simp [inherits_from, hc, root_default, inherits_from_loop]
    · simp [is_a, hc, root_default]
    · rw [obj_congr s s2 a (h3 a hne), ho]
  · intro s args
    obtain ⟨s1, h1, h2, -, -⟩ := new_root_spec P args s
    exact ⟨_, s1, root_default, h1, obj_of_load _ _ _ _ h2, rfl, rfl⟩

/-- Witness for C5: cloning `a` in the state of the example program. -/
theorem C5_root_clone_witness :
    1 ≤ 1 ∧ ∃ c s2, clone demo 1 1 example_roots = some (c, s2) ∧ c ≠ NULL ∧ c ≠ 1
      ∧ example_roots.load c = none
      ∧ s2.obj c = some root_default
      ∧ inherits_from demo 1 s2 c (some abstract_object) = some 1
      ∧ is_a s2 c (some abstract_object) = some 1
      ∧ s2.obj 1 = some root_default
      ∧ (∀ q, q ≠ c → s2.load q = example_roots.load q) :=
  ⟨le_refl 1, (C5_root_clone demo 1 (le_refl 1)).1 example_roots 1 root_default rfl rfl rfl⟩

/-- The block `new_object` creates from a class whose constructor is the root
constructor: the root defaults under the tag of the class. -/
theorem new_with_root_constructor (P : Static) (D : ClassRef) (args : List Int) (s : State)
    (hD : (classAt P D).constructor = some Ctor.abstract_object_constructor) :
    ∃ s1, new_object P D args s = some (fresh s.heap, s1)
      ∧ s1.load (fresh s.heap)
          = some (Block.object (classAt P D).size { root_default with «class» := some D }) := by
  have ha : (s.alloc (Block.object (classAt P D).size {})).2.load (fresh s.heap)
      = some (Block.object (classAt P D).size {}) := by simp [load_alloc]
  have hu := update_of_load _ _ _ _ (fun o => { o with «class» := some D }) ha
  have hl := load_store_self _ (fresh s.heap) _
    (Block.object (classAt P D).size ({ «class» := some D } : Obj)) ha
  have hc := abstract_object_constructor_eq _ _ args _ _ hl
  have hnew : new_object P D args s
      = abstract_object_constructor (fresh s.heap) args
          ((s.alloc (Block.object (classAt P D).size {})).2.store (fresh s.heap)
            (Block.object (classAt P D).size { «class» := some D })) := by
    simp only [new_object, State.alloc] at hu ⊢
    simp only [Option.bind_eq_bind, hu, Option.some_bind, hD, call_constructor]
  rw [hc] at hnew
  exact ⟨_, hnew, load_store_self _ _ _ _ (by simpa using hl)⟩

/-- C6: clone without override.  For an instance `x` of a class `D` other than
`abstract_object` that descends from it, whose `clone` entry is the root
default, `clone(x)` is the statement `new(c, abstract_object)`: it returns a new
block `c` different from `x` that holds the root defaults under the tag
`abstract_object` whatever the fields of `x` hold, so `is_a(c, abstract_object)`
is 1, `is_a(c, D)` is 0 and `object_size(c)` is the size of the root class; `x`
is unchanged.  A class whose constructor is the root constructor creates such
instances. -/
theorem C6_clone_without_override (P : Static) (D : ClassRef) (d fuel : Nat)
    (hD : D ≠ abstract_object) (hd : Depth P D d) (hr : Reaches P D abstract_object)
    (hf : d + 1 ≤ fuel) :
    (∀ (s : State) (x : Ptr) (o : Obj), s.obj x = some o → o.«class» = some D →
        o.clone = some CloneFn.abstract_object_clone →
        clone P fuel x s = new P abstract_object [] s
        ∧ ∃ c s2, clone P fuel x s = some (c, s2) ∧ c ≠ NULL ∧ c ≠ x ∧ s.load c = none
          ∧ s2.obj c = some root_default
          ∧ is_a s2 c (some abstract_object) = some 1
          ∧ is_a s2 c (some D) = some 0
          ∧ object_size P s2 c = some (_abstract_object P).size
          ∧ s2.obj x = some o)
    ∧ ((classAt P D).constructor = some Ctor.abstract_object_constructor →
        ∀ (s : State) (args : List Int), ∃ x s1 o,
          new_object P D args s = some (x, s1) ∧ s1.obj x = some o
            ∧ o.«class» = some D ∧ o.clone = some CloneFn.abstract_object_clone) := by
  refine ⟨?_, ?_⟩
  · intro s x o ho htag hcl
    obtain ⟨n, hl⟩ := load_of_obj s x o ho
    have hi : inherits_from P fuel s x (some abstract_object) = some 1 := by
      simp only [inherits_from, ho, htag, Option.bind_eq_bind, Option.some_bind]
      exact loop_complete P D abstract_object hr d fuel hd hf
    have hcd := clone_default P fuel s x o ho hcl hi
    obtain ⟨s2, h1, h2, h3, -⟩ := new_root_spec P [0] s
    have hne := ne_fresh_of_load s x _ hl
    have hc := obj_of_load _ _ _ _ h2
    have hD2 : ¬ some abstract_object = some D := fun e => hD (Option.some.inj e).symm
    refine ⟨hcd, fresh s.heap, s2, ?_, fresh_pos _, fun e => hne e.symm, load_fresh s, hc, ?_, ?_,
      ?_, ?_⟩
    · rw [hcd]
      simpa [new] using h1
    · simp [is_a, hc, root_default]
    · simp [is_a, hc, root_default, hD2]
    · simp [object_size, fresh_pos, hc, root_default, classAt]
    · rw [obj_congr s s2 x (h3 x hne), ho]
  · intro hctor s args
    obtain ⟨s1, h1, h2⟩ := new_with_root_constructor P D args s hctor
    exact ⟨_, s1, _, h1, obj_of_load _ _ _ _ h2, rfl, rfl⟩

/-- Witness for C6: block 3 of the mixed state is an instance of `user 2`, a
class derived from `abstract_object` that is constructed by the root
constructor. -/
theorem C6_clone_without_override_witness :
    ClassRef.user 2 ≠ abstract_object ∧ Depth demo (ClassRef.user 2) 1
      ∧ Reaches demo (ClassRef.user 2) abstract_object ∧ 1 + 1 ≤ 2
      ∧ clone demo 2 3 example_mixed = new demo abstract_object [] example_mixed :=
  ⟨by decide, Depth.parent rfl (Depth.root rfl), Reaches.parent rfl (Reaches.self _), le_refl 2,
    ((C6_clone_without_override demo (ClassRef.user 2) 1 2 (by decide)
      (Depth.parent rfl (Depth.root rfl)) (Reaches.parent rfl (Reaches.self _)) (le_refl 2)).1
      example_mixed 3 { root_default with «class» := some (ClassRef.user 2) } rfl rfl rfl).1⟩

/-! ## The guard of the entry points (C7) -/

/-- C7: type-mismatch guard.  For an instance `x` whose class has a parent
chain of depth `d` that does not contain `abstract_object`, and a walk of at
least `d + 1` iterations, whatever the entries of `x` hold: `display(x, fp)`
returns `NULL` and `clone(x)` returns `NULL`, both leaving the state (the
output included) as it was, and `differs(x, b)` returns 1 for every `b`. -/
theorem C7_type_mismatch_guard (P : Static) (C : ClassRef) (d fuel : Nat)
    (hd : Depth P C d) (hf : d + 1 ≤ fuel) (hn : ¬ Reaches P C abstract_object)
    (s : State) (x : Ptr) (o : Obj) (ho : s.obj x = some o) (htag : o.«class» = some C) :
    display P fuel x s = some (NULL, s) ∧ clone P fuel x s = some (NULL, s)
      ∧ ∀ b, differs P fuel s x b = some 1 := by
  have hi : inherits_from P fuel s x (some abstract_object) = some 0 := by
    simp only [inherits_from, ho, htag, Option.bind_eq_bind, Option.some_bind]
    rcases loop_total P (some abstract_object) C d hd fuel hf with h | h
    · obtain ⟨A, hA, hr⟩ := loop_sound P _ fuel C h
      cases hA
      exact absurd hr hn
    · exact h
  refine ⟨?_, ?_, ?_⟩
  · simp [display, hi]
  · simp [clone, hi]
  · intro b
    simp [differs, hi]

/-- Witness for C7: block 2 of the mixed state is an instance of `user 0`, a
class without parent. -/
theorem C7_type_mismatch_guard_witness :
    Depth demo (ClassRef.user 0) 0 ∧ 0 + 1 ≤ 1 ∧ ¬ Reaches demo (ClassRef.user 0) abstract_object
      ∧ display demo 1 2 example_mixed = some (NULL, example_mixed)
      ∧ clone demo 1 2 example_mixed = some (NULL, example_mixed)
      ∧ ∀ b, differs demo 1 example_mixed 2 b = some 1 :=
  have hn : ¬ Reaches demo (ClassRef.user 0) abstract_object := by
    intro h
    cases h with
    | parent hp _ => cases hp
  ⟨Depth.root rfl, le_refl 1, hn,
    C7_type_mismatch_guard demo (ClassRef.user 0) 0 1 (Depth.root rfl) (le_refl 1) hn
      example_mixed 2 { «class» := some (ClassRef.user 0) } rfl rfl⟩

/-! ## Destruction (C8, C9, C10) -/

theorem destructor_calls_append (l1 l2 : List Event) :
    destructor_calls (l1 ++ l2) = destructor_calls l1 ++ destructor_calls l2 := by
  induction l1 with
  | nil => rfl
  | cons e t ih => cases e <;> simp [destructor_calls, ih]

theorem freed_append (l1 l2 : List Event) : freed (l1 ++ l2) = freed l1 ++ freed l2 := by
  induction l1 with
  | nil => rfl
  | cons e t ih => cases e <;> simp [freed, ih]

@[simp] theorem free_trace (p : Ptr) (s : State) : (free p s).trace = s.trace ++ [Event.free p] := by
  unfold free
  split <;> rfl

@[simp] theorem free_out (p : Ptr) (s : State) : (free p s).out = s.out := by
  unfold free
  split <;> rfl

/-- What a destructor of the repository does on a live instance: it records its
call, hands one pointer to `free` unless it is the root destructor, and returns
`NULL`. -/
theorem call_destructor_spec (dtor : Dtor) (s : State) (x : Ptr) (o : Obj)
    (ho : s.obj x = some o) :
    ∃ s1 rest, call_destructor dtor x s = some (NULL, s1)
      ∧ s1.trace = s.trace ++ Event.destructor dtor x :: rest
      ∧ destructor_calls rest = []
      ∧ s1.out = s.out
      ∧ (∀ q, s.load q = none → s1.load q = none)
      ∧ (dtor = Dtor.abstract_object_destructor → ∀ q, s1.load q = s.load q) := by
  have ho2 : ∀ e, (s.record e).obj x = some o := fun e => by
    rw [obj_congr s (s.record e) x (load_record s e x), ho]
  cases dtor
  · exact ⟨s.record (Event.destructor Dtor.abstract_object_destructor x), [], rfl, rfl, rfl, rfl,
      fun q hq => by simpa using hq, fun _ q => rfl⟩
  · refine ⟨free o.vector.dat (s.record (Event.destructor Dtor.vector_destructor x)),
      [Event.free o.vector.dat], ?_, ?_, rfl, ?_, ?_, ?_⟩
    · simp [call_destructor, vector_destructor, ho2]
    · simp
    · simp
    · intro q hq
      rw [load_free, load_record, hq]; simp
    · intro h; cases h
  · refine ⟨free o.matrix.dat (s.record (Event.destructor Dtor.matrix_destructor x)),
      [Event.free o.matrix.dat], ?_, ?_, rfl, ?_, ?_, ?_⟩
    · simp [call_destructor, matrix_destructor, ho2]
    · simp
    · simp
    · intro q hq
      rw [load_free, load_record, hq]; simp
    · intro h; cases h
  · refine ⟨free o.set.element (s.record (Event.destructor Dtor.set_destructor x)),
      [Event.free o.set.element], ?_, ?_, rfl, ?_, ?_, ?_⟩
    · simp [call_destructor, set_destructor, ho2]
    · simp
    · simp
    · intro q hq
      rw [load_free, load_record, hq]; simp
    · intro h; cases h

/-- C8 (the code does otherwise): `delete` on instances whose class declares a
destructor.  In the state of the example program, `delete(a)` on the
`abstract_object` instance `a` (block 1) calls the destructor, which returns
`NULL`, and hands `NULL` to `free`: block 1 is still live afterwards and was
never handed to `free`.  The same happens for the vector (block 1) of the mixed
state, while the iterator (block 4), whose class declares no destructor, is
handed to `free` and released. -/
theorem C8_delete_with_destructor_frees_null :
    (classAt demo abstract_object).destructor = some Dtor.abstract_object_destructor
      ∧ (∃ s2, delete demo 1 example_roots = some s2
          ∧ s2.obj 1 = some root_default
          ∧ s2.heap = example_roots.heap
          ∧ s2.trace = example_roots.trace
              ++ [Event.destructor Dtor.abstract_object_destructor 1, Event.free NULL])
      ∧ (∃ s2, delete demo 1 example_mixed = some s2
          ∧ s2.load 1 = example_mixed.load 1
          ∧ s2.heap = example_mixed.heap
          ∧ s2.trace = example_mixed.trace
              ++ [Event.destructor Dtor.vector_destructor 1, Event.free NULL, Event.free NULL])
      ∧ (∃ s2, delete demo 4 example_mixed = some s2
          ∧ s2.load 4 = none
          ∧ s2.trace = example_mixed.trace ++ [Event.free 4]) :=
  ⟨rfl, ⟨_, rfl, rfl, rfl, rfl⟩, ⟨_, rfl, rfl, rfl, rfl⟩, ⟨_, rfl, rfl, rfl⟩⟩

/-- What `delete` does on an instance whose class declares a destructor of the
repository: every block that is live stays live when the destructor is the
root destructor, and the pointer handed to the final `free` is `NULL`. -/
theorem delete_with_destructor (P : Static) (s : State) (x : Ptr) (o : Obj) (C : ClassRef)
    (dtor : Dtor) (ho : s.obj x = some o) (htag : o.«class» = some C)
    (hdt : (classAt P C).destructor = some dtor) :
    ∃ s2 rest, delete P x s = some s2
      ∧ s2.trace = s.trace ++ Event.destructor dtor x :: (rest ++ [Event.free NULL])
      ∧ destructor_calls rest = []
      ∧ (dtor = Dtor.abstract_object_destructor → ∀ q, s2.load q = s.load q) := by
  obtain ⟨n, hl⟩ := load_of_obj s x o ho
  have hx := ne_null_of_load s x _ hl
  obtain ⟨s1, rest, h1, h2, h3, -, -, h6⟩ := call_destructor_spec dtor s x o ho
  refine ⟨free NULL s1, rest, ?_, ?_, h3, ?_⟩
  · simp [delete, hx, ho, htag, hdt, h1]
  · simp [h2]
  · intro hd q
    rw [load_free, h6 hd q]
    by_cases hq : q = NULL
    · subst hq; simp
    · simp [hq]

/-- C9: single-level destruction.  For a live instance `x` tagged `C`,
`delete(x)` returns; when `C` declares a destructor, the calls it adds to the
trace contain exactly one destructor call, that of the destructor of `C` on
`x`; when `C` declares none, they contain no destructor call, whatever the
ancestors of `C` declare. -/
theorem C9_single_level_destruction (P : Static) (s : State) (x : Ptr) (o : Obj)
    (C : ClassRef) (ho : s.obj x = some o) (htag : o.«class» = some C) :
    ∃ s2 added, delete P x s = some s2 ∧ s2.trace = s.trace ++ added
      ∧ (∀ dtor, (classAt P C).destructor = some dtor →
          destructor_calls added = [(dtor, x)])
      ∧ ((classAt P C).destructor = none → destructor_calls added = []) := by
  obtain ⟨n, hl⟩ := load_of_obj s x o ho
  have hx := ne_null_of_load s x _ hl
  cases hdt : (classAt P C).destructor with
  | none =>
    refine ⟨free x s, [Event.free x], ?_, by simp, ?_, fun _ => rfl⟩
    · simp [delete, hx, ho, htag, hdt]
    · intro dtor h; cases h
  | some dtor =>
    obtain ⟨s2, rest, h1, h2, h3, -⟩ := delete_with_destructor P s x o C dtor ho htag hdt
    refine ⟨s2, _, h1, h2, ?_, ?_⟩
    · intro d2 h
      cases h
      simp [destructor_calls, destructor_calls_append, h3]
    · intro h; cases h

/-- Witness for C9: deleting the iterator of the mixed state (block 4), whose
class declares no destructor while its parent does. -/
theorem C9_single_level_destruction_witness :
    (classAt demo iterator).destructor = none
      ∧ (classAt demo abstract_object).destructor = some Dtor.abstract_object_destructor
      ∧ ∃ s2 added, delete demo 4 example_mixed = some s2
          ∧ s2.trace = example_mixed.trace ++ added
          ∧ (∀ dtor, (classAt demo iterator).destructor = some dtor →
              destructor_calls added = [(dtor, 4)])
          ∧ ((classAt demo iterator).destructor = none → destructor_calls added = []) :=
  ⟨rfl, rfl, C9_single_level_destruction demo example_mixed 4 _ iterator rfl rfl⟩

/-- C10: `delete` on the null handle returns a state with the same heap and
the same output; the only call it adds to the trace is `free(NULL)`, so no
destructor is invoked and no block is released. -/
theorem C10_delete_null (P : Static) (s : State) :
    delete P NULL s = some { s with trace := s.trace ++ [Event.free NULL] }
      ∧ ∃ s2, delete P NULL s = some s2 ∧ s2.heap = s.heap ∧ s2.out = s.out
          ∧ (∀ q, s2.load q = s.load q)
          ∧ destructor_calls s2.trace = destructor_calls s.trace
          ∧ freed s2.trace = freed s.trace ++ [NULL] := by
  have h : delete P NULL s = some { s with trace := s.trace ++ [Event.free NULL] } := by
    simp [delete, free, State.record]
  refine ⟨h, _, h, rfl, rfl, fun q => rfl, ?_, ?_⟩
  · simp [destructor_calls_append, destructor_calls]
  · simp [freed_append, freed]

/-! ## Facts about sets -/

theorem inherits_from_of_inherits (P : Static) (fuel : Nat) (s : State) (x : Ptr)
    (K : ClassRef) (h : Inherits P fuel s x K) :
    inherits_from P fuel s x (some K) = some 1 := by
  obtain ⟨o, C, d, ho, hc, hd, hf, hr⟩ := h
  simp only [inherits_from, ho, hc, Option.bind_eq_bind, Option.some_bind]
  exact loop_complete P C K hr d fuel hd hf

theorem inherits_from_of_not_inherits (P : Static) (fuel : Nat) (s : State) (x : Ptr)
    (K : ClassRef) (h : NotInherits P fuel s x K) :
    inherits_from P fuel s x (some K) = some 0 := by
  obtain ⟨o, C, d, ho, hc, hd, hf, hr⟩ := h
  simp only [inherits_from, ho, hc, Option.bind_eq_bind, Option.some_bind]
  rcases loop_total P (some K) C d hd fuel hf with h | h
  · obtain ⟨A, hA, hr2⟩ := loop_sound P _ fuel C h
    cases hA
    exact absurd hr2 hr
  · exact h

theorem tags_kept_refl (s : State) : TagsKept s s :=
  fun _ _ o h => ⟨o, h, rfl, rfl⟩

theorem tags_kept_trans (s1 s2 s3 : State) (h12 : TagsKept s1 s2) (h23 : TagsKept s2 s3) :
    TagsKept s1 s3 := by
  intro q n o h
  obtain ⟨o2, h2, e2, c2⟩ := h12 q n o h
  obtain ⟨o3, h3, e3, c3⟩ := h23 q n o2 h2
  exact ⟨o3, h3, e3.trans e2, c3.trans c2⟩

theorem inherits_of_tags_kept (P : Static) (fuel : Nat) (s s2 : State) (x : Ptr) (K : ClassRef)
    (hk : TagsKept s s2) (h : Inherits P fuel s x K) : Inherits P fuel s2 x K := by
  obtain ⟨o, C, d, ho, hc, hd, hf, hr⟩ := h
  obtain ⟨n, hl⟩ := load_of_obj s x o ho
  obtain ⟨o2, h2, e2, -⟩ := hk x n o hl
  exact ⟨o2, C, d, obj_of_load _ _ _ _ h2, e2.trans hc, hd, hf, hr⟩

theorem tags_kept_update (s s1 : State) (p : Ptr) (f : Obj → Obj)
    (h : s.update p f = some s1)
    (hf : ∀ o, (f o).«class» = o.«class» ∧ (f o).clone = o.clone) : TagsKept s s1 := by
  obtain ⟨n, o, hl, rfl⟩ := update_some s p f s1 h
  intro q m oq hq
  by_cases hqp : q = p
  · subst hqp
    rw [hl] at hq
    cases hq
    exact ⟨f o, load_store_self _ _ _ _ hl, hf o⟩
  · exact ⟨oq, by rw [load_store_other _ _ _ _ hqp, hq], rfl, rfl⟩

theorem tags_kept_store (s : State) (p : Ptr) (b : Block)
    (hp : ∀ n o, s.load p ≠ some (Block.object n o)) : TagsKept s (s.store p b) := by
  intro q m oq hq
  by_cases hqp : q = p
  · subst hqp
    exact absurd hq (hp m oq)
  · exact ⟨oq, by rw [load_store_other _ _ _ _ hqp, hq], rfl, rfl⟩

theorem tags_kept_alloc (s : State) (b : Block) : TagsKept s (s.alloc b).2 := by
  intro q m oq hq
  exact ⟨oq, by rw [load_alloc, if_neg (ne_fresh_of_load s q _ hq), hq], rfl, rfl⟩

theorem ptrs_of_load (s : State) (p : Ptr) (ps : List Ptr)
    (h : s.load p = some (Block.ptrs ps)) : s.ptrs p = some ps := by
  simp [State.ptrs, h]

theorem reals_of_load (s : State) (p : Ptr) (xs : List real)
    (h : s.load p = some (Block.reals xs)) : s.reals p = some xs := by
  simp [State.reals, h]

theorem ptrs_congr (s s2 : State) (x : Ptr) (h : s2.load x = s.load x) :
    s2.ptrs x = s.ptrs x := by
  simp [State.ptrs, h]

theorem reals_congr (s s2 : State) (x : Ptr) (h : s2.load x = s.load x) :
    s2.reals x = s.reals x := by
  simp [State.reals, h]

/-- The search loop over the stored elements: the index of the first entry
identical to `x`, or -1. -/
theorem set_find_loop_spec (s : State) (p x : Ptr) (ps : List Ptr)
    (hp : s.ptrs p = some ps) :
    ∀ (l2 l1 rest : List Ptr), ps = l1 ++ l2 ++ rest →
      set_find_loop s p x l2.length l1.length
        = some (if x ∈ l2 then ((l1.length + l2.indexOf x : Nat) : Int) else -1) := by
  intro l2
  induction l2 with
  | nil => intro l1 rest _; simp [set_find_loop]
  | cons e t ih =>
    intro l1 rest hps
    have hget : ps[l1.length]? = some e := by
      rw [hps, List.append_assoc, List.getElem?_append_right (le_refl _)]
      simp
    simp only [List.length_cons, set_find_loop, hp, Option.bind_eq_bind, Option.some_bind, hget]
    by_cases he : e = x
    · subst he
      simp
    · have hne : ¬ x = e := fun h => he h.symm
      have := ih (l1 ++ [e]) rest (by rw [hps]; simp)
      simp only [List.length_append, List.length_singleton] at this
      rw [if_neg he, this]
      simp only [List.mem_cons, hne, false_or, List.indexOf_cons_ne _ he]
      split
      · congr 1
        push_cast
        omega
      · rfl

theorem set_guard_true (P : Static) (fuel : Nat) (s : State) (A x : Ptr)
    (hA : Inherits P fuel s A set) (hx : Inherits P fuel s x abstract_object) :
    set_guard P fuel s A x = some true := by
  simp [set_guard, inherits_from_of_inherits P fuel s A _ hA,
    inherits_from_of_inherits P fuel s x _ hx]

/-- The function `set_find` on a set that stores `l`. -/
theorem set_find_spec (P : Static) (fuel : Nat) (s : State) (A x : Ptr) (l : List Ptr)
    (hv : SetView P fuel s A l) :
    set_find s A x = some (if x ∈ l then ((l.indexOf x : Nat) : Int) else -1) := by
  obtain ⟨o, ho, -, -, -, -, -, hn, hel, -⟩ := hv
  simp only [set_find, ho, Option.bind_eq_bind, Option.some_bind, hn, Int.toNat_ofNat]
  rcases hel with ⟨-, rfl⟩ | ⟨ps, hps, rest, hrest⟩
  · simp [set_find_loop]
  · have := set_find_loop_spec s o.set.element x ps hps l [] rest (by simp [hrest])
    simpa using this

/-- The function `find` on a set that stores `l`, for an element that descends
from `abstract_object`. -/
theorem find_spec (P : Static) (fuel : Nat) (s : State) (A x : Ptr) (l : List Ptr)
    (hv : SetView P fuel s A l) (hx : Inherits P fuel s x abstract_object) :
    find P fuel s A x = some (if x ∈ l then ((l.indexOf x : Nat) : Int) else -1) := by
  have hf := set_find_spec P fuel s A x l hv
  obtain ⟨o, ho, hA, hfind, -⟩ := hv
  simp only [find, set_guard_true P fuel s A x hA hx, Option.bind_eq_bind, Option.some_bind,
    if_true, ho, hfind, call_find, hf]

/-- The function `contains` on a set that stores `l`. -/
theorem contains_spec (P : Static) (fuel : Nat) (s : State) (A x : Ptr) (l : List Ptr)
    (hv : SetView P fuel s A l) (hx : Inherits P fuel s x abstract_object) :
    contains P fuel s A x = some (if x ∈ l then 1 else 0) := by
  simp only [contains, find_spec P fuel s A x l hv hx, Option.bind_eq_bind, Option.some_bind,
    Option.pure_def]
  by_cases h : x ∈ l
  · have : ¬ ((l.indexOf x : Nat) : Int) = -1 := by omega
    simp [h, this]
  · simp [h]

theorem load_ptrs_ne_object (s : State) (a : Ptr) (ps : List Ptr) (h : s.ptrs a = some ps) :
    ∀ n o, s.load a ≠ some (Block.object n o) := by
  intro n o hl
  rw [ptrs_some s a ps h] at hl
  cases hl

theorem write_ptr_spec (s : State) (a : Ptr) (ps : List Ptr) (i : Nat) (v : Ptr)
    (hp : s.ptrs a = some ps) (hi : i < ps.length) :
    s.write_ptr a (i : Int) v = some (s.store a (Block.ptrs (ps.set i v))) := by
  simp [State.write_ptr, hp, hi]

theorem ptrs_store_self (s : State) (a : Ptr) (ps ps2 : List Ptr) (hp : s.ptrs a = some ps) :
    (s.store a (Block.ptrs ps2)).ptrs a = some ps2 :=
  ptrs_of_load _ _ _ (load_store_self _ _ _ _ (ptrs_some s a ps hp))

theorem obj_store_ptrs (s : State) (a q : Ptr) (ps ps2 : List Ptr) (hp : s.ptrs a = some ps) :
    (s.store a (Block.ptrs ps2)).obj q = s.obj q := by
  by_cases hq : q = a
  · subst hq
    have h1 := load_store_self s q _ (Block.ptrs ps2) (ptrs_some s q ps hp)
    simp [State.obj, h1, ptrs_some s q ps hp]
  · exact obj_congr _ _ _ (load_store_other _ _ _ _ hq)

theorem obj_update_self (s s1 : State) (p : Ptr) (f : Obj → Obj) (o : Obj)
    (ho : s.obj p = some o) (h : s.update p f = some s1) : s1.obj p = some (f o) := by
  obtain ⟨n, o2, hl, rfl⟩ := update_some s p f s1 h
  have : o2 = o := by
    have := obj_of_load _ _ _ _ hl
    rw [ho] at this
    exact (Option.some.inj this).symm
  subst this
  exact obj_of_load _ _ _ _ (load_store_self _ _ _ _ hl)

theorem update_defined (s : State) (p : Ptr) (f : Obj → Obj) (o : Obj) (ho : s.obj p = some o) :
    ∃ s1, s.update p f = some s1 := by
  obtain ⟨n, hl⟩ := load_of_obj s p o ho
  exact ⟨_, update_of_load s p n o f hl⟩

theorem ptrs_update (s s1 : State) (p q : Ptr) (f : Obj → Obj) (h : s.update p f = some s1) :
    s1.ptrs q = s.ptrs q := by
  obtain ⟨n, o, hl, rfl⟩ := update_some s p f s1 h
  by_cases hq : q = p
  · subst hq
    simp [State.ptrs, load_store_self _ _ _ _ hl, hl]
  · exact ptrs_congr _ _ _ (load_store_other _ _ _ _ hq)

theorem reals_update (s s1 : State) (p q : Ptr) (f : Obj → Obj) (h : s.update p f = some s1) :
    s1.reals q = s.reals q := by
  obtain ⟨n, o, hl, rfl⟩ := update_some s p f s1 h
  by_cases hq : q = p
  · subst hq
    simp [State.reals, load_store_self _ _ _ _ hl, hl]
  · exact reals_congr _ _ _ (load_store_other _ _ _ _ hq)

theorem obj_alloc (s : State) (b : Block) (q : Ptr) (o : Obj) (h : s.obj q = some o) :
    (s.alloc b).2.obj q = some o := by
  obtain ⟨n, hl⟩ := load_of_obj s q o h
  rw [obj_congr s _ q (by rw [load_alloc, if_neg (ne_fresh_of_load s q _ hl)]), h]

/-- The block `realloc` leaves for a set that stores `l` and grows by one
entry: the stored elements followed by one more entry. -/
theorem realloc_block (l ps : List Ptr) (h : l <+: ps) :
    ∃ y, ps.take (l.length + 1) ++ List.replicate (l.length + 1 - ps.length) NULL = l ++ [y] := by
  obtain ⟨rest, rfl⟩ := h
  cases rest with
  | nil => exact ⟨NULL, by simp⟩
  | cons r rs =>
    refine ⟨r, ?_⟩
    have h1 : l.length + 1 - (l ++ r :: rs).length = 0 := by simp
    rw [h1, List.take_append_eq_append_take]
    simp

/-- The function `set_insert` for an element that is not stored: the set stores
the former elements followed by the new one. -/
theorem set_insert_new (P : Static) (fuel : Nat) (s : State) (A x : Ptr) (l : List Ptr)
    (hv : SetView P fuel s A l) (hx : Inherits P fuel s x abstract_object) (hnot : x ∉ l) :
    ∃ s4, set_insert P fuel A x s = some s4 ∧ SetView P fuel s4 A (l ++ [x])
      ∧ TagsKept s s4 ∧ s4.out = s.out ∧ s4.trace = s.trace := by
  have hc := contains_spec P fuel s A x l hv hx
  obtain ⟨o, ho, hA, hfind, hins, hdrop, heq, hn, hel, helems⟩ := hv
  have hg := set_guard_true P fuel s A x hA hx
  -- the first assignment: `self->nelements++`
  obtain ⟨s1, h1⟩ := update_defined s A (fun self =>
    { self with set := { self.set with nelements := self.set.nelements + 1 } }) o ho
  have ho1 := obj_update_self s s1 A _ o ho h1
  have hk1 : TagsKept s s1 := tags_kept_update s s1 A _ h1 (fun _ => ⟨rfl, rfl⟩)
  have hout1 : s1.out = s.out ∧ s1.trace = s.trace := by
    obtain ⟨n, o2, -, rfl⟩ := update_some s A _ s1 h1
    exact ⟨rfl, rfl⟩
  have hpos : ¬ ((l.length : Int) + 1 ≤ 0) := by omega
  have htn : ((l.length : Int) + 1).toNat = l.length + 1 := by omega
  -- the call to `realloc`
  have hre : ∃ p s2 y, realloc_ptrs o.set.element ((l.length : Int) + 1) s1 = some (p, s2)
      ∧ s2.ptrs p = some (l ++ [y]) ∧ s2.obj A = s1.obj A ∧ TagsKept s1 s2
      ∧ s2.out = s1.out ∧ s2.trace = s1.trace := by
    rcases hel with ⟨he, rfl⟩ | ⟨ps, hps, hpre⟩
    · refine ⟨fresh s1.heap, (s1.alloc (Block.ptrs [NULL])).2, NULL, ?_, ?_, ?_,
        tags_kept_alloc _ _, rfl, rfl⟩
      · simp [realloc_ptrs, he, State.alloc]
      · exact ptrs_of_load _ _ _ (by simp [load_alloc])
      · exact (obj_alloc _ _ _ _ ho1).trans ho1.symm
    · have hps1 : s1.ptrs o.set.element = some ps := by rw [ptrs_update s s1 A _ _ h1, hps]
      have hne : o.set.element ≠ NULL := by
        intro h0
        rw [h0] at hps
        simp [State.ptrs] at hps
      obtain ⟨y, hy⟩ := realloc_block l ps hpre
      refine ⟨o.set.element, s1.store o.set.element (Block.ptrs (l ++ [y])), y, ?_, ?_, ?_,
        tags_kept_store _ _ _ (load_ptrs_ne_object _ _ _ hps1), rfl, rfl⟩
      · simp only [realloc_ptrs, hpos, if_false, hne, hps1, Option.bind_eq_bind,
          Option.some_bind, htn, hy, Option.pure_def]
      · exact ptrs_store_self _ _ _ _ hps1
      · exact obj_store_ptrs _ _ _ _ _ hps1
  obtain ⟨p, s2, y, h2, hp2, ho2, hk2, hout2, htr2⟩ := hre
  rw [ho1] at ho2
  -- the assignment to `self->element`
  obtain ⟨s3, h3⟩ := update_defined s2 A (fun self =>
    { self with set := { self.set with element := p } }) _ ho2
  have ho3 := obj_update_self s2 s3 A _ _ ho2 h3
  have hk3 : TagsKept s2 s3 := tags_kept_update s2 s3 A _ h3 (fun _ => ⟨rfl, rfl⟩)
  have hp3 : s3.ptrs p = some (l ++ [y]) := by rw [ptrs_update s2 s3 A _ _ h3, hp2]
  have hout3 : s3.out = s2.out ∧ s3.trace = s2.trace := by
    obtain ⟨n, o2, -, rfl⟩ := update_some s2 A _ s3 h3
    exact ⟨rfl, rfl⟩
  -- the assignment to the last entry
  have h4 := write_ptr_spec s3 p (l ++ [y]) l.length x hp3 (by simp)
  have hset : (l ++ [y]).set l.length x = l ++ [x] := by
    rw [List.set_append_right _ _ (le_refl _)]
    simp
  rw [hset] at h4
  have hk4 : TagsKept s3 (s3.store p (Block.ptrs (l ++ [x]))) :=
    tags_kept_store _ _ _ (load_ptrs_ne_object _ _ _ hp3)
  have hk : TagsKept s (s3.store p (Block.ptrs (l ++ [x]))) :=
    tags_kept_trans _ _ _ (tags_kept_trans _ _ _ (tags_kept_trans _ _ _ hk1 hk2) hk3) hk4
  refine ⟨_, ?_, ?_, hk, ?_, ?_⟩
  · simp only [set_insert, hg, hc, hnot, if_false, if_true, Option.bind_eq_bind,
      Option.some_bind, h1, ho1, hn, h2, h3]
    have : (l.length : Int) + 1 - 1 = (l.length : Int) := by omega
    rw [this]
    exact h4
  · refine ⟨{ o with set := { o.set with nelements := o.set.nelements + 1, element := p } },
      ?_, inherits_of_tags_kept P fuel _ _ A set hk hA, hfind, hins, hdrop, heq, ?_,
      Or.inr ⟨l ++ [x], ?_, List.prefix_refl _⟩, ?_⟩
    · rw [obj_store_ptrs _ _ _ _ _ hp3, ho3]
    · simp [hn]
    · exact ptrs_store_self _ _ _ _ hp3
    · intro e he
      rcases List.mem_append.1 he with h | h
      · exact inherits_of_tags_kept P fuel _ _ e _ hk (helems e h)
      · rw [List.mem_singleton.1 h]
        exact inherits_of_tags_kept P fuel _ _ x _ hk hx
  · show s3.out = s.out
    rw [hout3.1, hout2, hout1.1]
  · show s3.trace = s.trace
    rw [hout3.2, htr2, hout1.2]

/-- Moving the last entry to index `i` and shortening a list by one entry
removes exactly the entry that was at index `i`. -/
theorem drop_perm (l : List Ptr) (i : Nat) (x last : Ptr) (hi : l[i]? = some x)
    (hlast : l[l.length - 1]? = some last) :
    (x :: (l.set i last).take (l.length - 1)).Perm l := by
  have hlt : i < l.length := by
    by_contra h
    rw [List.getElem?_eq_none (by omega)] at hi
    cases hi
  obtain ⟨a, b, rfl, ha⟩ : ∃ a b, l = a ++ x :: b ∧ a.length = i := by
    refine ⟨l.take i, l.drop (i + 1), ?_, by simp [Nat.min_eq_left (le_of_lt hlt)]⟩
    have hx : l[i] = x := by
      rw [List.getElem?_eq_getElem hlt] at hi
      exact Option.some.inj hi
    rw [← hx, ← List.drop_eq_getElem_cons hlt, List.take_append_drop]
  subst ha
  rw [List.set_append_right _ _ (le_refl _)]
  simp only [Nat.sub_self, List.set_cons_zero, List.length_append, List.length_cons]
  rcases List.eq_nil_or_concat b with rfl | ⟨b2, z, rfl⟩
  · simp [List.take_append_eq_append_take]
    exact (List.perm_append_singleton x a).symm
  · simp only [List.concat_eq_append] at hlast ⊢
    have hz : last = z := by
      have h1 : (a ++ x :: (b2 ++ [z]))[(a ++ x :: (b2 ++ [z])).length - 1]? = some z := by
        have : a ++ x :: (b2 ++ [z]) = (a ++ x :: b2) ++ [z] := by simp
        rw [this, List.getElem?_append_right (by simp)]
        simp
      rw [h1] at hlast
      exact (Option.some.inj hlast).symm
    subst hz
    have h2 : (a ++ last :: (b2 ++ [last])).take (a.length + ((b2 ++ [last]).length + 1) - 1)
        = a ++ last :: b2 := by
      have : a ++ last :: (b2 ++ [last]) = (a ++ last :: b2) ++ [last] := by simp
      rw [this, List.take_append_eq_append_take]
      simp
    rw [h2]
    have h3 : (a ++ last :: b2).Perm (a ++ (b2 ++ [last])) :=
      List.Perm.append_left a (List.perm_append_singleton last b2).symm
    exact (List.Perm.cons x h3).trans List.perm_middle.symm

theorem read_ptr_spec (s : State) (a : Ptr) (ps : List Ptr) (i : Nat)
    (hp : s.ptrs a = some ps) : s.read_ptr a (i : Int) = ps[i]? := by
  simp [State.read_ptr, hp]

theorem take_set_set (l rest : List Ptr) (i : Nat) (v w : Ptr) (hi : i < l.length) :
    ((((l ++ rest).set i v).set (l.length - 1) w).take (l.length - 1))
      = (l.set i v).take (l.length - 1) := by
  apply List.ext_getElem?
  intro k
  by_cases hk : k < l.length - 1
  · have hk2 : k ≠ l.length - 1 := by omega
    have hk3 : k < l.length := by omega
    simp only [List.getElem?_take, hk, if_true, List.getElem?_set]
    have hk4 : ¬ l.length - 1 = k := fun h => hk2 h.symm
    simp only [List.length_set, List.length_append, hk4, if_false,
      List.getElem?_append_left hk3]
    by_cases hik : i = k
    · have h5 : i < l.length + rest.length := by omega
      simp [hik, hk3, Nat.lt_add_right rest.length hk3]
    · simp [hik]
  · simp [List.getElem?_take, hk]

/-- The function `set_drop` for a stored element: the set stores the other
elements, one entry less. -/
theorem set_drop_stored (P : Static) (fuel : Nat) (s : State) (A x : Ptr) (l : List Ptr)
    (hv : SetView P fuel s A l) (hx : Inherits P fuel s x abstract_object) (hmem : x ∈ l) :
    ∃ s3 l2, set_drop P fuel A x s = some s3 ∧ SetView P fuel s3 A l2 ∧ (x :: l2).Perm l
      ∧ TagsKept s s3 ∧ s3.out = s.out ∧ s3.trace = s.trace := by
  have hc := contains_spec P fuel s A x l hv hx
  have hf := set_find_spec P fuel s A x l hv
  obtain ⟨o, ho, hA, hfind, hins, hdrop, heq, hn, hel, helems⟩ := hv
  have hlen : 0 < l.length := List.length_pos_of_mem hmem
  have hi : l.indexOf x < l.length := List.indexOf_lt_length.2 hmem
  have hix : l[l.indexOf x]? = some x := by
    rw [List.getElem?_eq_getElem hi]
    simp
  obtain ⟨ps, hps, rest, rfl⟩ : ∃ ps, s.ptrs o.set.element = some ps ∧ l <+: ps := by
    rcases hel with ⟨-, rfl⟩ | h
    · cases hmem
    · exact h
  obtain ⟨last, hlast⟩ : ∃ last, l[l.length - 1]? = some last :=
    ⟨l[l.length - 1], List.getElem?_eq_getElem (by omega)⟩
  have hcast : (l.length : Int) - 1 = ((l.length - 1 : Nat) : Int) := by omega
  have hread : s.read_ptr o.set.element ((l.length : Int) - 1) = some last := by
    rw [hcast, read_ptr_spec s _ _ _ hps, List.getElem?_append_left (by omega), hlast]
  -- the two assignments to the array
  have hw1 := write_ptr_spec s o.set.element (l ++ rest) (l.indexOf x) last hps
    (by simp; omega)
  have hp1 := ptrs_store_self s o.set.element _ ((l ++ rest).set (l.indexOf x) last) hps
  have hw2 := write_ptr_spec _ o.set.element _ (l.length - 1) NULL hp1 (by simp; omega)
  have hp2 := ptrs_store_self _ o.set.element _
    ((((l ++ rest).set (l.indexOf x) last)).set (l.length - 1) NULL) hp1
  have ho2 : ((s.store o.set.element (Block.ptrs ((l ++ rest).set (l.indexOf x) last))).store
      o.set.element (Block.ptrs ((((l ++ rest).set (l.indexOf x) last)).set (l.length - 1)
        NULL))).obj A = some o := by
    rw [obj_store_ptrs _ _ _ _ _ hp1, obj_store_ptrs _ _ _ _ _ hps, ho]
  -- the assignment to `nelements`
  obtain ⟨s3, h3⟩ := update_defined _ A (fun self =>
    { self with set := { self.set with nelements := self.set.nelements - 1 } }) o ho2
  have ho3 := obj_update_self _ s3 A _ o ho2 h3
  have hp3 := (ptrs_update _ s3 A o.set.element _ h3).trans hp2
  have hk : TagsKept s s3 :=
    tags_kept_trans _ _ _ (tags_kept_trans _ _ _
      (tags_kept_store _ _ _ (load_ptrs_ne_object _ _ _ hps))
      (tags_kept_store _ _ _ (load_ptrs_ne_object _ _ _ hp1)))
      (tags_kept_update _ s3 A _ h3 (fun _ => ⟨rfl, rfl⟩))
  have hperm := drop_perm l (l.indexOf x) x last hix hlast
  have hout : s3.out = s.out ∧ s3.trace = s.trace := by
    obtain ⟨n, o2, -, rfl⟩ := update_some _ A _ s3 h3
    exact ⟨rfl, rfl⟩
  refine ⟨s3, (l.set (l.indexOf x) last).take (l.length - 1), ?_, ?_, hperm, hk, hout.1, hout.2⟩
  · simp only [set_drop, hc, hmem, if_true, Option.bind_eq_bind, Option.some_bind, hf, ho, hn,
      hread, hw1]
    rw [hcast, hw2]
    simpa [hcast] using h3
  · refine ⟨{ o with set := { o.set with nelements := o.set.nelements - 1 } }, ho3,
      inherits_of_tags_kept P fuel _ _ A set hk hA, hfind, hins, hdrop, heq, ?_,
      Or.inr ⟨_, hp3, ?_⟩, ?_⟩
    · simp [hn]
      omega
    · rw [← take_set_set l rest (l.indexOf x) last NULL hi]
      exact List.take_prefix _ _
    · intro e he
      exact inherits_of_tags_kept P fuel _ _ e _ hk
        (helems e ((hperm.mem_iff).1 (List.mem_cons_of_mem _ he)))

/-! ## Facts about construction -/

/-- Every constructor of the repository returns the block it was given, with
the contents `constructed` describes, and leaves every other block, the output
and the tags alone. -/
theorem call_constructor_exact (c : Ctor) (s : State) (p : Ptr) (args : List Int) (n : Nat)
    (o : Obj) (h : s.load p = some (Block.object n o)) :
    ∃ s1, call_constructor c p args s = some (p, s1)
      ∧ s1.load p = some (Block.object n (constructed c args o))
      ∧ (∀ q, q ≠ p → s1.load q = s.load q)
      ∧ s1.out = s.out := by
  cases c <;>
  simp [call_constructor, vector_constructor, matrix_constructor, set_constructor,
      iterator_constructor, time_iterator_constructor, constructed,
      abstract_object_constructor, State.update, load_store, h] <;>
  intro q hq <;> simp [hq]

/-- The block `new_object` creates from a class with a constructor. -/
theorem new_object_exact (P : Static) (C : ClassRef) (c : Ctor) (args : List Int) (s : State)
    (hc : (classAt P C).constructor = some c) :
    ∃ s1, new_object P C args s = some (fresh s.heap, s1)
      ∧ s1.load (fresh s.heap)
          = some (Block.object (classAt P C).size (constructed c args { «class» := some C }))
      ∧ (∀ q, q ≠ fresh s.heap → s1.load q = s.load q)
      ∧ s1.out = s.out := by
  have ha : (s.alloc (Block.object (classAt P C).size {})).2.load (fresh s.heap)
      = some (Block.object (classAt P C).size {}) := by simp [load_alloc]
  have hu := update_of_load _ _ _ _ (fun o => { o with «class» := some C }) ha
  have hl := load_store_self _ (fresh s.heap) _
    (Block.object (classAt P C).size ({ «class» := some C } : Obj)) ha
  have hother : ∀ q, q ≠ fresh s.heap →
      ((s.alloc (Block.object (classAt P C).size {})).2.store (fresh s.heap)
        (Block.object (classAt P C).size ({ «class» := some C } : Obj))).load q = s.load q := by
    intro q hq
    rw [load_store_other _ _ _ _ hq, load_alloc, if_neg hq]
  obtain ⟨s1, h1, h2, h3, h4⟩ := call_constructor_exact c _ _ args _ _ hl
  refine ⟨s1, ?_, h2, ?_, ?_⟩
  · simp only [new_object, State.alloc] at hu h1 ⊢
    simp [State.alloc, hu, hc, h1]
  · intro q hq
    rw [h3 q hq, hother q hq]
  · rw [h4]; rfl

theorem tags_kept_of_frame (s s1 : State) (p : Ptr) (hp : s.load p = none)
    (h : ∀ q, q ≠ p → s1.load q = s.load q) : TagsKept s s1 := by
  intro q n o hq
  have hqp : q ≠ p := by
    rintro rfl
    rw [hp] at hq
    cases hq
  exact ⟨o, by rw [h q hqp, hq], rfl, rfl⟩

/-- A new instance of `set` is a set that stores nothing. -/
theorem new_set_view (P : Static) (fuel : Nat) (hf : 2 ≤ fuel) (args : List Int) (s : State) :
    ∃ A s1, new_object P set args s = some (A, s1) ∧ s.load A = none ∧ A ≠ NULL
      ∧ SetView P fuel s1 A [] ∧ TagsKept s s1
      ∧ (∀ q, q ≠ A → s1.load q = s.load q) := by
  obtain ⟨s1, h1, h2, h3, -⟩ := new_object_exact P set Ctor.set_constructor args s rfl
  refine ⟨_, s1, h1, load_fresh s, fresh_pos _, ?_, tags_kept_of_frame s s1 _ (load_fresh s) h3,
    h3⟩
  refine ⟨_, obj_of_load _ _ _ _ h2, ?_, rfl, rfl, rfl, rfl, rfl, Or.inl ⟨rfl, rfl⟩, ?_⟩
  · exact ⟨_, set, 1, obj_of_load _ _ _ _ h2, rfl, Depth.parent rfl (Depth.root rfl), by omega,
      Reaches.self _⟩
  · intro e he
    cases he

theorem set_insert_stored (P : Static) (fuel : Nat) (s : State) (A x : Ptr) (l : List Ptr)
    (hv : SetView P fuel s A l) (hx : Inherits P fuel s x abstract_object) (hmem : x ∈ l) :
    set_insert P fuel A x s = some s := by
  have hc := contains_spec P fuel s A x l hv hx
  obtain ⟨o, ho, hA, -⟩ := hv
  simp [set_insert, set_guard_true P fuel s A x hA hx, hc, hmem]

theorem set_drop_absent (P : Static) (fuel : Nat) (s : State) (A x : Ptr) (l : List Ptr)
    (hv : SetView P fuel s A l) (hx : Inherits P fuel s x abstract_object) (hmem : x ∉ l) :
    set_drop P fuel A x s = some s := by
  simp [set_drop, contains_spec P fuel s A x l hv hx, hmem]

theorem insert_eq_set_insert (P : Static) (fuel : Nat) (s : State) (A x : Ptr) (l : List Ptr)
    (hv : SetView P fuel s A l) (hx : Inherits P fuel s x abstract_object) :
    insert P fuel A x s = set_insert P fuel A x s := by
  obtain ⟨o, ho, hA, -, hins, -⟩ := hv
  simp [insert, set_guard_true P fuel s A x hA hx, ho, hins, call_set_update]

theorem drop_eq_set_drop (P : Static) (fuel : Nat) (s : State) (A x : Ptr) (l : List Ptr)
    (hv : SetView P fuel s A l) (hx : Inherits P fuel s x abstract_object) :
    drop P fuel A x s = set_drop P fuel A x s := by
  obtain ⟨o, ho, hA, -, -, hdrop, -⟩ := hv
  simp [drop, set_guard_true P fuel s A x hA hx, ho, hdrop, call_set_update]

/-- The function `insert` on a set that stores `l`. -/
theorem insert_spec (P : Static) (fuel : Nat) (s : State) (A x : Ptr) (l : List Ptr)
    (hv : SetView P fuel s A l) (hx : Inherits P fuel s x abstract_object) :
    ∃ s2, insert P fuel A x s = some s2
      ∧ SetView P fuel s2 A (if x ∈ l then l else l ++ [x])
      ∧ (x ∈ l → s2 = s) ∧ TagsKept s s2 ∧ s2.out = s.out ∧ s2.trace = s.trace := by
  rw [insert_eq_set_insert P fuel s A x l hv hx]
  by_cases hmem : x ∈ l
  · exact ⟨s, set_insert_stored P fuel s A x l hv hx hmem, by simpa [hmem] using hv,
      fun _ => rfl, tags_kept_refl s, rfl, rfl⟩
  · obtain ⟨s4, h1, h2, h3, h4, h5⟩ := set_insert_new P fuel s A x l hv hx hmem
    exact ⟨s4, h1, by simpa [hmem] using h2, fun h => absurd h hmem, h3, h4, h5⟩

/-- The function `drop` on a set that stores `l`. -/
theorem drop_spec (P : Static) (fuel : Nat) (s : State) (A x : Ptr) (l : List Ptr)
    (hv : SetView P fuel s A l) (hx : Inherits P fuel s x abstract_object) :
    ∃ s2 l2, drop P fuel A x s = some s2 ∧ SetView P fuel s2 A l2
      ∧ (x ∈ l → (x :: l2).Perm l) ∧ (x ∉ l → s2 = s ∧ l2 = l)
      ∧ TagsKept s s2 ∧ s2.out = s.out ∧ s2.trace = s.trace := by
  rw [drop_eq_set_drop P fuel s A x l hv hx]
  by_cases hmem : x ∈ l
  · obtain ⟨s3, l2, h1, h2, h3, h4, h5, h6⟩ := set_drop_stored P fuel s A x l hv hx hmem
    exact ⟨s3, l2, h1, h2, fun _ => h3, fun h => absurd hmem h, h4, h5, h6⟩
  · exact ⟨s, l, set_drop_absent P fuel s A x l hv hx hmem, hv, fun h => absurd h hmem,
      fun _ => ⟨rfl, rfl⟩, tags_kept_refl s, rfl, rfl⟩

/-- The loop of `set_equal` over the stored elements of `A`: 1 when each of
them is stored in `B`, 0 otherwise. -/
theorem set_equal_loop_spec (P : Static) (fuel : Nat) (s : State) (p B : Ptr)
    (ps lb : List Ptr) (hp : s.ptrs p = some ps) (hB : SetView P fuel s B lb) :
    ∀ (l2 l1 rest : List Ptr), ps = l1 ++ l2 ++ rest →
      (∀ e ∈ l2, Inherits P fuel s e abstract_object) →
      set_equal_loop P fuel s p B l2.length l1.length
        = some (if ∀ e ∈ l2, e ∈ lb then 1 else 0) := by
  intro l2
  induction l2 with
  | nil => intro l1 rest _ _; simp [set_equal_loop]
  | cons e t ih =>
    intro l1 rest hps hin
    have hget : ps[l1.length]? = some e := by
      rw [hps, List.append_assoc, List.getElem?_append_right (le_refl _)]
      simp
    have hread := read_ptr_spec s p ps l1.length hp
    have hc := contains_spec P fuel s B e lb hB (hin e (List.mem_cons_self _ _))
    have hrec := ih (l1 ++ [e]) rest (by rw [hps]; simp)
      (fun a ha => hin a (List.mem_cons_of_mem _ ha))
    simp only [List.length_append, List.length_singleton] at hrec
    simp only [List.length_cons, set_equal_loop, hread, hget, Option.bind_eq_bind,
      Option.some_bind, hc]
    by_cases he : e ∈ lb
    · simp [he, hrec]
    · simp [he]

/-- The function `equal` on two sets that store `la` and `lb`: 1 when they
store equally many elements and each element of `la` is in `lb`. -/
theorem equal_spec (P : Static) (fuel : Nat) (s : State) (A B : Ptr) (la lb : List Ptr)
    (hA : SetView P fuel s A la) (hB : SetView P fuel s B lb) :
    equal P fuel s A B
      = some (if la.length = lb.length ∧ ∀ e ∈ la, e ∈ lb then 1 else 0) := by
  obtain ⟨oa, hoa, hiA, -, -, -, heqA, hnA, helA, hinA⟩ := hA
  have hB2 := hB
  obtain ⟨ob, hob, hiB, -, -, -, -, hnB, -, -⟩ := hB2
  simp only [equal, inherits_from_of_inherits P fuel s A _ hiA,
    inherits_from_of_inherits P fuel s B _ hiB, Option.bind_eq_bind, Option.some_bind, hoa, heqA,
    call_equal, set_equal, hob, hnA, hnB, Int.toNat_ofNat]
  by_cases hlen : la.length = lb.length
  · have hcast : (la.length : Int) = (lb.length : Int) := by exact_mod_cast hlen
    simp only [hcast, hlen, true_and, if_true, ne_eq, one_ne_zero, not_false_eq_true]
    rcases helA with ⟨-, rfl⟩ | ⟨ps, hps, rest, hrest⟩
    · rw [← hlen]
      simp [set_equal_loop]
    · have := set_equal_loop_spec P fuel s oa.set.element B ps lb hps hB la [] rest
        (by simp [hrest]) hinA
      rw [← hlen]
      simpa using this
  · have hcast : ¬ (la.length : Int) = (lb.length : Int) := by exact_mod_cast hlen
    simp [hcast, hlen]

/-- For lists without repetition: equally many entries with one list included
in the other is the same as having the same entries. -/
theorem same_elements_iff (la lb : List Ptr) (ha : la.Nodup) (hb : lb.Nodup) :
    (la.length = lb.length ∧ ∀ e ∈ la, e ∈ lb) ↔ ∀ e, e ∈ la ↔ e ∈ lb := by
  constructor
  · rintro ⟨hlen, hsub⟩
    have hperm : la.Perm lb :=
      (List.subperm_of_subset ha hsub).perm_of_length_le (le_of_eq hlen.symm)
    exact fun e => hperm.mem_iff
  · intro h
    have hperm : la.Perm lb := (List.perm_ext_iff_of_nodup ha hb).2 h
    exact ⟨hperm.length_eq, fun e he => (h e).1 he⟩

/-! ## Facts about the clone functions -/

/-- The copy loop over arrays of pointers: the entries `i .. i + count - 1` of
the destination become those of the source, every other entry and every other
block stay as they are. -/
theorem copy_ptrs_spec (dst src : Ptr) (xs : List Ptr) (hne : src ≠ dst) :
    ∀ (count i : Nat) (s : State) (ys : List Ptr), s.ptrs src = some xs → s.ptrs dst = some ys →
      i + count ≤ xs.length → i + count ≤ ys.length →
      ∃ s2 zs, copy_ptrs dst src count i s = some s2 ∧ s2.ptrs dst = some zs
        ∧ zs.length = ys.length
        ∧ (∀ j, zs[j]? = if i ≤ j ∧ j < i + count then xs[j]? else ys[j]?)
        ∧ (∀ q, q ≠ dst → s2.load q = s.load q) ∧ s2.out = s.out ∧ s2.trace = s.trace := by
  intro count
  induction count with
  | zero =>
    intro i s ys _ hd _ _
    refine ⟨s, ys, rfl, hd, rfl, fun j => ?_, fun _ _ => rfl, rfl, rfl⟩
    have : ¬ (i ≤ j ∧ j < i + 0) := by omega
    rw [if_neg this]
  | succ k ih =>
    intro i s ys hs hd hx hy
    have hxi : xs[i]? = some xs[i] := List.getElem?_eq_getElem (by omega)
    have hd1 := ptrs_store_self s dst ys (ys.set i xs[i]) hd
    have hs1 : (s.store dst (Block.ptrs (ys.set i xs[i]))).ptrs src = some xs := by
      rw [ptrs_congr s _ src (load_store_other _ _ _ _ hne), hs]
    obtain ⟨s2, zs, h1, h2, h3, h4, h5, h6, h7⟩ :=
      ih (i + 1) _ (ys.set i xs[i]) hs1 hd1 (by omega) (by simp; omega)
    refine ⟨s2, zs, ?_, h2, by simpa using h3, fun j => ?_, fun q hq => ?_, h6, h7⟩
    · have hlt : i < ys.length := by omega
      simp only [copy_ptrs, hs, hd, Option.bind_eq_bind, Option.some_bind, hxi, hlt, if_true]
      exact h1
    · rw [h4 j]
      by_cases hj : j = i
      · subst hj
        have h8 : ¬ (j + 1 ≤ j ∧ j < j + 1 + k) := by omega
        have h9 : j ≤ j ∧ j < j + (k + 1) := by omega
        have hlt : j < ys.length := by omega
        simp [h8, h9, hxi, List.getElem?_set, hlt]
      · have hij : ¬ i = j := fun h => hj h.symm
        by_cases hr : i + 1 ≤ j ∧ j < i + 1 + k
        · have h9 : i ≤ j ∧ j < i + (k + 1) := by omega
          simp [hr, h9]
        · have h9 : ¬ (i ≤ j ∧ j < i + (k + 1)) := by omega
          simp [hr, h9, List.getElem?_set, hij]
    · rw [h5 q hq, load_store_other _ _ _ _ hq]

/-- The copy loop over arrays of reals, as for arrays of pointers. -/
theorem copy_reals_spec (dst src : Ptr) (xs : List real) (hne : src ≠ dst) :
    ∀ (count i : Nat) (s : State) (ys : List real), s.reals src = some xs →
      s.reals dst = some ys → i + count ≤ xs.length → i + count ≤ ys.length →
      ∃ s2 zs, copy_reals dst src count i s = some s2 ∧ s2.reals dst = some zs
        ∧ zs.length = ys.length
        ∧ (∀ j, zs[j]? = if i ≤ j ∧ j < i + count then xs[j]? else ys[j]?)
        ∧ (∀ q, q ≠ dst → s2.load q = s.load q) ∧ s2.out = s.out ∧ s2.trace = s.trace := by
  intro count
  induction count with
  | zero =>
    intro i s ys _ hd _ _
    refine ⟨s, ys, rfl, hd, rfl, fun j => ?_, fun _ _ => rfl, rfl, rfl⟩
    have : ¬ (i ≤ j ∧ j < i + 0) := by omega
    rw [if_neg this]
  | succ k ih =>
    intro i s ys hs hd hx hy
    have hxi : xs[i]? = some xs[i] := List.getElem?_eq_getElem (by omega)
    have hd1 : (s.store dst (Block.reals (ys.set i xs[i]))).reals dst = some (ys.set i xs[i]) :=
      reals_of_load _ _ _ (load_store_self _ _ _ _ (reals_some s dst ys hd))
    have hs1 : (s.store dst (Block.reals (ys.set i xs[i]))).reals src = some xs := by
      rw [reals_congr s _ src (load_store_other _ _ _ _ hne), hs]
    obtain ⟨s2, zs, h1, h2, h3, h4, h5, h6, h7⟩ :=
      ih (i + 1) _ (ys.set i xs[i]) hs1 hd1 (by omega) (by simp; omega)
    refine ⟨s2, zs, ?_, h2, by simpa using h3, fun j => ?_, fun q hq => ?_, h6, h7⟩
    · have hlt : i < ys.length := by omega
      simp only [copy_reals, hs, hd, Option.bind_eq_bind, Option.some_bind, hxi, hlt, if_true]
      exact h1
    · rw [h4 j]
      by_cases hj : j = i
      · subst hj
        have h8 : ¬ (j + 1 ≤ j ∧ j < j + 1 + k) := by omega
        have h9 : j ≤ j ∧ j < j + (k + 1) := by omega
        have hlt : j < ys.length := by omega
        simp [h8, h9, hxi, List.getElem?_set, hlt]
      · have hij : ¬ i = j := fun h => hj h.symm
        by_cases hr : i + 1 ≤ j ∧ j < i + 1 + k
        · have h9 : i ≤ j ∧ j < i + (k + 1) := by omega
          simp [hr, h9]
        · have h9 : ¬ (i ≤ j ∧ j < i + (k + 1)) := by omega
          simp [hr, h9, List.getElem?_set, hij]
    · rw [h5 q hq, load_store_other _ _ _ _ hq]

/-- The statement `new(x, C)` for a class with a constructor: the block is new
and holds what the constructor leaves; no other block is touched. -/
theorem new_exact (P : Static) (C : ClassRef) (c : Ctor) (s : State)
    (hc : (classAt P C).constructor = some c) :
    ∃ s1, new P C [] s = some (fresh s.heap, s1)
      ∧ s1.load (fresh s.heap)
          = some (Block.object (classAt P C).size (constructed c [0] { «class» := some C }))
      ∧ (∀ q, q ≠ fresh s.heap → s1.load q = s.load q)
      ∧ s1.out = s.out := by
  simpa [new] using new_object_exact P C c [0] s hc

theorem tags_kept_of_live_frame (s s2 : State)
    (h : ∀ q, s.load q ≠ none → s2.load q = s.load q) : TagsKept s s2 := by
  intro q n o hq
  exact ⟨o, by rw [h q (by rw [hq]; simp), hq], rfl, rfl⟩

/-- A set is the same set in a state that has every block of the former state
unchanged. -/
theorem set_view_of_frame (P : Static) (fuel : Nat) (s s2 : State) (A : Ptr) (l : List Ptr)
    (hv : SetView P fuel s A l) (h : ∀ q, s.load q ≠ none → s2.load q = s.load q) :
    SetView P fuel s2 A l := by
  have hk := tags_kept_of_live_frame s s2 h
  obtain ⟨o, ho, hA, hfind, hins, hdrop, heq, hn, hel, helems⟩ := hv
  obtain ⟨n, hl⟩ := load_of_obj s A o ho
  refine ⟨o, ?_, inherits_of_tags_kept P fuel s s2 A _ hk hA, hfind, hins, hdrop, heq, hn, ?_,
    fun e he => inherits_of_tags_kept P fuel s s2 e _ hk (helems e he)⟩
  · rw [obj_congr s s2 A (h A (by rw [hl]; simp)), ho]
  · rcases hel with h0 | ⟨ps, hps, hpre⟩
    · exact Or.inl h0
    · refine Or.inr ⟨ps, ?_, hpre⟩
      rw [ptrs_congr s s2 _ (h _ (by rw [ptrs_some s _ ps hps]; simp)), hps]

/-- The function `set_clone` on a set that stores `l`: a new set that stores
`l`, with every block of the former state unchanged. -/
theorem set_clone_spec (P : Static) (fuel : Nat) (hf : 2 ≤ fuel) (s : State) (A : Ptr)
    (l : List Ptr) (hv : SetView P fuel s A l) :
    ∃ c s5 oc, set_clone P fuel A s = some (c, s5) ∧ c ≠ NULL ∧ s.load c = none
      ∧ SetView P fuel s5 c l ∧ (∀ q, s.load q ≠ none → s5.load q = s.load q)
      ∧ s5.obj c = some oc ∧ oc.«class» = some set ∧ oc.clone = some CloneFn.set_clone
      ∧ s5.out = s.out := by
  obtain ⟨o, ho, hA, hfind, hins, hdrop, heq, hn, hel, helems⟩ := hv
  obtain ⟨s1, h1, hl1, hfr1, hout1⟩ := new_exact P set Ctor.set_constructor s rfl
  have hc1 := obj_of_load _ _ _ _ hl1
  -- `A->nelements = self->nelements`
  obtain ⟨s2, h2⟩ := update_defined s1 (fresh s.heap) (fun a =>
    { a with set := { a.set with nelements := (l.length : Int) } }) _ hc1
  have hc2 := obj_update_self s1 s2 _ _ _ hc1 h2
  have hfr2 : ∀ q, q ≠ fresh s.heap → s2.load q = s.load q := fun q hq => by
    rw [load_update_other _ _ _ _ _ h2 hq, hfr1 q hq]
  -- `calloc`
  have hcal : calloc_ptrs (l.length : Int) s2
      = (fresh s2.heap, (s2.alloc (Block.ptrs (List.replicate l.length NULL))).2) := by
    have : ¬ ((l.length : Int) < 0) := by omega
    simp [calloc_ptrs, this, State.alloc]
  have hlive2 : ∀ q, s.load q ≠ none → q ≠ fresh s.heap ∧ q ≠ fresh s2.heap := by
    intro q hq
    have h1 : q ≠ fresh s.heap := by
      rintro rfl
      exact hq (load_fresh s)
    refine ⟨h1, ?_⟩
    rintro rfl
    exact hq (by rw [← hfr2 _ h1]; exact load_fresh s2)
  have hcp : fresh s.heap ≠ fresh s2.heap := by
    intro h
    have := load_fresh s2
    rw [← h, load_of_obj s2 _ _ hc2 |>.choose_spec] at this
    cases this
  have hc3 : (s2.alloc (Block.ptrs (List.replicate l.length NULL))).2.obj (fresh s.heap)
      = some _ := obj_alloc s2 _ _ _ hc2
  -- `A->element = ...`
  obtain ⟨s4, h4⟩ := update_defined _ (fresh s.heap) (fun a =>
    { a with set := { a.set with element := fresh s2.heap } }) _ hc3
  have hc4 := obj_update_self _ s4 _ _ _ hc3 h4
  have hp4 : s4.ptrs (fresh s2.heap) = some (List.replicate l.length NULL) := by
    rw [ptrs_update _ s4 _ _ _ h4]
    exact ptrs_of_load _ _ _ (by simp [load_alloc])
  have hfr4 : ∀ q, q ≠ fresh s.heap → q ≠ fresh s2.heap → s4.load q = s.load q := by
    intro q hq1 hq2
    rw [load_update_other _ _ _ _ _ h4 hq1, load_alloc, if_neg hq2, hfr2 q hq1]
  have hout4 : s4.out = s.out := by
    obtain ⟨n, o2, -, rfl⟩ := update_some _ _ _ s4 h4
    obtain ⟨n, o3, -, rfl⟩ := update_some _ _ _ s2 h2
    exact hout1
  -- the copy loop
  have hcopy : ∃ s5, copy_ptrs (fresh s2.heap) o.set.element l.length 0 s4 = some s5
      ∧ s5.ptrs (fresh s2.heap) = some l
      ∧ (∀ q, q ≠ fresh s2.heap → s5.load q = s4.load q) ∧ s5.out = s4.out := by
    rcases hel with ⟨-, rfl⟩ | ⟨ps, hps, rest, rfl⟩
    · exact ⟨s4, rfl, hp4, fun _ _ => rfl, rfl⟩
    · have hlive := hlive2 o.set.element (by rw [ptrs_some s _ _ hps]; simp)
      have hsrc : s4.ptrs o.set.element = some (l ++ rest) := by
        rw [ptrs_congr s s4 _ (hfr4 _ hlive.1 hlive.2), hps]
      obtain ⟨s5, zs, h5, hz, hzl, hzj, hfr5, hout5, -⟩ :=
        copy_ptrs_spec (fresh s2.heap) o.set.element (l ++ rest) hlive.2 l.length 0 s4 _ hsrc hp4
          (by simp) (by simp)
      refine ⟨s5, h5, ?_, hfr5, hout5⟩
      rw [hz]
      congr 1
      apply List.ext_getElem?
      intro j
      rw [hzj j]
      by_cases hj : j < l.length
      · simp [hj, List.getElem?_append_left hj]
      · simp only [Nat.zero_le, true_and, Nat.zero_add, hj, if_false]
        rw [List.getElem?_eq_none (by simp; omega), List.getElem?_eq_none (by omega)]
  obtain ⟨s5, h5, hp5, hfr5, hout5⟩ := hcopy
  have hc5 : s5.obj (fresh s.heap) = _ := (obj_congr s4 s5 _ (hfr5 _ hcp)).trans hc4
  have hfr : ∀ q, s.load q ≠ none → s5.load q = s.load q := by
    intro q hq
    obtain ⟨hq1, hq2⟩ := hlive2 q hq
    rw [hfr5 q hq2, hfr4 q hq1 hq2]
  have hk := tags_kept_of_live_frame s s5 hfr
  refine ⟨fresh s.heap, s5, _, ?_, fresh_pos _, load_fresh s, ?_, hfr, hc5, rfl, rfl, ?_⟩
  · simp only [set_clone, inherits_from_of_inherits P fuel s A _ hA, Option.bind_eq_bind,
      Option.some_bind, ho, h1, hn, h2, hcal, h4, Int.toNat_ofNat, h5]
    simp
  · refine ⟨_, hc5, ?_, rfl, rfl, rfl, rfl, rfl, Or.inr ⟨l, hp5, List.prefix_refl _⟩,
      fun e he => inherits_of_tags_kept P fuel s s5 e _ hk (helems e he)⟩
    exact ⟨_, set, 1, hc5, rfl, Depth.parent rfl (Depth.root rfl), by omega, Reaches.self _⟩
  · rw [hout5, hout4]

/-- The function `vector_set_dim` on a vector whose `dat` is still null: the
dimension is stored and `dat` becomes a new zeroed array of that many reals
(or stays null for a negative dimension); no other block is touched. -/
theorem vector_set_dim_fresh (P : Static) (fuel : Nat) (s : State) (w : Ptr) (dim : Int)
    (ow : Obj) (hw : s.obj w = some ow) (hi : Inherits P fuel s w vector)
    (hdat : ow.vector.dat = NULL) :
    ∃ s2 p, vector_set_dim P fuel w dim s = some s2
      ∧ s2.obj w = some { ow with vector := { dim := dim, dat := p } }
      ∧ (p = NULL ∨ s2.reals p = some (List.replicate dim.toNat 0))
      ∧ (0 ≤ dim → s2.reals p = some (List.replicate dim.toNat 0))
      ∧ s.load p = none
      ∧ (∀ q, s.load q ≠ none → q ≠ w → s2.load q = s.load q) ∧ s2.out = s.out := by
  obtain ⟨s1, h1⟩ := update_defined s w (fun self =>
    { self with vector := { self.vector with dim := dim } }) ow hw
  have ho1 := obj_update_self s s1 w _ ow hw h1
  have hout1 : s1.out = s.out := by
    obtain ⟨n, o2, -, rfl⟩ := update_some s w _ s1 h1
    rfl
  have hfr1 : ∀ q, q ≠ w → s1.load q = s.load q := fun q hq => load_update_other _ _ _ _ _ h1 hq
  by_cases hneg : dim < 0
  · -- `calloc` grants nothing
    obtain ⟨s2, h2⟩ := update_defined s1 w (fun self =>
      { self with vector := { self.vector with dat := NULL } }) _ ho1
    have ho2 := obj_update_self s1 s2 w _ _ ho1 h2
    refine ⟨s2, NULL, ?_, ho2, Or.inl rfl, fun h => absurd hneg (by omega), load_null s,
      fun q _ hq => by rw [load_update_other _ _ _ _ _ h2 hq, hfr1 q hq], ?_⟩
    · simp [vector_set_dim, inherits_from_of_inherits P fuel s w _ hi, h1, ho1, hdat,
        calloc_reals, hneg, h2]
    · obtain ⟨n, o2, -, rfl⟩ := update_some s1 w _ s2 h2
      exact hout1
  · have ho1a : (s1.alloc (Block.reals (List.replicate dim.toNat 0))).2.obj w = some _ :=
      obj_alloc s1 _ _ _ ho1
    obtain ⟨s2, h2⟩ := update_defined _ w (fun self =>
      { self with vector := { self.vector with dat := fresh s1.heap } }) _ ho1a
    have ho2 := obj_update_self _ s2 w _ _ ho1a h2
    have hp2 : s2.reals (fresh s1.heap) = some (List.replicate dim.toNat 0) := by
      rw [reals_update _ s2 _ _ _ h2]
      exact reals_of_load _ _ _ (by simp [load_alloc])
    have hpw : fresh s1.heap ≠ w := by
      intro h
      have := load_fresh s1
      rw [h, (load_of_obj s1 w _ ho1).choose_spec] at this
      cases this
    have hnone : s.load (fresh s1.heap) = none := by
      rw [← hfr1 _ hpw]
      exact load_fresh s1
    refine ⟨s2, fresh s1.heap, ?_, ho2, Or.inr hp2, fun _ => hp2, hnone, ?_, ?_⟩
    · simp [vector_set_dim, inherits_from_of_inherits P fuel s w _ hi, h1, ho1, hdat,
        calloc_reals, hneg, State.alloc, h2]
      simpa [State.alloc] using h2
    · intro q hq hqw
      have hqp : q ≠ fresh s1.heap := by
        rintro rfl
        exact hq hnone
      rw [load_update_other _ _ _ _ _ h2 hqw, load_alloc, if_neg hqp, hfr1 q hqw]
    · obtain ⟨n, o2, -, rfl⟩ := update_some _ w _ s2 h2
      exact hout1

/-- The function `vector_clone` on a vector whose array holds at least `dim`
reals: a new vector of the same dimension with the same components; every
block of the former state is unchanged. -/
theorem vector_clone_spec (P : Static) (fuel : Nat) (hf : 2 ≤ fuel) (s : State) (x : Ptr)
    (o : Obj) (ho : s.obj x = some o) (hi : Inherits P fuel s x vector)
    (hdata : o.vector.dim ≤ 0
      ∨ ∃ xs, s.reals o.vector.dat = some xs ∧ o.vector.dim ≤ (xs.length : Int)) :
    ∃ c s3 oc, vector_clone P fuel x s = some (c, s3) ∧ c ≠ NULL ∧ s.load c = none
      ∧ s3.obj c = some oc ∧ oc.«class» = some vector
      ∧ oc.clone = some CloneFn.vector_clone
      ∧ oc.vector.dim = o.vector.dim
      ∧ (∀ i : Nat, (i : Int) < o.vector.dim →
          ∃ v, vector_component s x i = some v ∧ vector_component s3 c i = some v)
      ∧ (∀ q, s.load q ≠ none → s3.load q = s.load q) ∧ s3.out = s.out := by
  obtain ⟨s1, h1, hl1, hfr1, hout1⟩ := new_exact P vector Ctor.vector_constructor s rfl
  have hc1 := obj_of_load _ _ _ _ hl1
  have hiw : Inherits P fuel s1 (fresh s.heap) vector :=
    ⟨_, vector, 1, hc1, rfl, Depth.parent rfl (Depth.root rfl), by omega, Reaches.self _⟩
  obtain ⟨s2, p, h2, hc2, -, hp2, hpn, hfr2, hout2⟩ :=
    vector_set_dim_fresh P fuel s1 (fresh s.heap) o.vector.dim _ hc1 hiw rfl
  have hlive : ∀ q, s.load q ≠ none → q ≠ fresh s.heap ∧ s2.load q = s.load q := by
    intro q hq
    have hq1 : q ≠ fresh s.heap := by
      rintro rfl
      exact hq (load_fresh s)
    exact ⟨hq1, by rw [hfr2 q (by rw [hfr1 q hq1]; exact hq) hq1, hfr1 q hq1]⟩
  have hcopy : ∃ s3, copy_reals p o.vector.dat o.vector.dim.toNat 0 s2 = some s3
      ∧ (∀ q, q ≠ p → s3.load q = s2.load q) ∧ s3.out = s2.out
      ∧ (∀ i : Nat, (i : Int) < o.vector.dim →
          ∃ v, vector_component s x i = some v ∧ (s3.reals p).bind (fun zs => zs[i]?) = some v) := by
    by_cases hd : o.vector.dim ≤ 0
    · have h0 : o.vector.dim.toNat = 0 := by omega
      refine ⟨s2, by rw [h0]; rfl, fun _ _ => rfl, rfl, fun i hi => ?_⟩
      omega
    · obtain ⟨xs, hxs, hlen⟩ : ∃ xs, s.reals o.vector.dat = some xs
          ∧ o.vector.dim ≤ (xs.length : Int) := by
        rcases hdata with h | h
        · exact absurd h hd
        · exact h
      have hsrc_live : s.load o.vector.dat ≠ none := by rw [reals_some s _ _ hxs]; simp
      have hsrc : s2.reals o.vector.dat = some xs := by
        rw [reals_congr s s2 _ (hlive _ hsrc_live).2, hxs]
      have hne : o.vector.dat ≠ p := by
        rintro rfl
        rw [hfr1 _ (hlive _ hsrc_live).1] at hpn
        exact hsrc_live hpn
      obtain ⟨s3, zs, h3, hz, hzl, hzj, hfr3, hout3, -⟩ :=
        copy_reals_spec p o.vector.dat xs hne o.vector.dim.toNat 0 s2 _ hsrc (hp2 (by omega))
          (by omega) (by simp)
      refine ⟨s3, h3, hfr3, hout3, fun i hi => ?_⟩
      have hix : i < xs.length := by omega
      refine ⟨xs.get ⟨i, hix⟩, ?_, ?_⟩
      · simp only [vector_component, ho, hxs, Option.bind_eq_bind, Option.some_bind]
        exact List.getElem?_eq_getElem _
      · have hlt : 0 ≤ i ∧ i < 0 + o.vector.dim.toNat := by omega
        simp only [hz, Option.some_bind, hzj i, hlt, and_self, if_true]
        exact List.getElem?_eq_getElem _
  obtain ⟨s3, h3, hfr3, hout3, hcomp⟩ := hcopy
  have hpc : fresh s.heap ≠ p := by
    intro h
    rw [← h, hl1] at hpn
    cases hpn
  have hc3 : s3.obj (fresh s.heap) = _ := (obj_congr s2 s3 _ (hfr3 _ hpc)).trans hc2
  refine ⟨fresh s.heap, s3, _, ?_, fresh_pos _, load_fresh s, hc3, rfl, rfl, rfl, ?_, ?_, ?_⟩
  · simp only [vector_clone, inherits_from_of_inherits P fuel s x _ hi, Option.bind_eq_bind,
      Option.some_bind, ho, h1, h2, hc2, h3]
    simp
  · intro i hi
    obtain ⟨v, hv1, hv2⟩ := hcomp i hi
    refine ⟨v, hv1, ?_⟩
    simp only [vector_component, hc3, Option.bind_eq_bind, Option.some_bind]
    exact hv2
  · intro q hq
    have hqp : q ≠ p := by
      rintro rfl
      rw [hfr1 _ (hlive _ hq).1] at hpn
      exact hq hpn
    rw [hfr3 q hqp, (hlive q hq).2]
  · rw [hout3, hout2, hout1]

/-- The function `matrix_set_dim` on a matrix whose `dat` is still null. -/
theorem matrix_set_dim_fresh (P : Static) (fuel : Nat) (s : State) (w : Ptr) (rows cols : Int)
    (ow : Obj) (hw : s.obj w = some ow) (hi : Inherits P fuel s w matrix)
    (hdat : ow.matrix.dat = NULL) :
    ∃ s2 p, matrix_set_dim P fuel w rows cols s = some s2
      ∧ s2.obj w = some { ow with matrix := { rows := rows, cols := cols, dat := p } }
      ∧ (0 ≤ rows * cols → s2.reals p = some (List.replicate (rows * cols).toNat 0))
      ∧ s.load p = none
      ∧ (∀ q, s.load q ≠ none → q ≠ w → s2.load q = s.load q) ∧ s2.out = s.out := by
  obtain ⟨s1, h1⟩ := update_defined s w (fun self =>
    { self with matrix := { self.matrix with rows := rows, cols := cols } }) ow hw
  have ho1 := obj_update_self s s1 w _ ow hw h1
  have hout1 : s1.out = s.out := by
    obtain ⟨n, o2, -, rfl⟩ := update_some s w _ s1 h1
    rfl
  have hfr1 : ∀ q, q ≠ w → s1.load q = s.load q := fun q hq => load_update_other _ _ _ _ _ h1 hq
  by_cases hneg : rows * cols < 0
  · obtain ⟨s2, h2⟩ := update_defined s1 w (fun self =>
      { self with matrix := { self.matrix with dat := NULL } }) _ ho1
    have ho2 := obj_update_self s1 s2 w _ _ ho1 h2
    refine ⟨s2, NULL, ?_, ho2, fun h => absurd hneg (by omega), load_null s,
      fun q _ hq => by rw [load_update_other _ _ _ _ _ h2 hq, hfr1 q hq], ?_⟩
    · simp [matrix_set_dim, inherits_from_of_inherits P fuel s w _ hi, h1, ho1, hdat,
        calloc_reals, hneg, h2]
    · obtain ⟨n, o2, -, rfl⟩ := update_some s1 w _ s2 h2
      exact hout1
  · have ho1a : (s1.alloc (Block.reals (List.replicate (rows * cols).toNat 0))).2.obj w
        = some _ := obj_alloc s1 _ _ _ ho1
    obtain ⟨s2, h2⟩ := update_defined _ w (fun self =>
      { self with matrix := { self.matrix with dat := fresh s1.heap } }) _ ho1a
    have ho2 := obj_update_self _ s2 w _ _ ho1a h2
    have hp2 : s2.reals (fresh s1.heap) = some (List.replicate (rows * cols).toNat 0) := by
      rw [reals_update _ s2 _ _ _ h2]
      exact reals_of_load _ _ _ (by simp [load_alloc])
    have hpw : fresh s1.heap ≠ w := by
      intro h
      have := load_fresh s1
      rw [h, (load_of_obj s1 w _ ho1).choose_spec] at this
      cases this
    have hnone : s.load (fresh s1.heap) = none := by
      rw [← hfr1 _ hpw]
      exact load_fresh s1
    refine ⟨s2, fresh s1.heap, ?_, ho2, fun _ => hp2, hnone, ?_, ?_⟩
    · simp [matrix_set_dim, inherits_from_of_inherits P fuel s w _ hi, h1, ho1, hdat,
        calloc_reals, hneg, State.alloc, h2]
      simpa [State.alloc] using h2
    · intro q hq hqw
      have hqp : q ≠ fresh s1.heap := by
        rintro rfl
        exact hq hnone
      rw [load_update_other _ _ _ _ _ h2 hqw, load_alloc, if_neg hqp, hfr1 q hqw]
    · obtain ⟨n, o2, -, rfl⟩ := update_some _ w _ s2 h2
      exact hout1

/-- The function `matrix_clone` on a matrix whose array holds at least
`rows * cols` reals: a new matrix with the same `rows`, `cols` and entries;
every block of the former state is unchanged. -/
theorem matrix_clone_spec (P : Static) (fuel : Nat) (hf : 2 ≤ fuel) (s : State) (x : Ptr)
    (o : Obj) (ho : s.obj x = some o) (hi : Inherits P fuel s x matrix)
    (hdata : o.matrix.rows * o.matrix.cols ≤ 0
      ∨ ∃ xs, s.reals o.matrix.dat = some xs
          ∧ o.matrix.rows * o.matrix.cols ≤ (xs.length : Int)) :
    ∃ c s3 oc, matrix_clone P fuel x s = some (c, s3) ∧ c ≠ NULL ∧ s.load c = none
      ∧ s3.obj c = some oc ∧ oc.«class» = some matrix
      ∧ oc.clone = some CloneFn.matrix_clone
      ∧ oc.matrix.rows = o.matrix.rows ∧ oc.matrix.cols = o.matrix.cols
      ∧ (∀ k : Nat, (k : Int) < o.matrix.rows * o.matrix.cols →
          ∃ v, matrix_dat s x k = some v ∧ matrix_dat s3 c k = some v)
      ∧ (∀ q, s.load q ≠ none → s3.load q = s.load q) ∧ s3.out = s.out := by
  obtain ⟨s1, h1, hl1, hfr1, hout1⟩ := new_exact P matrix Ctor.matrix_constructor s rfl
  have hc1 := obj_of_load _ _ _ _ hl1
  have hiw : Inherits P fuel s1 (fresh s.heap) matrix :=
    ⟨_, matrix, 1, hc1, rfl, Depth.parent rfl (Depth.root rfl), by omega, Reaches.self _⟩
  obtain ⟨s2, p, h2, hc2, hp2, hpn, hfr2, hout2⟩ :=
    matrix_set_dim_fresh P fuel s1 (fresh s.heap) o.matrix.rows o.matrix.cols _ hc1 hiw rfl
  have hlive : ∀ q, s.load q ≠ none → q ≠ fresh s.heap ∧ s2.load q = s.load q := by
    intro q hq
    have hq1 : q ≠ fresh s.heap := by
      rintro rfl
      exact hq (load_fresh s)
    exact ⟨hq1, by rw [hfr2 q (by rw [hfr1 q hq1]; exact hq) hq1, hfr1 q hq1]⟩
  have hcopy : ∃ s3, copy_reals p o.matrix.dat (o.matrix.rows * o.matrix.cols).toNat 0 s2
        = some s3
      ∧ (∀ q, q ≠ p → s3.load q = s2.load q) ∧ s3.out = s2.out
      ∧ (∀ k : Nat, (k : Int) < o.matrix.rows * o.matrix.cols →
          ∃ v, matrix_dat s x k = some v ∧ (s3.reals p).bind (fun zs => zs[k]?) = some v) := by
    by_cases hd : o.matrix.rows * o.matrix.cols ≤ 0
    · have h0 : (o.matrix.rows * o.matrix.cols).toNat = 0 := by omega
      refine ⟨s2, by rw [h0]; rfl, fun _ _ => rfl, rfl, fun i hi => ?_⟩
      omega
    · obtain ⟨xs, hxs, hlen⟩ : ∃ xs, s.reals o.matrix.dat = some xs
          ∧ o.matrix.rows * o.matrix.cols ≤ (xs.length : Int) := by
        rcases hdata with h | h
        · exact absurd h hd
        · exact h
      have hsrc_live : s.load o.matrix.dat ≠ none := by rw [reals_some s _ _ hxs]; simp
      have hsrc : s2.reals o.matrix.dat = some xs := by
        rw [reals_congr s s2 _ (hlive _ hsrc_live).2, hxs]
      have hne : o.matrix.dat ≠ p := by
        rintro rfl
        rw [hfr1 _ (hlive _ hsrc_live).1] at hpn
        exact hsrc_live hpn
      obtain ⟨s3, zs, h3, hz, hzl, hzj, hfr3, hout3, -⟩ :=
        copy_reals_spec p o.matrix.dat xs hne (o.matrix.rows * o.matrix.cols).toNat 0 s2 _ hsrc
          (hp2 (by omega)) (by omega) (by simp)
      refine ⟨s3, h3, hfr3, hout3, fun i hi => ?_⟩
      have hix : i < xs.length := by omega
      refine ⟨xs.get ⟨i, hix⟩, ?_, ?_⟩
      · simp only [matrix_dat, ho, hxs, Option.bind_eq_bind, Option.some_bind]
        exact List.getElem?_eq_getElem _
      · have hlt : 0 ≤ i ∧ i < 0 + (o.matrix.rows * o.matrix.cols).toNat := by omega
        simp only [hz, Option.some_bind, hzj i, hlt, and_self, if_true]
        exact List.getElem?_eq_getElem _
  obtain ⟨s3, h3, hfr3, hout3, hcomp⟩ := hcopy
  have hpc : fresh s.heap ≠ p := by
    intro h
    rw [← h, hl1] at hpn
    cases hpn
  have hc3 : s3.obj (fresh s.heap) = _ := (obj_congr s2 s3 _ (hfr3 _ hpc)).trans hc2
  refine ⟨fresh s.heap, s3, _, ?_, fresh_pos _, load_fresh s, hc3, rfl, rfl, rfl, rfl, ?_, ?_,
    ?_⟩
  · simp only [matrix_clone, inherits_from_of_inherits P fuel s x _ hi, Option.bind_eq_bind,
      Option.some_bind, ho, h1, h2, hc2, h3]
    simp
  · intro i hi
    obtain ⟨v, hv1, hv2⟩ := hcomp i hi
    refine ⟨v, hv1, ?_⟩
    simp only [matrix_dat, hc3, Option.bind_eq_bind, Option.some_bind]
    exact hv2
  · intro q hq
    have hqp : q ≠ p := by
      rintro rfl
      rw [hfr1 _ (hlive _ hq).1] at hpn
      exact hq hpn
    rw [hfr3 q hqp, (hlive q hq).2]
  · rw [hout3, hout2, hout1]

/-- The function `iterator_clone`: a new iterator with the same `val_type` and
`val`; every block of the former state is unchanged. -/
theorem iterator_clone_spec (P : Static) (fuel : Nat) (s : State) (x : Ptr)
    (o : Obj) (ho : s.obj x = some o) (hi : Inherits P fuel s x iterator) :
    ∃ c s3 oc, iterator_clone P fuel x s = some (c, s3) ∧ c ≠ NULL ∧ s.load c = none
      ∧ s3.obj c = some oc ∧ oc.«class» = some iterator
      ∧ oc.clone = some CloneFn.iterator_clone
      ∧ oc.iterator.val_type = o.iterator.val_type ∧ oc.iterator.val = o.iterator.val
      ∧ (∀ q, s.load q ≠ none → s3.load q = s.load q) ∧ s3.out = s.out := by
  obtain ⟨s1, h1, hl1, hfr1, hout1⟩ := new_exact P iterator Ctor.iterator_constructor s rfl
  have hc1 := obj_of_load _ _ _ _ hl1
  obtain ⟨s2, h2⟩ := update_defined s1 (fresh s.heap) (fun i =>
    { i with iterator := { i.iterator with val_type := o.iterator.val_type } }) _ hc1
  have hc2 := obj_update_self s1 s2 _ _ _ hc1 h2
  obtain ⟨s3, h3⟩ := update_defined s2 (fresh s.heap) (fun i =>
    { i with iterator := { i.iterator with val := o.iterator.val } }) _ hc2
  have hc3 := obj_update_self s2 s3 _ _ _ hc2 h3
  refine ⟨fresh s.heap, s3, _, ?_, fresh_pos _, load_fresh s, hc3, rfl, rfl, rfl, rfl, ?_, ?_⟩
  · simp only [iterator_clone, inherits_from_of_inherits P fuel s x _ hi, Option.bind_eq_bind,
      Option.some_bind, ho, h1, h2, h3]
    simp
  · intro q hq
    have hq1 : q ≠ fresh s.heap := by
      rintro rfl
      exact hq (load_fresh s)
    rw [load_update_other _ _ _ _ _ h3 hq1, load_update_other _ _ _ _ _ h2 hq1, hfr1 q hq1]
  · obtain ⟨n, o2, -, rfl⟩ := update_some _ _ _ s3 h3
    obtain ⟨n, o3, -, rfl⟩ := update_some _ _ _ s2 h2
    exact hout1

/-! ## Overrides (C11, C12) -/

/-- The six classes of the repository descend from `abstract_object` with a
parent chain of at most two links. -/
theorem shipped_chain (P : Static) (K : ClassRef)
    (hK : K ∈ [abstract_object, vector, matrix, set, iterator, time_iterator]) :
    Reaches P K abstract_object ∧ ∃ e, e ≤ 2 ∧ Depth P K e := by
  simp only [List.mem_cons, List.mem_singleton, List.not_mem_nil, or_false] at hK
  have h0 : Depth P abstract_object 0 := Depth.root rfl
  have hi1 : Depth P iterator 1 := Depth.parent rfl h0
  rcases hK with rfl | rfl | rfl | rfl | rfl | rfl
  · exact ⟨Reaches.self _, 0, by omega, h0⟩
  · exact ⟨Reaches.parent rfl (Reaches.self _), 1, by omega, Depth.parent rfl h0⟩
  · exact ⟨Reaches.parent rfl (Reaches.self _), 1, by omega, Depth.parent rfl h0⟩
  · exact ⟨Reaches.parent rfl (Reaches.self _), 1, by omega, Depth.parent rfl h0⟩
  · exact ⟨Reaches.parent rfl (Reaches.self _), 1, by omega, hi1⟩
  · exact ⟨Reaches.parent rfl (Reaches.parent rfl (Reaches.self _)), 2, by omega,
      Depth.parent rfl hi1⟩

/-- An instance of one of the six classes of the repository descends from
`abstract_object`, for a walk of three iterations or more. -/
theorem shipped_inherits (P : Static) (fuel : Nat) (hf : 3 ≤ fuel) (s : State) (x : Ptr)
    (o : Obj) (K : ClassRef) (ho : s.obj x = some o) (hk : o.«class» = some K)
    (hK : K ∈ [abstract_object, vector, matrix, set, iterator, time_iterator]) :
    Inherits P fuel s x abstract_object := by
  obtain ⟨hr, e, he, hd⟩ := shipped_chain P K hK
  exact ⟨o, K, e, ho, hk, hd, by omega, hr⟩

/-- An instance of a class with parent `abstract_object` that has no further
ancestor descends from both, for a walk of two iterations or more. -/
theorem child_inherits (P : Static) (fuel : Nat) (hf : 2 ≤ fuel) (s : State) (x : Ptr)
    (o : Obj) (K : ClassRef) (ho : s.obj x = some o) (hk : o.«class» = some K)
    (hp : (classAt P K).parent = some abstract_object) :
    Inherits P fuel s x abstract_object ∧ Inherits P fuel s x K :=
  ⟨⟨o, K, 1, ho, hk, Depth.parent hp (Depth.root rfl), by omega,
      Reaches.parent hp (Reaches.self _)⟩,
    ⟨o, K, 1, ho, hk, Depth.parent hp (Depth.root rfl), by omega, Reaches.self _⟩⟩

/-- The entry point `display` calls the function stored in the `display` entry. -/
theorem display_dispatch (P : Static) (fuel : Nat) (s : State) (x : Ptr) (o : Obj)
    (f : DisplayFn) (ho : s.obj x = some o) (hi : Inherits P fuel s x abstract_object)
    (hd : o.display = some f) : display P fuel x s = call_display P fuel f x s := by
  simp [display, inherits_from_of_inherits P fuel s x _ hi, ho, hd]

/-- The entry point `clone` calls the function stored in the `clone` entry. -/
theorem clone_dispatch (P : Static) (fuel : Nat) (s : State) (x : Ptr) (o : Obj)
    (f : CloneFn) (ho : s.obj x = some o) (hi : Inherits P fuel s x abstract_object)
    (hd : o.clone = some f) : clone P fuel x s = call_clone P fuel f x s := by
  obtain ⟨n, hl⟩ := load_of_obj s x o ho
  have hx := ne_null_of_load s x _ hl
  simp [clone, inherits_from_of_inherits P fuel s x _ hi, ho, hd, hx]

@[simp] theorem obj_fprintf (s : State) (l : String) (q : Ptr) :
    (s.fprintf l).obj q = s.obj q := rfl

theorem inherits_from_fprintf (P : Static) (fuel : Nat) (s : State) (l : String) (x : Ptr)
    (Q : Option ClassRef) :
    inherits_from P fuel (s.fprintf l) x Q = inherits_from P fuel s x Q := rfl

/-- C11: override wins.  The constructors of `vector`, `set` and `iterator`
leave their own function in the `display` entry, and `display(x, fp)` calls the
function the entry holds; for a vector it writes the root dump (object, class
name, size, parent name) followed by the line `dim: <dim>`.  The entries a
constructor does not overwrite keep the root default: `differs` for the six
classes of the repository, and `display` for `matrix`. -/
theorem C11_override_wins (P : Static) (fuel : Nat) (hf : 3 ≤ fuel) :
    (∀ (s : State) (args : List Int), ∃ x s1 o, new_object P vector args s = some (x, s1)
        ∧ s1.obj x = some o ∧ o.«class» = some vector
        ∧ o.display = some DisplayFn.vector_display
        ∧ display P fuel x s1 = vector_display P fuel x s1)
    ∧ (∀ (s : State) (args : List Int), ∃ x s1 o, new_object P set args s = some (x, s1)
        ∧ s1.obj x = some o ∧ o.«class» = some set
        ∧ o.display = some DisplayFn.set_display
        ∧ display P fuel x s1 = set_display P fuel x s1)
    ∧ (∀ (s : State) (args : List Int), ∃ x s1 o, new_object P iterator args s = some (x, s1)
        ∧ s1.obj x = some o ∧ o.«class» = some iterator
        ∧ o.display = some DisplayFn.iterator_display
        ∧ display P fuel x s1 = iterator_display P fuel x s1)
    ∧ (∀ (s : State) (x : Ptr) (o : Obj) (f : DisplayFn), s.obj x = some o →
        Inherits P fuel s x abstract_object → o.display = some f →
        display P fuel x s = call_display P fuel f x s)
    ∧ (∀ (s : State) (x : Ptr) (o : Obj), s.obj x = some o → o.«class» = some vector →
        o.display = some DisplayFn.vector_display →
        display P fuel x s = some (NULL,
          { s with out := s.out ++
              ["Object: " ++ toString x ++ "\n", "Class: vector\n",
               "Size: " ++ toString P.sizeof_vector ++ "\n", "Parent: abstract object\n",
               "dim: " ++ toString o.vector.dim ++ "\n"] }))
    ∧ (∀ K ∈ [abstract_object, vector, matrix, set, iterator, time_iterator],
        ∀ (s : State) (args : List Int), ∃ x s1 o, new_object P K args s = some (x, s1)
          ∧ s1.obj x = some o ∧ o.«class» = some K
          ∧ o.differs = some DiffersFn.abstract_object_differs)
    ∧ (∀ (s : State) (args : List Int), ∃ x s1 o, new_object P matrix args s = some (x, s1)
        ∧ s1.obj x = some o ∧ o.«class» = some matrix
        ∧ o.display = some DisplayFn.abstract_object_display
        ∧ display P fuel x s1 = abstract_object_display P x s1) := by
  have hnew : ∀ (K : ClassRef) (c : Ctor) (f : DisplayFn),
      (classAt P K).constructor = some c →
      K ∈ [abstract_object, vector, matrix, set, iterator, time_iterator] →
      (∀ args, (constructed c args { «class» := some K }).display = some f) →
      ∀ (s : State) (args : List Int), ∃ x s1 o, new_object P K args s = some (x, s1)
        ∧ s1.obj x = some o ∧ o.«class» = some K ∧ o.display = some f
        ∧ display P fuel x s1 = call_display P fuel f x s1 := by
    intro K c f hc hK hf2 s args
    obtain ⟨s1, h1, h2, -, -⟩ := new_object_exact P K c args s hc
    have ho := obj_of_load _ _ _ _ h2
    have hk : (constructed c args { «class» := some K }).«class» = some K := by
      cases c <;> rfl
    exact ⟨_, s1, _, h1, ho, hk, hf2 args,
      display_dispatch P fuel s1 _ _ f ho (shipped_inherits P fuel hf s1 _ _ K ho hk hK)
        (hf2 args)⟩
  refine ⟨hnew vector _ _ rfl (by simp) (fun _ => rfl), hnew set _ _ rfl (by simp) (fun _ => rfl),
    hnew iterator _ _ rfl (by simp) (fun _ => rfl),
    fun s x o f ho hi hd => display_dispatch P fuel s x o f ho hi hd, ?_, ?_,
    hnew matrix _ _ rfl (by simp) (fun _ => rfl)⟩
  · intro s x o ho hk hd
    have hi := shipped_inherits P fuel hf s x o vector ho hk (by simp)
    have hv : Inherits P fuel s x vector :=
      (child_inherits P fuel (by omega) s x o vector ho hk rfl).2
    rw [display_dispatch P fuel s x o _ ho hi hd]
    have hv2 := inherits_from_of_inherits P fuel s x _ hv
    simp only [call_display, vector_display, abstract_object_display, ho, hk,
      Option.bind_eq_bind, Option.some_bind, classAt, _vector, _abstract_object,
      Option.pure_def, inherits_from_fprintf, hv2, obj_fprintf]
    simp [State.fprintf]
  · intro K hK s args
    obtain ⟨c, hc⟩ : ∃ c, (classAt P K).constructor = some c := by
      simp only [List.mem_cons, List.mem_singleton, List.not_mem_nil, or_false] at hK
      rcases hK with rfl | rfl | rfl | rfl | rfl | rfl <;> exact ⟨_, rfl⟩
    obtain ⟨s1, h1, h2, -, -⟩ := new_object_exact P K c args s hc
    refine ⟨_, s1, _, h1, obj_of_load _ _ _ _ h2, ?_, ?_⟩ <;> cases c <;> rfl

/-- Witness for C11: the display of the vector `v` of the example (block 1,
dimension 3). -/
theorem C11_override_wins_witness :
    3 ≤ 3 ∧ display demo 3 1 example_vectors = some (NULL,
      { example_vectors with out :=
          ["Object: 1\n", "Class: vector\n", "Size: 48\n", "Parent: abstract object\n",
           "dim: 3\n"] }) :=
  ⟨le_refl 3,
    ((C11_override_wins demo 3 (le_refl 3)).2.2.2.2.1 example_vectors 1 _ rfl rfl rfl).trans
      (by decide)⟩

/-- C12: the four concrete classes override `clone`, and the override copies
the derived state.  For a vector `x` (array of at least `dim` reals), a matrix
(array of at least `rows * cols` reals), a set that stores `l`, and an
iterator, each with the `clone` entry its constructor installs: `clone(x)`
returns a non-null pointer to a new block different from `x`, tagged with the
class of `x`, with the same `dim` and components, the same `rows`, `cols` and
entries, the same stored elements at the same indices (so `equal(x, clone(x))`
is 1), the same `val_type` and `val`; `x` is unchanged.  The instance
`new_object` creates from each of the four classes has that `clone` entry. -/
theorem C12_clone_overrides_copy_state (P : Static) (fuel : Nat) (hf : 2 ≤ fuel) :
    (∀ (s : State) (x : Ptr) (o : Obj), s.obj x = some o → o.«class» = some vector →
        o.clone = some CloneFn.vector_clone →
        (o.vector.dim ≤ 0
          ∨ ∃ xs, s.reals o.vector.dat = some xs ∧ o.vector.dim ≤ (xs.length : Int)) →
        ∃ c s2 oc, clone P fuel x s = some (c, s2) ∧ c ≠ NULL ∧ c ≠ x ∧ s.load c = none
          ∧ s2.obj c = some oc ∧ is_a s2 c (some vector) = some 1
          ∧ oc.vector.dim = o.vector.dim
          ∧ (∀ i : Nat, (i : Int) < o.vector.dim →
              ∃ v, vector_component s x i = some v ∧ vector_component s2 c i = some v
                ∧ vector_component s2 x i = some v)
          ∧ s2.obj x = some o)
    ∧ (∀ (s : State) (x : Ptr) (o : Obj), s.obj x = some o → o.«class» = some matrix →
        o.clone = some CloneFn.matrix_clone →
        (o.matrix.rows * o.matrix.cols ≤ 0
          ∨ ∃ xs, s.reals o.matrix.dat = some xs
              ∧ o.matrix.rows * o.matrix.cols ≤ (xs.length : Int)) →
        ∃ c s2 oc, clone P fuel x s = some (c, s2) ∧ c ≠ NULL ∧ c ≠ x ∧ s.load c = none
          ∧ s2.obj c = some oc ∧ is_a s2 c (some matrix) = some 1
          ∧ oc.matrix.rows = o.matrix.rows ∧ oc.matrix.cols = o.matrix.cols
          ∧ (∀ k : Nat, (k : Int) < o.matrix.rows * o.matrix.cols →
              ∃ v, matrix_dat s x k = some v ∧ matrix_dat s2 c k = some v
                ∧ matrix_dat s2 x k = some v)
          ∧ s2.obj x = some o)
    ∧ (∀ (s : State) (x : Ptr) (o : Obj) (l : List Ptr), s.obj x = some o →
        o.«class» = some set → o.clone = some CloneFn.set_clone → SetView P fuel s x l →
        ∃ c s2 oc, clone P fuel x s = some (c, s2) ∧ c ≠ NULL ∧ c ≠ x ∧ s.load c = none
          ∧ s2.obj c = some oc ∧ is_a s2 c (some set) = some 1
          ∧ oc.set.nelements = o.set.nelements
          ∧ SetView P fuel s2 c l ∧ SetView P fuel s2 x l
          ∧ equal P fuel s2 x c = some 1
          ∧ s2.obj x = some o)
    ∧ (∀ (s : State) (x : Ptr) (o : Obj), s.obj x = some o → o.«class» = some iterator →
        o.clone = some CloneFn.iterator_clone →
        ∃ c s2 oc, clone P fuel x s = some (c, s2) ∧ c ≠ NULL ∧ c ≠ x ∧ s.load c = none
          ∧ s2.obj c = some oc ∧ is_a s2 c (some iterator) = some 1
          ∧ oc.iterator.val_type = o.iterator.val_type
          ∧ oc.iterator.val = o.iterator.val
          ∧ s2.obj x = some o)
    ∧ (∀ (s : State) (args : List Int),
        (∃ x s1 o, new_object P vector args s = some (x, s1) ∧ s1.obj x = some o
          ∧ o.«class» = some vector ∧ o.clone = some CloneFn.vector_clone
          ∧ o.vector.dim = 0)
        ∧ (∃ x s1 o, new_object P matrix args s = some (x, s1) ∧ s1.obj x = some o
          ∧ o.«class» = some matrix ∧ o.clone = some CloneFn.matrix_clone
          ∧ o.matrix.rows = 0 ∧ o.matrix.cols = 0)
        ∧ (∃ x s1 o, new_object P set args s = some (x, s1) ∧ s1.obj x = some o
          ∧ o.«class» = some set ∧ o.clone = some CloneFn.set_clone
          ∧ SetView P fuel s1 x [])
        ∧ (∃ x s1 o, new_object P iterator args s = some (x, s1) ∧ s1.obj x = some o
          ∧ o.«class» = some iterator ∧ o.clone = some CloneFn.iterator_clone)) := by
  have hlive : ∀ (s : State) (x : Ptr) (o : Obj), s.obj x = some o → s.load x ≠ none := by
    intro s x o ho
    obtain ⟨n, hl⟩ := load_of_obj s x o ho
    rw [hl]; simp
  have hne : ∀ (s : State) (x c : Ptr) (o : Obj), s.obj x = some o → s.load c = none →
      c ≠ x := by
    rintro s x c o ho hc rfl
    exact hlive s c o ho hc
  refine ⟨?_, ?_, ?_, ?_, ?_⟩
  · intro s x o ho hk hcl hdata
    obtain ⟨hia, hiv⟩ := child_inherits P fuel hf s x o vector ho hk rfl
    obtain ⟨c, s3, oc, h1, h2, h3, h4, h5, -, h7, h8, h9, -⟩ :=
      vector_clone_spec P fuel hf s x o ho hiv hdata
    have hx3 : s3.obj x = some o := by rw [obj_congr s s3 x (h9 x (hlive s x o ho)), ho]
    refine ⟨c, s3, oc, ?_, h2, hne s x c o ho h3, h3, h4, by simp [is_a, h4, h5], h7, ?_, hx3⟩
    · rw [clone_dispatch P fuel s x o _ ho hia hcl]
      exact h1
    · intro i hi
      obtain ⟨v, hv1, hv2⟩ := h8 i hi
      refine ⟨v, hv1, hv2, ?_⟩
      rw [← hv1]
      simp only [vector_component, hx3, ho, Option.bind_eq_bind, Option.some_bind]
      rcases hdata with hd | ⟨xs, hxs, -⟩
      · omega
      · rw [reals_congr s s3 _ (h9 _ (by rw [reals_some s _ _ hxs]; simp))]
  · intro s x o ho hk hcl hdata
    obtain ⟨hia, hiv⟩ := child_inherits P fuel hf s x o matrix ho hk rfl
    obtain ⟨c, s3, oc, h1, h2, h3, h4, h5, -, h7, h7b, h8, h9, -⟩ :=
      matrix_clone_spec P fuel hf s x o ho hiv hdata
    have hx3 : s3.obj x = some o := by rw [obj_congr s s3 x (h9 x (hlive s x o ho)), ho]
    refine ⟨c, s3, oc, ?_, h2, hne s x c o ho h3, h3, h4, by simp [is_a, h4, h5], h7, h7b, ?_,
      hx3⟩
    · rw [clone_dispatch P fuel s x o _ ho hia hcl]
      exact h1
    · intro i hi
      obtain ⟨v, hv1, hv2⟩ := h8 i hi
      refine ⟨v, hv1, hv2, ?_⟩
      rw [← hv1]
      simp only [matrix_dat, hx3, ho, Option.bind_eq_bind, Option.some_bind]
      rcases hdata with hd | ⟨xs, hxs, -⟩
      · omega
      · rw [reals_congr s s3 _ (h9 _ (by rw [reals_some s _ _ hxs]; simp))]
  · intro s x o l ho hk hcl hv
    obtain ⟨hia, -⟩ := child_inherits P fuel hf s x o set ho hk rfl
    obtain ⟨c, s5, oc, h1, h2, h3, h4, h5, h6, h7, -, -⟩ := set_clone_spec P fuel hf s x l hv
    have hx5 : s5.obj x = some o := by rw [obj_congr s s5 x (h5 x (hlive s x o ho)), ho]
    have hvx := set_view_of_frame P fuel s s5 x l hv h5
    have hn : oc.set.nelements = o.set.nelements := by
      obtain ⟨o1, ho1, -, -, -, -, -, hn1, -⟩ := h4
      obtain ⟨o2, ho2, -, -, -, -, -, hn2, -⟩ := hv
      rw [h6] at ho1
      rw [ho] at ho2
      cases ho1
      cases ho2
      rw [hn1, hn2]
    refine ⟨c, s5, oc, ?_, h2, hne s x c o ho h3, h3, h6, by simp [is_a, h6, h7], hn, h4, hvx, ?_,
      hx5⟩
    · rw [clone_dispatch P fuel s x o _ ho hia hcl]
      exact h1
    · rw [equal_spec P fuel s5 x c l l hvx h4]
      simp
  · intro s x o ho hk hcl
    obtain ⟨hia, hiv⟩ := child_inherits P fuel hf s x o iterator ho hk rfl
    obtain ⟨c, s3, oc, h1, h2, h3, h4, h5, -, h7, h8, h9, -⟩ :=
      iterator_clone_spec P fuel s x o ho hiv
    refine ⟨c, s3, oc, ?_, h2, hne s x c o ho h3, h3, h4, by simp [is_a, h4, h5], h7, h8, ?_⟩
    · rw [clone_dispatch P fuel s x o _ ho hia hcl]
      exact h1
    · rw [obj_congr s s3 x (h9 x (hlive s x o ho)), ho]
  · intro s args
    refine ⟨?_, ?_, ?_, ?_⟩
    · obtain ⟨s1, h1, h2, -, -⟩ := new_object_exact P vector _ args s rfl
      exact ⟨_, s1, _, h1, obj_of_load _ _ _ _ h2, rfl, rfl, rfl⟩
    · obtain ⟨s1, h1, h2, -, -⟩ := new_object_exact P matrix _ args s rfl
      exact ⟨_, s1, _, h1, obj_of_load _ _ _ _ h2, rfl, rfl, rfl, rfl⟩
    · obtain ⟨s1, h1, h2, -, -⟩ := new_object_exact P set _ args s rfl
      obtain ⟨A, s1b, h1b, -, -, hvw, -, -⟩ := new_set_view P fuel hf args s
      rw [h1] at h1b
      cases h1b
      exact ⟨_, s1, _, h1, obj_of_load _ _ _ _ h2, rfl, rfl, hvw⟩
    · obtain ⟨s1, h1, h2, -, -⟩ := new_object_exact P iterator _ args s rfl
      exact ⟨_, s1, _, h1, obj_of_load _ _ _ _ h2, rfl, rfl⟩

/-- In the state of the set example, the blocks 1, 2, 4, 5 and 6 are instances
that descend from `abstract_object`. -/
theorem example_sets_inherits (e : Ptr) (he : e ∈ [2, 4, 5, 6, 1]) :
    Inherits demo 3 example_sets e abstract_object := by
  simp only [List.mem_cons, List.mem_singleton, List.not_mem_nil, or_false] at he
  rcases he with rfl | rfl | rfl | rfl | rfl
  · exact shipped_inherits demo 3 (le_refl 3) example_sets 2 _ matrix rfl rfl (by simp)
  · exact shipped_inherits demo 3 (le_refl 3) example_sets 4 _ vector rfl rfl (by simp)
  · exact shipped_inherits demo 3 (le_refl 3) example_sets 5 _ set rfl rfl (by simp)
  · exact shipped_inherits demo 3 (le_refl 3) example_sets 6 _ set rfl rfl (by simp)
  · exact shipped_inherits demo 3 (le_refl 3) example_sets 1 _ set rfl rfl (by simp)

/-- In the state of the set example, `A` stores `M`, `v`, `B`, `C` and `A`. -/
theorem example_sets_view_A : SetView demo 3 example_sets 1 [2, 4, 5, 6, 1] :=
  ⟨_, rfl, (child_inherits demo 3 (by decide) example_sets 1 _ set rfl rfl rfl).2, rfl, rfl,
    rfl, rfl, rfl, Or.inr ⟨[2, 4, 5, 6, 1], rfl, List.prefix_refl _⟩,
    fun e he => example_sets_inherits e he⟩

/-- In the state of the set example, `B` stores nothing. -/
theorem example_sets_view_B : SetView demo 3 example_sets 5 [] :=
  ⟨_, rfl, (child_inherits demo 3 (by decide) example_sets 5 _ set rfl rfl rfl).2, rfl, rfl,
    rfl, rfl, rfl, Or.inl ⟨rfl, rfl⟩, fun e he => by cases he⟩

/-- In the state of the set example, `C` stores `M` and `v`. -/
theorem example_sets_view_C : SetView demo 3 example_sets 6 [2, 4] :=
  ⟨_, rfl, (child_inherits demo 3 (by decide) example_sets 6 _ set rfl rfl rfl).2, rfl, rfl,
    rfl, rfl, rfl, Or.inr ⟨[2, 4], rfl, List.prefix_refl _⟩,
    fun e he => example_sets_inherits e (by
      simp only [List.mem_cons, List.mem_singleton, List.not_mem_nil, or_false] at he ⊢
      rcases he with rfl | rfl <;> simp)⟩

/-- Witness for C12: cloning the vector `v` of the vector example (block 1)
and the set `A` of the set example (block 1). -/
theorem C12_clone_overrides_copy_state_witness :
    2 ≤ 3
      ∧ (∃ c s2 oc, clone demo 3 1 example_vectors = some (c, s2) ∧ c ≠ NULL ∧ c ≠ 1
          ∧ example_vectors.load c = none
          ∧ s2.obj c = some oc ∧ is_a s2 c (some vector) = some 1
          ∧ oc.vector.dim = 3
          ∧ (∀ i : Nat, (i : Int) < 3 →
              ∃ v, vector_component example_vectors 1 i = some v
                ∧ vector_component s2 c i = some v ∧ vector_component s2 1 i = some v)
          ∧ s2.obj 1 = example_vectors.obj 1)
      ∧ (∃ c s2, clone demo 3 1 example_sets = some (c, s2) ∧ c ≠ 1
          ∧ SetView demo 3 s2 c [2, 4, 5, 6, 1] ∧ equal demo 3 s2 1 c = some 1) :=
  ⟨by decide,
    (C12_clone_overrides_copy_state demo 3 (by decide)).1 example_vectors 1 _ rfl rfl rfl
      (Or.inr ⟨[1, 0, -2], rfl, by decide⟩),
    by
      obtain ⟨c, s2, oc, h1, -, h3, -, -, -, -, h8, -, h10, -⟩ :=
        (C12_clone_overrides_copy_state demo 3 (by decide)).2.2.1 example_sets 1 _
          [2, 4, 5, 6, 1] rfl rfl rfl example_sets_view_A
      exact ⟨c, s2, h1, h3, h8, h10⟩⟩

/-! ## Sets (C13, C14, C15, C16) -/

/-- A reachable set is an instance of `set` with the `clone` entry of the set
constructor that stores a list of elements without repetition, each of them a
live instance that descends from `abstract_object`. -/
theorem reachable_set_inv (P : Static) (fuel : Nat) (hf : 2 ≤ fuel) (s : State) (A : Ptr)
    (h : ReachableSet P fuel s A) :
    ∃ l o, SetView P fuel s A l ∧ l.Nodup ∧ s.obj A = some o ∧ o.«class» = some set
      ∧ o.clone = some CloneFn.set_clone := by
  induction h with
  | @fresh s s1 args A hnew =>
    obtain ⟨A2, s2, h1, -, -, hv, -, -⟩ := new_set_view P fuel hf args s
    obtain ⟨s3, h3, hl3, -, -⟩ := new_object_exact P set _ args s rfl
    rw [hnew] at h1 h3
    cases h1
    cases h3
    exact ⟨[], _, hv, List.nodup_nil, obj_of_load _ _ _ _ hl3, rfl, rfl⟩
  | @insert s s2 A x _ hx hins ih =>
    obtain ⟨l, o, hv, hnd, ho, hk, hc⟩ := ih
    obtain ⟨s3, h3, hv3, -, hkept, -, -⟩ := insert_spec P fuel s A x l hv hx
    rw [hins] at h3
    cases h3
    obtain ⟨n, hl⟩ := load_of_obj s A o ho
    obtain ⟨o2, hl2, hk2, hc2⟩ := hkept A n o hl
    refine ⟨_, o2, hv3, ?_, obj_of_load _ _ _ _ hl2, hk2.trans hk, hc2.trans hc⟩
    by_cases hmem : x ∈ l
    · simpa [hmem] using hnd
    · simp only [hmem, if_false]
      exact List.Nodup.append hnd (List.nodup_singleton x) (by simpa using hmem)
  | @drop s s2 A x _ hx hdr ih =>
    obtain ⟨l, o, hv, hnd, ho, hk, hc⟩ := ih
    obtain ⟨s3, l2, h3, hv3, hp1, hp2, hkept, -, -⟩ := drop_spec P fuel s A x l hv hx
    rw [hdr] at h3
    cases h3
    obtain ⟨n, hl⟩ := load_of_obj s A o ho
    obtain ⟨o2, hl2, hk2, hc2⟩ := hkept A n o hl
    refine ⟨l2, o2, hv3, ?_, obj_of_load _ _ _ _ hl2, hk2.trans hk, hc2.trans hc⟩
    by_cases hmem : x ∈ l
    · exact (List.nodup_cons.1 ((hp1 hmem).nodup_iff.2 hnd)).2
    · rw [(hp2 hmem).2]
      exact hnd
  | @clone s s2 A c _ hcl ih =>
    obtain ⟨l, o, hv, hnd, ho, hk, hc⟩ := ih
    obtain ⟨hia, -⟩ := child_inherits P fuel hf s A o set ho hk rfl
    obtain ⟨c2, s5, oc, h1, -, -, h4, -, h6, h7, h8, -⟩ := set_clone_spec P fuel hf s A l hv
    rw [clone_dispatch P fuel s A o _ ho hia hc] at hcl
    simp only [call_clone] at hcl
    rw [hcl] at h1
    cases h1
    exact ⟨l, oc, h4, hnd, h6, h7, h8⟩
  | @frame s s2 A _ hfr ih =>
    obtain ⟨l, o, hv, hnd, ho, hk, hc⟩ := ih
    obtain ⟨n, hl⟩ := load_of_obj s A o ho
    exact ⟨l, o, set_view_of_frame P fuel s s2 A l hv hfr, hnd,
      by rw [obj_congr s s2 A (hfr A (by rw [hl]; simp)), ho], hk, hc⟩

/-- C13: for a set `A` that stores `l` and an element `x` that descends from
`abstract_object`, `insert(A, x)` returns and afterwards `contains(A, x)` is 1.
When `x` was stored the state is unchanged, so a second insertion changes
nothing; otherwise `A` stores `l` followed by `x`: `nelements` has grown by 1,
`find(A, x)` is the last index and every former element keeps its index.
Nothing in this excludes `x = A`. -/
theorem C13_insert (P : Static) (fuel : Nat) (s : State) (A x : Ptr) (l : List Ptr)
    (hv : SetView P fuel s A l) (hx : Inherits P fuel s x abstract_object) :
    ∃ s2, insert P fuel A x s = some s2
      ∧ contains P fuel s2 A x = some 1
      ∧ insert P fuel A x s2 = some s2
      ∧ (x ∈ l → s2 = s)
      ∧ (x ∉ l → SetView P fuel s2 A (l ++ [x])
          ∧ (∃ o o2, s.obj A = some o ∧ s2.obj A = some o2
              ∧ o2.set.nelements = o.set.nelements + 1)
          ∧ find P fuel s2 A x = some (l.length : Int)
          ∧ ∀ e ∈ l, find P fuel s2 A e = find P fuel s A e)
      ∧ (x = A → contains P fuel s2 A A = some 1) := by
  obtain ⟨s2, h1, hv2, hsame, hk, -, -⟩ := insert_spec P fuel s A x l hv hx
  have hx2 := inherits_of_tags_kept P fuel s s2 x _ hk hx
  have hmem2 : x ∈ (if x ∈ l then l else l ++ [x]) := by
    by_cases hmem : x ∈ l <;> simp [hmem]
  have hc2 : contains P fuel s2 A x = some 1 := by
    rw [contains_spec P fuel s2 A x _ hv2 hx2, if_pos hmem2]
  refine ⟨s2, h1, hc2, ?_, hsame, ?_, fun h => by rw [← h]; rw [← h] at hc2; exact hc2⟩
  · rw [insert_eq_set_insert P fuel s2 A x _ hv2 hx2]
    exact set_insert_stored P fuel s2 A x _ hv2 hx2 hmem2
  · intro hmem
    simp only [hmem, if_false] at hv2
    refine ⟨hv2, ?_, ?_, ?_⟩
    · obtain ⟨o, ho, -, -, -, -, -, hn, -⟩ := hv
      obtain ⟨o2, ho2, -, -, -, -, -, hn2, -⟩ := hv2
      exact ⟨o, o2, ho, ho2, by rw [hn, hn2]; simp⟩
    · rw [find_spec P fuel s2 A x _ hv2 hx2, if_pos (by simp),
        List.indexOf_append_of_not_mem hmem]
      simp
    · intro e he
      have hes : Inherits P fuel s e abstract_object := by
        obtain ⟨o, -, -, -, -, -, -, -, -, helems⟩ := hv
        exact helems e he
      rw [find_spec P fuel s2 A e _ hv2 (inherits_of_tags_kept P fuel s s2 e _ hk hes),
        find_spec P fuel s A e l hv hes, if_pos (List.mem_append_left _ he), if_pos he,
        List.indexOf_append_of_mem he]

/-- Witness for C13: in the state of the set example, inserting `A` (stored)
into `A` changes nothing, and inserting `A` into `B` (which stores nothing)
makes `B` store `A`. -/
theorem C13_insert_witness :
    SetView demo 3 example_sets 1 [2, 4, 5, 6, 1]
      ∧ Inherits demo 3 example_sets 1 abstract_object
      ∧ insert demo 3 1 1 example_sets = some example_sets
      ∧ contains demo 3 example_sets 1 1 = some 1
      ∧ ∃ s2, insert demo 3 5 1 example_sets = some s2 ∧ SetView demo 3 s2 5 [1]
          ∧ contains demo 3 s2 5 1 = some 1 :=
  ⟨example_sets_view_A, example_sets_inherits 1 (by simp), by
      obtain ⟨s2, h1, -, -, h4, -⟩ := C13_insert demo 3 example_sets 1 1 _
        example_sets_view_A (example_sets_inherits 1 (by simp))
      rw [h4 (by simp)] at h1
      exact h1,
    by
      obtain ⟨s2, h1, h2, -, h4, -⟩ := C13_insert demo 3 example_sets 1 1 _
        example_sets_view_A (example_sets_inherits 1 (by simp))
      rw [h4 (by simp)] at h2
      exact h2,
    by
      obtain ⟨s2, h1, h2, -, -, h5, -⟩ := C13_insert demo 3 example_sets 5 1 _
        example_sets_view_B (example_sets_inherits 1 (by simp))
      exact ⟨s2, h1, (h5 (by simp)).1, h2⟩⟩

/-- C14: for a set `A` that stores `l` and an element `x` that descends from
`abstract_object`: when `x` is stored, `find(A, x)` is the smallest index `i`
with `element[i]` identical to `x`, and `0 <= i < nelements`; `find` returns -1
exactly when `x` is not stored; `contains(A, x)` is 1 exactly when `find` is not
-1.  When `A` is not a set, or `A` is a set and `x` does not descend from
`abstract_object`, `find` returns -1. -/
theorem C14_find (P : Static) (fuel : Nat) (s : State) :
    (∀ (A x : Ptr) (l : List Ptr), SetView P fuel s A l →
        Inherits P fuel s x abstract_object →
        (x ∈ l → ∃ i : Nat, find P fuel s A x = some (i : Int) ∧ i < l.length
            ∧ l[i]? = some x ∧ ∀ j, j < i → l[j]? ≠ some x)
        ∧ (find P fuel s A x = some (-1) ↔ x ∉ l)
        ∧ (∃ r, find P fuel s A x = some r
            ∧ contains P fuel s A x = some (if r ≠ -1 then 1 else 0))
        ∧ (contains P fuel s A x = some 1 ↔ find P fuel s A x ≠ some (-1))
        ∧ (contains P fuel s A x = some 1 ↔ x ∈ l))
    ∧ (∀ (A x : Ptr), NotInherits P fuel s A set → find P fuel s A x = some (-1))
    ∧ (∀ (A x : Ptr), Inherits P fuel s A set → NotInherits P fuel s x abstract_object →
        find P fuel s A x = some (-1)) := by
  refine ⟨?_, ?_, ?_⟩
  · intro A x l hv hx
    have hf := find_spec P fuel s A x l hv hx
    have hc := contains_spec P fuel s A x l hv hx
    refine ⟨?_, ?_, ?_, ?_, ?_⟩
    · intro hmem
      have hi : l.indexOf x < l.length := List.indexOf_lt_length.2 hmem
      refine ⟨l.indexOf x, by rw [hf, if_pos hmem], hi, ?_, ?_⟩
      · rw [List.getElem?_eq_getElem hi]
        simp
      · intro j hj hjx
        have hjl : j < l.length := by omega
        rw [List.getElem?_eq_getElem hjl] at hjx
        have h1 := @List.not_of_lt_findIdx _ (fun a => a == x) l j hj
        rw [Option.some.inj hjx] at h1
        simp at h1
    · rw [hf]
      by_cases hmem : x ∈ l
      · have : ¬ ((l.indexOf x : Nat) : Int) = -1 := by omega
        simp [hmem, this]
      · simp [hmem]
    · exact ⟨_, hf, by simp [contains, hf]⟩
    · rw [hc, hf]
      by_cases hmem : x ∈ l
      · have : ¬ ((l.indexOf x : Nat) : Int) = -1 := by omega
        simp [hmem, this]
      · simp [hmem]
    · rw [hc]
      by_cases hmem : x ∈ l <;> simp [hmem]
  · intro A x hA
    simp [find, set_guard, inherits_from_of_not_inherits P fuel s A _ hA]
  · intro A x hA hx
    simp [find, set_guard, inherits_from_of_inherits P fuel s A _ hA,
      inherits_from_of_not_inherits P fuel s x _ hx]

/-- Witness for C14: in the state of the set example `find(A, C)` is 3; in the
mixed state, block 2 is not a set and `find` on it is -1. -/
theorem C14_find_witness :
    (∃ i : Nat, find demo 3 example_sets 1 6 = some (i : Int) ∧ i < 5
        ∧ [2, 4, 5, 6, 1][i]? = some 6 ∧ ∀ j, j < i → [2, 4, 5, 6, 1][j]? ≠ some 6)
      ∧ find demo 3 example_sets 1 6 = some 3
      ∧ find demo 3 example_mixed 2 1 = some (-1) :=
  ⟨((C14_find demo 3 example_sets).1 1 6 _ example_sets_view_A
      (example_sets_inherits 6 (by simp))).1 (by simp),
    rfl,
    (C14_find demo 3 example_mixed).2.1 2 1
      ⟨_, ClassRef.user 0, 0, rfl, rfl, Depth.root rfl, by decide, by
        intro h
        cases h with
        | parent hp _ => cases hp⟩⟩

/-- C15: for a set `A` reachable from a freshly constructed set by `insert`,
`drop` and `clone`, and an element `x` that descends from `abstract_object`,
`drop(A, x)` returns and `A` is still such a set.  When `contains(A, x)` was 1:
afterwards `contains(A, x)` is 0, `nelements` has decreased by exactly 1, and
every other element that was contained is still contained.  When
`contains(A, x)` was 0 the state is unchanged. -/
theorem C15_drop (P : Static) (fuel : Nat) (hf : 2 ≤ fuel) (s : State) (A x : Ptr)
    (hA : ReachableSet P fuel s A) (hx : Inherits P fuel s x abstract_object) :
    ∃ s2, drop P fuel A x s = some s2 ∧ ReachableSet P fuel s2 A
      ∧ (contains P fuel s A x = some 1 ∨ contains P fuel s A x = some 0)
      ∧ (contains P fuel s A x = some 1 →
          contains P fuel s2 A x = some 0
          ∧ (∃ o o2, s.obj A = some o ∧ s2.obj A = some o2
              ∧ o2.set.nelements = o.set.nelements - 1)
          ∧ ∀ e, e ≠ x → contains P fuel s A e = some 1 → Inherits P fuel s e abstract_object →
              contains P fuel s2 A e = some 1)
      ∧ (contains P fuel s A x = some 0 → s2 = s) := by
  obtain ⟨l, o, hv, hnd, ho, -, -⟩ := reachable_set_inv P fuel hf s A hA
  obtain ⟨s2, l2, h1, hv2, hp1, hp2, hk, -, -⟩ := drop_spec P fuel s A x l hv hx
  have hc := contains_spec P fuel s A x l hv hx
  refine ⟨s2, h1, ReachableSet.drop hA hx h1, ?_, ?_, ?_⟩
  · rw [hc]
    by_cases hmem : x ∈ l <;> simp [hmem]
  · intro hc1
    have hmem : x ∈ l := by
      by_contra hmem
      rw [hc, if_neg hmem] at hc1
      cases hc1
    have hperm := hp1 hmem
    have hnd2 := hperm.nodup_iff.2 hnd
    refine ⟨?_, ?_, ?_⟩
    · rw [contains_spec P fuel s2 A x l2 hv2 (inherits_of_tags_kept P fuel s s2 x _ hk hx),
        if_neg (List.nodup_cons.1 hnd2).1]
    · obtain ⟨o1, ho1, -, -, -, -, -, hn1, -⟩ := hv
      obtain ⟨o2, ho2, -, -, -, -, -, hn2, -⟩ := hv2
      refine ⟨o1, o2, ho1, ho2, ?_⟩
      have hlen := hperm.length_eq
      simp only [List.length_cons] at hlen
      rw [hn1, hn2]
      omega
    · intro e hex hce hie
      have hel : e ∈ l := by
        by_contra hel
        rw [contains_spec P fuel s A e l hv hie, if_neg hel] at hce
        cases hce
      have hel2 : e ∈ l2 := by
        rcases List.mem_cons.1 (hperm.mem_iff.2 hel) with h | h
        · exact absurd h hex
        · exact h
      rw [contains_spec P fuel s2 A e l2 hv2 (inherits_of_tags_kept P fuel s s2 e _ hk hie),
        if_pos hel2]
  · intro hc0
    have hmem : x ∉ l := by
      intro hmem
      rw [hc, if_pos hmem] at hc0
      cases hc0
    exact (hp2 hmem).1

/-- In the state after `new(A, set); insert(A, A);` the set `A` is reachable. -/
theorem example_self_reachable : ReachableSet demo 3 example_self 1 :=
  have h1 : ReachableSet demo 3 (after (new demo set [] {})) 1 :=
    @ReachableSet.fresh demo 3 {} _ [0] 1 rfl
  have hx : Inherits demo 3 (after (new demo set [] {})) 1 abstract_object :=
    shipped_inherits demo 3 (le_refl 3) _ 1 _ set rfl rfl (by simp)
  @ReachableSet.insert demo 3 _ example_self 1 1 h1 hx rfl

/-- Witness for C15: after `new(A, set); insert(A, A);`, dropping `A` from `A`
leaves a set that does not contain `A`. -/
theorem C15_drop_witness :
    2 ≤ 3 ∧ ReachableSet demo 3 example_self 1
      ∧ Inherits demo 3 example_self 1 abstract_object
      ∧ contains demo 3 example_self 1 1 = some 1
      ∧ ∃ s2, drop demo 3 1 1 example_self = some s2 ∧ contains demo 3 s2 1 1 = some 0 :=
  have hx : Inherits demo 3 example_self 1 abstract_object :=
    shipped_inherits demo 3 (le_refl 3) _ 1 _ set rfl rfl (by simp)
  ⟨by decide, example_self_reachable, hx, rfl, by
    obtain ⟨s2, h1, -, -, h4, -⟩ :=
      C15_drop demo 3 (by decide) example_self 1 1 example_self_reachable hx
    exact ⟨s2, h1, (h4 rfl).1⟩⟩

/-- Cloning a reachable set gives a reachable set and leaves the cloned set
reachable. -/
theorem reachable_after_clone (P : Static) (fuel : Nat) (hf : 2 ≤ fuel) (s s2 : State)
    (A c : Ptr) (hA : ReachableSet P fuel s A) (hcl : clone P fuel A s = some (c, s2)) :
    ReachableSet P fuel s2 A ∧ ReachableSet P fuel s2 c := by
  refine ⟨?_, ReachableSet.clone hA hcl⟩
  obtain ⟨l, o, hv, -, ho, hk, hc⟩ := reachable_set_inv P fuel hf s A hA
  obtain ⟨hia, -⟩ := child_inherits P fuel hf s A o set ho hk rfl
  obtain ⟨c2, s5, oc, h1, -, -, -, h5, -⟩ := set_clone_spec P fuel hf s A l hv
  rw [clone_dispatch P fuel s A o _ ho hia hc] at hcl
  simp only [call_clone] at hcl
  rw [hcl] at h1
  cases h1
  exact ReachableSet.frame hA h5

/-- C16: for sets `A` and `B` reachable from freshly constructed sets by
`insert`, `drop` and `clone`, `equal(A, B)` returns 1 or 0, and 1 exactly when
`A` and `B` store the same elements, whatever the order: an element is
contained in `A` exactly when it is contained in `B`.  So `equal(A, A)` is 1
and `equal(A, B) = equal(B, A)`.  When `A` is not a set, or `A` is a set and `B`
is not, `equal` returns 0. -/
theorem C16_equal (P : Static) (fuel : Nat) (hf : 2 ≤ fuel) (s : State) :
    (∀ (A B : Ptr), ReachableSet P fuel s A → ReachableSet P fuel s B →
        (equal P fuel s A B = some 1 ∨ equal P fuel s A B = some 0)
        ∧ (∃ la lb, SetView P fuel s A la ∧ SetView P fuel s B lb
            ∧ (equal P fuel s A B = some 1 ↔ ∀ e, e ∈ la ↔ e ∈ lb))
        ∧ (equal P fuel s A B = some 1 ↔
            ∀ e, Inherits P fuel s e abstract_object →
              (contains P fuel s A e = some 1 ↔ contains P fuel s B e = some 1))
        ∧ equal P fuel s A A = some 1
        ∧ equal P fuel s A B = equal P fuel s B A)
    ∧ (∀ (A B : Ptr), NotInherits P fuel s A set → equal P fuel s A B = some 0)
    ∧ (∀ (A B : Ptr), Inherits P fuel s A set → NotInherits P fuel s B set →
        equal P fuel s A B = some 0) := by
  refine ⟨?_, ?_, ?_⟩
  · intro A B hA hB
    obtain ⟨la, oa, hva, hna, -⟩ := reachable_set_inv P fuel hf s A hA
    obtain ⟨lb, ob, hvb, hnb, -⟩ := reachable_set_inv P fuel hf s B hB
    have hab := equal_spec P fuel s A B la lb hva hvb
    have hba := equal_spec P fuel s B A lb la hvb hva
    have haa := equal_spec P fuel s A A la la hva hva
    have hiff := same_elements_iff la lb hna hnb
    have hiff2 := same_elements_iff lb la hnb hna
    have key : equal P fuel s A B = some 1 ↔ ∀ e, e ∈ la ↔ e ∈ lb := by
      rw [hab, ← hiff]
      by_cases h : la.length = lb.length ∧ ∀ e ∈ la, e ∈ lb
      · rw [if_pos h]
        exact ⟨fun _ => h, fun _ => rfl⟩
      · rw [if_neg h]
        exact ⟨fun h0 => (by cases h0), fun h1 => absurd h1 h⟩
    refine ⟨?_, ⟨la, lb, hva, hvb, key⟩, ?_, ?_, ?_⟩
    · rw [hab]
      by_cases h : la.length = lb.length ∧ ∀ e ∈ la, e ∈ lb
      · left; rw [if_pos h]
      · right; rw [if_neg h]
    · rw [key]
      constructor
      · intro h e he
        rw [contains_spec P fuel s A e la hva he, contains_spec P fuel s B e lb hvb he]
        by_cases h1 : e ∈ la
        · simp [h1, (h e).1 h1]
        · have h2 : e ∉ lb := fun h2 => h1 ((h e).2 h2)
          simp [h1, h2]
      · intro h e
        have hin : e ∈ la ∨ e ∈ lb → Inherits P fuel s e abstract_object := by
          obtain ⟨_, -, -, -, -, -, -, -, -, hea⟩ := hva
          obtain ⟨_, -, -, -, -, -, -, -, -, heb⟩ := hvb
          rintro (h1 | h1)
          · exact hea e h1
          · exact heb e h1
        constructor
        · intro h1
          have he := hin (Or.inl h1)
          have := (h e he).1 (by rw [contains_spec P fuel s A e la hva he, if_pos h1])
          rw [contains_spec P fuel s B e lb hvb he] at this
          by_contra h2
          rw [if_neg h2] at this
          cases this
        · intro h1
          have he := hin (Or.inr h1)
          have := (h e he).2 (by rw [contains_spec P fuel s B e lb hvb he, if_pos h1])
          rw [contains_spec P fuel s A e la hva he] at this
          by_contra h2
          rw [if_neg h2] at this
          cases this
    · rw [haa]
      simp
    · rw [hab, hba]
      by_cases h : la.length = lb.length ∧ ∀ e ∈ la, e ∈ lb
      · have h2 : lb.length = la.length ∧ ∀ e ∈ lb, e ∈ la :=
          hiff2.2 (fun e => ((hiff.1 h) e).symm)
        rw [if_pos h, if_pos h2]
      · have h2 : ¬ (lb.length = la.length ∧ ∀ e ∈ lb, e ∈ la) :=
          fun h2 => h (hiff.2 (fun e => ((hiff2.1 h2) e).symm))
        rw [if_neg h, if_neg h2]
  · intro A B hA
    simp [equal, inherits_from_of_not_inherits P fuel s A _ hA]
  · intro A B hA hB
    simp [equal, inherits_from_of_inherits P fuel s A _ hA,
      inherits_from_of_not_inherits P fuel s B _ hB]

/-- Witness for C16: after `new(A, set); insert(A, A); C = clone(A);` the sets
`A` and `C` are reachable, `equal(A, A)` is 1 and `equal(A, C) = equal(C, A)`. -/
theorem C16_equal_witness :
    2 ≤ 3 ∧ ReachableSet demo 3 example_cloned 1 ∧ ReachableSet demo 3 example_cloned 3
      ∧ equal demo 3 example_cloned 1 1 = some 1
      ∧ equal demo 3 example_cloned 1 3 = equal demo 3 example_cloned 3 1
      ∧ equal demo 3 example_cloned 1 3 = some 1 :=
  have hr := reachable_after_clone demo 3 (by decide) example_self example_cloned 1 3
    example_self_reachable rfl
  ⟨by decide, hr.1, hr.2,
    ((C16_equal demo 3 (by decide) example_cloned).1 1 3 hr.1 hr.2).2.2.2.1,
    ((C16_equal demo 3 (by decide) example_cloned).1 1 3 hr.1 hr.2).2.2.2.2, rfl⟩

/-! ## Lists (C17, C18) -/

/-- The shifting loop of the push functions: the entries `n - count .. n - 1`
move one index up, every other entry stays. -/
theorem push_loop_spec {α : Type} :
    ∀ (count n : Nat) (el : List α), count ≤ n → n < el.length →
      ∃ r, push_loop count n el = some r ∧ r.length = el.length
        ∧ ∀ j, r[j]? = if n - count < j ∧ j ≤ n then el[j - 1]? else el[j]? := by
  intro count
  induction count with
  | zero =>
    intro n el _ _
    refine ⟨el, rfl, rfl, fun j => ?_⟩
    have : ¬ (n - 0 < j ∧ j ≤ n) := by omega
    rw [if_neg this]
  | succ c ih =>
    intro n el hc hn
    have hn0 : ¬ n = 0 := by omega
    have hv : el[n - 1]? = some (el.get ⟨n - 1, by omega⟩) := List.getElem?_eq_getElem _
    obtain ⟨r, h1, h2, h3⟩ := ih (n - 1) (el.set n (el.get ⟨n - 1, by omega⟩)) (by omega)
      (by simp; omega)
    refine ⟨r, ?_, by simpa using h2, fun j => ?_⟩
    · simp only [push_loop, hn0, if_false, hv, Option.bind_eq_bind, Option.some_bind, hn, if_true]
      exact h1
    · rw [h3 j]
      by_cases hj : j = n
      · subst hj
        have h4 : ¬ (j - 1 - c < j ∧ j ≤ j - 1) := by omega
        have h5 : j - (c + 1) < j ∧ j ≤ j := by omega
        rw [if_neg h4, if_pos h5, List.getElem?_set_self (by omega), hv]
      · have hnj : ¬ n = j := fun h => hj h.symm
        by_cases hr : n - 1 - c < j ∧ j ≤ n - 1
        · have h5 : n - (c + 1) < j ∧ j ≤ n := by omega
          have h6 : ¬ n = j - 1 := by omega
          rw [if_pos hr, if_pos h5, List.getElem?_set_ne h6]
        · have h5 : ¬ (n - (c + 1) < j ∧ j ≤ n) := by omega
          rw [if_neg hr, if_neg h5, List.getElem?_set_ne hnj]

/-- The shifting loop of the pop functions: the entries `n + 1 .. n + count`
move one index down, every other entry stays. -/
theorem pop_loop_spec {α : Type} :
    ∀ (count n : Nat) (el : List α), n + count < el.length →
      ∃ r, pop_loop count n el = some r ∧ r.length = el.length
        ∧ ∀ j, r[j]? = if n ≤ j ∧ j < n + count then el[j + 1]? else el[j]? := by
  intro count
  induction count with
  | zero =>
    intro n el _
    refine ⟨el, rfl, rfl, fun j => ?_⟩
    have : ¬ (n ≤ j ∧ j < n + 0) := by omega
    rw [if_neg this]
  | succ c ih =>
    intro n el hn
    have hv : el[n + 1]? = some (el.get ⟨n + 1, by omega⟩) := List.getElem?_eq_getElem _
    have hlt : n < el.length := by omega
    obtain ⟨r, h1, h2, h3⟩ := ih (n + 1) (el.set n (el.get ⟨n + 1, by omega⟩))
      (by simp; omega)
    refine ⟨r, ?_, by simpa using h2, fun j => ?_⟩
    · simp only [pop_loop, hv, Option.bind_eq_bind, Option.some_bind, hlt, if_true]
      exact h1
    · rw [h3 j]
      by_cases hj : j = n
      · subst hj
        have h4 : ¬ (j + 1 ≤ j ∧ j < j + 1 + c) := by omega
        have h5 : j ≤ j ∧ j < j + (c + 1) := by omega
        rw [if_neg h4, if_pos h5, List.getElem?_set_self (by omega), hv]
      · have hnj : ¬ n = j := fun h => hj h.symm
        by_cases hr : n + 1 ≤ j ∧ j < n + 1 + c
        · have h5 : n ≤ j ∧ j < n + (c + 1) := by omega
          have h6 : ¬ n = j + 1 := by omega
          rw [if_pos hr, if_pos h5, List.getElem?_set_ne h6]
        · have h5 : ¬ (n ≤ j ∧ j < n + (c + 1)) := by omega
          rw [if_neg hr, if_neg h5, List.getElem?_set_ne hnj]

theorem realloc_array_spec (element : List Int) (n : Nat) (h : element.length ≤ n) :
    (realloc_array 0 element (n : Int)).length = n
      ∧ ∀ j, j < element.length → (realloc_array 0 element (n : Int))[j]? = element[j]? := by
  have h1 : element.take n = element := List.take_of_length_le h
  refine ⟨?_, fun j hj => ?_⟩
  · simp only [realloc_array, Int.toNat_ofNat, h1, List.length_append, List.length_replicate]
    omega
  · simp only [realloc_array, Int.toNat_ofNat, h1]
    exact List.getElem?_append_left hj

/-- C17: `int_list_push` inserts at a position.  For a list of length `n` and
an index `i` with `0 <= i <= n`, `int_list_push(list, i, val)` returns `val`;
afterwards the length is `n + 1`, element `i` is `val`, the elements below `i`
are unchanged and every element formerly at an index `j >= i` is at index
`j + 1`.  A list set up by `int_list_alloc` with a non-negative length is such
a list, and so is the list after the push.  Pushing "Five", "Four", "Three",
"Two", "One" at index 0 of an empty string list yields One, Two, Three, Four,
Five. -/
theorem C17_list_push (list : int_list) (n i : Nat) (val : Int) (hwf : int_list_wf list)
    (hn : list.n = (n : Int)) (hi : i ≤ n) :
    (∃ list2, int_list_push list (i : Int) val = some (val, list2)
        ∧ list2.n = (n : Int) + 1
        ∧ int_read list2 (i : Int) = some val
        ∧ (∀ j : Nat, j < i → int_read list2 (j : Int) = int_read list (j : Int))
        ∧ (∀ j : Nat, i ≤ j → j < n →
            int_read list2 ((j : Int) + 1) = int_read list (j : Int))
        ∧ int_list_wf list2)
    ∧ (∀ (l0 : int_list) (m : Nat), int_list_wf (int_list_alloc l0 (m : Int))
        ∧ (int_list_alloc l0 (m : Int)).n = (m : Int))
    ∧ ((string_list_push (string_list_alloc { n := 0, element := [], size := 0 } 0) 0
          "Five").bind fun r1 =>
        (string_list_push r1.2 0 "Four").bind fun r2 =>
        (string_list_push r2.2 0 "Three").bind fun r3 =>
        (string_list_push r3.2 0 "Two").bind fun r4 =>
        (string_list_push r4.2 0 "One").map fun r5 => (r5.1, string_list_contents r5.2))
        = some ("One", ["One", "Two", "Three", "Four", "Five"]) := by
  refine ⟨?_, ?_, rfl⟩
  · obtain ⟨h0, hsz, hlen⟩ := hwf
    -- the array after the test `list->n > list->size`
    obtain ⟨el0, size0, hl2, hL, hsame, hsz0⟩ : ∃ (el0 : List Int) (size0 : Int),
        (if list.n + 1 > list.size then
            ({ n := list.n + 1, size := list.n + 1,
               element := realloc_array 0 list.element (list.n + 1) } : int_list)
          else { n := list.n + 1, element := list.element, size := list.size })
          = { n := list.n + 1, element := el0, size := size0 }
        ∧ (el0.length : Int) = size0 ∧ (∀ j, j < n → el0[j]? = list.element[j]?)
        ∧ (n : Int) + 1 ≤ size0 := by
      by_cases hgt : list.n + 1 > list.size
      · have hlen2 : list.element.length = n := by omega
        have hcast : list.n + 1 = ((n + 1 : Nat) : Int) := by omega
        obtain ⟨h1, h2⟩ := realloc_array_spec list.element (n + 1) (by omega)
        refine ⟨realloc_array 0 list.element (list.n + 1), list.n + 1, by rw [if_pos hgt], ?_,
          fun j hj => ?_, by omega⟩
        · rw [hcast, h1]
        · rw [hcast]
          exact h2 j (by omega)
      · exact ⟨list.element, list.size, by rw [if_neg hgt], hlen, fun _ _ => rfl, by omega⟩
    have hLn : n < el0.length := by omega
    obtain ⟨r, hr1, hr2, hr3⟩ := push_loop_spec (n - i) n el0 (by omega) hLn
    have hneg : ¬ ((i : Int) < 0) := by omega
    have hc1 : ((n : Int) + 1 - 1 - (i : Int)).toNat = n - i := by omega
    have hc2 : ((n : Int) + 1 - 1).toNat = n := by omega
    have hir : i < r.length := by omega
    refine ⟨{ n := list.n + 1, element := r.set i val, size := size0 }, ?_, by simp [hn], ?_,
      ?_, ?_, ?_⟩
    · simp only [int_list_push, Option.bind_eq_bind, hneg, if_false]
      rw [hl2]
      simp only [hn, hc1, hc2, hr1, Option.some_bind, Int.toNat_ofNat, hir, if_true,
        Option.pure_def]
    · simp [int_read, hir]
    · intro j hj
      have hj2 : ¬ i = j := by omega
      have hj3 : ¬ (n - (n - i) < j ∧ j ≤ n) := by omega
      simp only [int_read, Int.ofNat_zero_le, if_true, Int.toNat_ofNat, List.getElem?_set_ne hj2,
        hr3 j, if_neg hj3]
      exact hsame j (by omega)
    · intro j hij hjn
      have hj2 : ¬ i = j + 1 := by omega
      have hj3 : n - (n - i) < j + 1 ∧ j + 1 ≤ n := by omega
      have hpos : (0 : Int) ≤ (j : Int) + 1 := by omega
      have hcast : ((j : Int) + 1).toNat = j + 1 := by omega
      simp only [int_read, hpos, if_true, hcast, Int.ofNat_zero_le, Int.toNat_ofNat,
        List.getElem?_set_ne hj2, hr3 (j + 1), if_pos hj3, Nat.add_sub_cancel]
      exact hsame j hjn
    · refine ⟨by simp only; omega, by simp only; omega, ?_⟩
      simp only [List.length_set, hr2]
      exact hL
  · intro l0 m
    refine ⟨⟨?_, ?_, ?_⟩, rfl⟩
    · simp [int_list_alloc]
    · simp [int_list_alloc]
    · simp [int_list_alloc]

/-- Witness for C17: pushing -6 at index 6 of the list 1, 2, 4, 5, -4, 7, 8, 9,
10 with ten slots. -/
theorem C17_list_push_witness :
    int_list_wf { n := 9, element := [1, 2, 4, 5, -4, 7, 8, 9, 10, 10], size := 10 }
      ∧ (6 : Nat) ≤ 9
      ∧ ∃ list2, int_list_push
            { n := 9, element := [1, 2, 4, 5, -4, 7, 8, 9, 10, 10], size := 10 } 6 (-6)
          = some (-6, list2) ∧ list2.n = 10 ∧ int_read list2 6 = some (-6) :=
  have hwf : int_list_wf { n := 9, element := [1, 2, 4, 5, -4, 7, 8, 9, 10, 10], size := 10 } :=
    ⟨by decide, by decide, by decide⟩
  ⟨hwf, by decide, by
    obtain ⟨list2, h1, h2, h3, -⟩ := (C17_list_push _ 9 6 (-6) hwf rfl (by decide)).1
    exact ⟨list2, h1, h2, h3⟩⟩

/-- C18: `int_list_pop` removes at a position.  For a list of length `n` and an
index `i` with `0 <= i < n`, `int_list_pop(list, i)` returns the element that
was at index `i`; afterwards the length is `n - 1`, the elements below `i` are
unchanged and every element formerly at an index `j > i` is at index `j - 1`;
the list is again well formed.  With the list 1..10 of
`examples/list_example.c`, popping at 2 (which returns 3), setting index 4 to
-4 and pushing -6 at 6 gives 1, 2, 4, 5, -4, 7, -6, 8, 9, 10. -/
theorem C18_list_pop (list : int_list) (n i : Nat) (hwf : int_list_wf list)
    (hn : list.n = (n : Int)) (hi : i < n) :
    (∃ v list2, int_list_pop list (i : Int) = some (v, list2)
        ∧ int_read list (i : Int) = some v
        ∧ list2.n = (n : Int) - 1
        ∧ (∀ j : Nat, j < i → int_read list2 (j : Int) = int_read list (j : Int))
        ∧ (∀ j : Nat, i < j → j < n →
            int_read list2 ((j : Int) - 1) = int_read list (j : Int))
        ∧ int_list_wf list2)
    ∧ (example_intl.bind fun l =>
        (int_list_pop l 2).bind fun r =>
        (int_list_set r.2 4 (-4)).bind fun r2 =>
        (int_list_push r2.2 6 (-6)).map fun r3 => (r.1, int_list_contents r3.2))
        = some (3, [1, 2, 4, 5, -4, 7, -6, 8, 9, 10]) := by
  refine ⟨?_, by decide⟩
  obtain ⟨h0, hsz, hlen⟩ := hwf
  have hin : i < list.element.length := by omega
  obtain ⟨r, hr1, hr2, hr3⟩ := pop_loop_spec (n - 1 - i) i list.element (by omega)
  have hc1 : ((n : Int) - 1 - (i : Int)).toNat = n - 1 - i := by omega
  refine ⟨list.element[i], { list with element := r, n := list.n - 1 }, ?_, ?_, by simp [hn],
    ?_, ?_, ?_⟩
  · simp only [int_list_pop, int_read, Int.ofNat_zero_le, if_true, Int.toNat_ofNat,
      Option.bind_eq_bind, List.getElem?_eq_getElem hin, Option.some_bind, hn, hc1, hr1,
      Option.pure_def]
  · simp only [int_read, Int.ofNat_zero_le, if_true, Int.toNat_ofNat,
      List.getElem?_eq_getElem hin]
  · intro j hj
    have hj3 : ¬ (i ≤ j ∧ j < i + (n - 1 - i)) := by omega
    simp only [int_read, Int.ofNat_zero_le, if_true, Int.toNat_ofNat, hr3 j, if_neg hj3]
  · intro j hij hjn
    have hj3 : i ≤ j - 1 ∧ j - 1 < i + (n - 1 - i) := by omega
    have hpos : (0 : Int) ≤ (j : Int) - 1 := by omega
    have hcast : ((j : Int) - 1).toNat = j - 1 := by omega
    have hj1 : j - 1 + 1 = j := by omega
    simp only [int_read, hpos, if_true, hcast, Int.ofNat_zero_le, Int.toNat_ofNat,
      hr3 (j - 1), if_pos hj3, hj1]
  · refine ⟨by simp only; omega, by simp only; omega, ?_⟩
    simp only [hr2]
    exact hlen

/-- Witness for C18: popping index 2 of the list 1, 2, 3, 4 with four slots. -/
theorem C18_list_pop_witness :
    int_list_wf { n := 4, element := [1, 2, 3, 4], size := 4 } ∧ (2 : Nat) < 4
      ∧ ∃ v list2, int_list_pop { n := 4, element := [1, 2, 3, 4], size := 4 } 2
          = some (v, list2) ∧ v = 3 ∧ list2.n = 3 :=
  have hwf : int_list_wf { n := 4, element := [1, 2, 3, 4], size := 4 } :=
    ⟨by decide, by decide, by decide⟩
  ⟨hwf, by decide, by
    obtain ⟨v, list2, h1, h2, h3, -⟩ := (C18_list_pop _ 4 2 hwf rfl (by decide)).1
    refine ⟨v, list2, h1, ?_, h3⟩
    have h4 : int_read { n := 4, element := [1, 2, 3, 4], size := 4 } ((2 : Nat) : Int)
        = some 3 := by decide
    rw [h4] at h2
    exact (Option.some.inj h2).symm⟩

/-! ## Vector sum and difference (C19, C20) -/

/-- C19: `vector_subtract` adds.  In the state with `v = (1, 0, -2)` (block 1)
and `w = (0, 1, -5)` (block 2), both of dimension 3, `vector_subtract(v, w)`
returns a new vector (block 5) of dimension 3 whose components are 1, 1, -7,
the sums `v_i + w_i`, and not the differences 1, -1, 3; on every input it
returns exactly what `vector_add(v, w)` returns. -/
theorem C19_vector_subtract_adds :
    ((vector_subtract demo 2 1 2 example_vectors).bind fun r =>
        (r.2.obj r.1).map fun o =>
          (r.1, o.vector.dim, vector_component r.2 r.1 0, vector_component r.2 r.1 1,
            vector_component r.2 r.1 2))
      = some (5, 3, some 1, some 1, some (-7))
    ∧ (vector_component example_vectors 1 0, vector_component example_vectors 1 1,
        vector_component example_vectors 1 2) = (some 1, some 0, some (-2))
    ∧ (vector_component example_vectors 2 0, vector_component example_vectors 2 1,
        vector_component example_vectors 2 2) = (some 0, some 1, some (-5))
    ∧ ∀ (P : Static) (fuel : Nat) (_v _w : Ptr) (s : State),
        vector_subtract P fuel _v _w s = vector_add P fuel _v _w s := by
  refine ⟨by decide, by decide, by decide, fun _ _ _ _ _ => rfl⟩

/-- C20: `vector_add` skips one component of the longer vector.  In the state
with `v = (1)` (block 1) and `w = (1, 2, 3)` (block 2), `vector_add(v, w)` and
`vector_add(w, v)` both return a new vector (block 5) of dimension 3 whose
components are 2, 0, 3: the component at index 1, the dimension of the shorter
vector, is left at the zero of `calloc` instead of the 2 of `w`. -/
theorem C20_vector_add_skips_index :
    ((vector_add demo 2 1 2 example_short_long).bind fun r =>
        (r.2.obj r.1).map fun o =>
          (r.1, o.vector.dim, vector_component r.2 r.1 0, vector_component r.2 r.1 1,
            vector_component r.2 r.1 2))
      = some (5, 3, some 2, some 0, some 3)
    ∧ ((vector_add demo 2 2 1 example_short_long).bind fun r =>
        (r.2.obj r.1).map fun o =>
          (r.1, o.vector.dim, vector_component r.2 r.1 0, vector_component r.2 r.1 1,
            vector_component r.2 r.1 2))
      = some (5, 3, some 2, some 0, some 3)
    ∧ vector_component example_short_long 1 0 = some 1
    ∧ (example_short_long.obj 1).map (fun o => o.vector.dim) = some 1
    ∧ (vector_component example_short_long 2 0, vector_component example_short_long 2 1,
        vector_component example_short_long 2 2) = (some 1, some 2, some 3) := by
  refine ⟨by decide, by decide, by decide, by decide, by decide⟩

/-! ## Construction (C23, C24) -/

theorem constructor_calls_append (l1 l2 : List Event) :
    constructor_calls (l1 ++ l2) = constructor_calls l1 ++ constructor_calls l2 := by
  induction l1 with
  | nil => rfl
  | cons e t ih => cases e <;> simp [constructor_calls, ih]

/-- The trace a constructor of the repository leaves: its own call, followed,
for the five derived classes, by the call of `abstract_object_constructor`. -/
theorem call_constructor_trace (c : Ctor) (s : State) (p : Ptr) (args : List Int) (n : Nat)
    (o : Obj) (h : s.load p = some (Block.object n o)) :
    ∃ s1, call_constructor c p args s = some (p, s1)
      ∧ s1.trace = s.trace ++ Event.constructor c p ::
          (if c = Ctor.abstract_object_constructor then []
            else [Event.constructor Ctor.abstract_object_constructor p]) := by
  cases c <;>
  simp [call_constructor, vector_constructor, matrix_constructor, set_constructor,
      iterator_constructor, time_iterator_constructor,
      abstract_object_constructor, State.update, load_store, h]

/-- The block `new_object` creates from a class with a constructor, and the
constructor calls it makes. -/
theorem new_object_calls (P : Static) (C : ClassRef) (c : Ctor) (args : List Int) (s : State)
    (hc : (classAt P C).constructor = some c) :
    ∃ s3, new_object P C args s = some (fresh s.heap, s3)
      ∧ s3.load (fresh s.heap)
          = some (Block.object (classAt P C).size (constructed c args { «class» := some C }))
      ∧ (∀ q, q ≠ fresh s.heap → s3.load q = s.load q)
      ∧ constructor_calls s3.trace = constructor_calls s.trace ++ (c, fresh s.heap) ::
          (if c = Ctor.abstract_object_constructor then []
            else [(Ctor.abstract_object_constructor, fresh s.heap)]) := by
  have ha : (s.alloc (Block.object (classAt P C).size {})).2.load (fresh s.heap)
      = some (Block.object (classAt P C).size {}) := by simp [load_alloc]
  have hu := update_of_load _ _ _ _ (fun o => { o with «class» := some C }) ha
  have hl := load_store_self _ (fresh s.heap) _
    (Block.object (classAt P C).size ({ «class» := some C } : Obj)) ha
  obtain ⟨s3, h1, h2, h3, -⟩ := new_object_exact P C c args s hc
  obtain ⟨s4, h4, h5⟩ := call_constructor_trace c _ _ args _ _ hl
  have hnew : new_object P C args s = call_constructor c (fresh s.heap) args
      ((s.alloc (Block.object (classAt P C).size {})).2.store (fresh s.heap)
        (Block.object (classAt P C).size ({ «class» := some C } : Obj))) := by
    simp only [new_object, State.alloc] at hu ⊢
    simp [State.alloc, hu, hc]
  have h34 : s4 = s3 := by
    rw [hnew, h4] at h1
    exact (Prod.mk.inj (Option.some.inj h1)).2
  subst h34
  refine ⟨s4, h1, h2, h3, ?_⟩
  rw [h5, constructor_calls_append]
  have hs : ((s.alloc (Block.object (classAt P C).size {})).2.store (fresh s.heap)
      (Block.object (classAt P C).size ({ «class» := some C } : Obj))).trace = s.trace := rfl
  rw [hs]
  by_cases hroot : c = Ctor.abstract_object_constructor
  · simp [hroot, constructor_calls]
  · simp [hroot, constructor_calls]

/-- C24: `new_object(C, ...)` obtains a block of exactly `C.size` bytes, all
zero, at an address `x` that was not in use, and writes `C` as its first field;
nothing else is touched.  When `C` has a constructor `c`, the result of
`new_object` is the result of the one call `c(x, &args)` in the state `s2` that
holds this tagged zero block, so the constructor sees the tag `C` and every
other field zero, and the trace gains the call of `c` on `x` exactly once (a
derived constructor of the repository calls `abstract_object_constructor` on
`x` in turn).  When `C` has no constructor, `new_object` returns `x` with the
tagged zero block as it is, and no constructor is called. -/
theorem C24_new_object (P : Static) (C : ClassRef) (args : List Int) (s : State) :
    ∃ x s2, x = (s.alloc (Block.object (classAt P C).size {})).1
      ∧ x ≠ NULL ∧ s.load x = none
      ∧ (s.alloc (Block.object (classAt P C).size {})).2.load x
          = some (Block.object (classAt P C).size {})
      ∧ (s.alloc (Block.object (classAt P C).size {})).2.update x
          (fun o => { o with «class» := some C }) = some s2
      ∧ s2.load x = some (Block.object (classAt P C).size { «class» := some C })
      ∧ (∀ q, q ≠ x → s2.load q = s.load q) ∧ s2.out = s.out ∧ s2.trace = s.trace
      ∧ (∀ c, (classAt P C).constructor = some c →
          new_object P C args s = call_constructor c x args s2
          ∧ ∃ s3, new_object P C args s = some (x, s3)
            ∧ s3.load x = some (Block.object (classAt P C).size
                (constructed c args { «class» := some C }))
            ∧ (∀ q, q ≠ x → s3.load q = s.load q)
            ∧ constructor_calls s3.trace = constructor_calls s.trace ++ (c, x) ::
                (if c = Ctor.abstract_object_constructor then []
                  else [(Ctor.abstract_object_constructor, x)]))
      ∧ ((classAt P C).constructor = none →
          new_object P C args s = some (x, s2)
          ∧ constructor_calls s2.trace = constructor_calls s.trace) := by
  have ha : (s.alloc (Block.object (classAt P C).size {})).2.load (fresh s.heap)
      = some (Block.object (classAt P C).size {}) := by simp [load_alloc]
  have hu := update_of_load _ _ _ _ (fun o => { o with «class» := some C }) ha
  have hl := load_store_self _ (fresh s.heap) _
    (Block.object (classAt P C).size ({ «class» := some C } : Obj)) ha
  have hother : ∀ q, q ≠ fresh s.heap →
      ((s.alloc (Block.object (classAt P C).size {})).2.store (fresh s.heap)
        (Block.object (classAt P C).size ({ «class» := some C } : Obj))).load q = s.load q := by
    intro q hq
    rw [load_store_other _ _ _ _ hq, load_alloc, if_neg hq]
  refine ⟨fresh s.heap, _, rfl, fresh_pos s.heap, load_fresh s, ha, hu, hl, hother, rfl, rfl,
    ?_, ?_⟩
  · intro c hc
    have hnew : new_object P C args s = call_constructor c (fresh s.heap) args
        ((s.alloc (Block.object (classAt P C).size {})).2.store (fresh s.heap)
          (Block.object (classAt P C).size ({ «class» := some C } : Obj))) := by
      simp only [new_object, State.alloc] at hu ⊢
      simp [State.alloc, hu, hc]
    obtain ⟨s3, h1, h2, h3, h4⟩ := new_object_calls P C c args s hc
    exact ⟨hnew, s3, h1, h2, h3, h4⟩
  · intro hc
    refine ⟨?_, rfl⟩
    simp only [new_object, State.alloc] at hu ⊢
    simp [State.alloc, hu, hc]

/-- Witness for C24: `new(v, vector)` in the empty state calls
`vector_constructor` once on block 1, and `new_object` from the class `user 0`,
which has no constructor, returns the tagged zero block. -/
theorem C24_new_object_witness :
    (∃ s3, new_object demo vector [0] {} = some (1, s3)
      ∧ constructor_calls s3.trace
          = [(Ctor.vector_constructor, 1), (Ctor.abstract_object_constructor, 1)])
    ∧ new_object demo (ClassRef.user 0) [0] {}
        = some (1, { heap := [(1, Block.object 8 { «class» := some (ClassRef.user 0) })] }) := by
  obtain ⟨x, s2, hx, -, -, -, hu, -, -, -, -, hc, hn⟩ := C24_new_object demo vector [0] {}
  have hx1 : x = 1 := hx
  subst hx1
  obtain ⟨-, s3, h1, -, -, h2⟩ := hc Ctor.vector_constructor rfl
  refine ⟨⟨s3, h1, ?_⟩, rfl⟩
  rw [h2]
  rfl

/-- C23: `time_iterator_constructor` does not call the constructor of its
parent class.  The parent of `time_iterator` is `iterator`, whose constructor is
`iterator_constructor`; `new_object` from `time_iterator` calls
`time_iterator_constructor` and, from it, `abstract_object_constructor` only.
The entries `differs`, `clone`, `display`, `next`, `prev` and `set` of the new
instance are set, and the entry `get`, which only `iterator_constructor`
installs, is null: `get` on a time iterator whose value was set to 5 returns
the null value 0, where a plain iterator returns 5.  The constructors of
`vector`, `matrix`, `set` and `iterator` call the constructor of their parent
`abstract_object`, and every entry of their instances is set. -/
theorem C23_time_iterator_constructor_skips_parent :
    (classAt demo time_iterator).parent = some iterator
    ∧ (classAt demo iterator).constructor = some Ctor.iterator_constructor
    ∧ (∀ (P : Static) (args : List Int) (s : State), ∃ x s1 o,
        new_object P time_iterator args s = some (x, s1) ∧ s1.obj x = some o
          ∧ constructor_calls s1.trace = constructor_calls s.trace
              ++ [(Ctor.time_iterator_constructor, x), (Ctor.abstract_object_constructor, x)]
          ∧ o.differs ≠ none ∧ o.clone ≠ none ∧ o.display ≠ none
          ∧ o.iterator.next ≠ none ∧ o.iterator.prev ≠ none ∧ o.iterator.set ≠ none
          ∧ o.iterator.get = none)
    ∧ ((new demo time_iterator [] {}).bind fun r =>
        (iterator_set r.1 5 r.2).bind fun r2 =>
          (inherits_from demo 3 r2.2 r.1 (some iterator)).bind fun i =>
            (get demo 3 r.1 r2.2).map fun v => (r.1, i, v)) = some (1, 1, 0)
    ∧ ((new demo iterator [1] {}).bind fun r =>
        (iterator_set r.1 5 r.2).bind fun r2 =>
          (inherits_from demo 3 r2.2 r.1 (some iterator)).bind fun i =>
            (get demo 3 r.1 r2.2).map fun v => (r.1, i, v)) = some (1, 1, 5)
    ∧ (∀ (P : Static) (args : List Int) (s : State), ∃ x s1 o,
        new_object P iterator args s = some (x, s1) ∧ s1.obj x = some o
          ∧ constructor_calls s1.trace = constructor_calls s.trace
              ++ [(Ctor.iterator_constructor, x), (Ctor.abstract_object_constructor, x)]
          ∧ o.differs ≠ none ∧ o.clone ≠ none ∧ o.display ≠ none
          ∧ o.iterator.next ≠ none ∧ o.iterator.prev ≠ none ∧ o.iterator.set ≠ none
          ∧ o.iterator.get = some IterFn.iterator_get)
    ∧ (∀ (P : Static) (args : List Int) (s : State), ∃ x s1 o,
        new_object P vector args s = some (x, s1) ∧ s1.obj x = some o
          ∧ constructor_calls s1.trace = constructor_calls s.trace
              ++ [(Ctor.vector_constructor, x), (Ctor.abstract_object_constructor, x)]
          ∧ o.differs ≠ none ∧ o.clone ≠ none ∧ o.display ≠ none)
    ∧ (∀ (P : Static) (args : List Int) (s : State), ∃ x s1 o,
        new_object P matrix args s = some (x, s1) ∧ s1.obj x = some o
          ∧ constructor_calls s1.trace = constructor_calls s.trace
              ++ [(Ctor.matrix_constructor, x), (Ctor.abstract_object_constructor, x)]
          ∧ o.differs ≠ none ∧ o.clone ≠ none ∧ o.display ≠ none)
    ∧ (∀ (P : Static) (args : List Int) (s : State), ∃ x s1 o,
        new_object P set args s = some (x, s1) ∧ s1.obj x = some o
          ∧ constructor_calls s1.trace = constructor_calls s.trace
              ++ [(Ctor.set_constructor, x), (Ctor.abstract_object_constructor, x)]
          ∧ o.differs ≠ none ∧ o.clone ≠ none ∧ o.display ≠ none
          ∧ o.set.find ≠ none ∧ o.set.insert ≠ none ∧ o.set.drop ≠ none
          ∧ o.set.equal ≠ none) := by
  refine ⟨rfl, rfl, ?_, by decide, by decide, ?_, ?_, ?_, ?_⟩
  · intro P args s
    obtain ⟨s3, h1, h2, -, h4⟩ := new_object_calls P time_iterator
      Ctor.time_iterator_constructor args s rfl
    exact ⟨_, s3, _, h1, obj_of_load _ _ _ _ h2, by rw [h4]; rfl, by simp [constructed],
      by simp [constructed], by simp [constructed], by simp [constructed],
      by simp [constructed], by simp [constructed], rfl⟩
  · intro P args s
    obtain ⟨s3, h1, h2, -, h4⟩ := new_object_calls P iterator Ctor.iterator_constructor args s rfl
    exact ⟨_, s3, _, h1, obj_of_load _ _ _ _ h2, by rw [h4]; rfl, by simp [constructed],
      by simp [constructed], by simp [constructed], by simp [constructed],
      by simp [constructed], by simp [constructed], rfl⟩
  · intro P args s
    obtain ⟨s3, h1, h2, -, h4⟩ := new_object_calls P vector Ctor.vector_constructor args s rfl
    exact ⟨_, s3, _, h1, obj_of_load _ _ _ _ h2, by rw [h4]; rfl, by simp [constructed],
      by simp [constructed], by simp [constructed]⟩
  · intro P args s
    obtain ⟨s3, h1, h2, -, h4⟩ := new_object_calls P matrix Ctor.matrix_constructor args s rfl
    exact ⟨_, s3, _, h1, obj_of_load _ _ _ _ h2, by rw [h4]; rfl, by simp [constructed],
      by simp [constructed], by simp [constructed]⟩
  · intro P args s
    obtain ⟨s3, h1, h2, -, h4⟩ := new_object_calls P set Ctor.set_constructor args s rfl
    exact ⟨_, s3, _, h1, obj_of_load _ _ _ _ h2, by rw [h4]; rfl, by simp [constructed],
      by simp [constructed], by simp [constructed], by simp [constructed],
      by simp [constructed], by simp [constructed], by simp [constructed]⟩

/-! ## Termination of the ancestor walk (C25) -/

theorem loop_step (P : Static) (Q : Option ClassRef) (fuel : Nat) (C : ClassRef) :
    inherits_from_loop P Q (fuel + 1) (some C)
      = if some C = Q then some 1 else inherits_from_loop P Q fuel (classAt P C).parent := rfl

/-- Once the walk has enough iterations for the chain, further iterations do
not change its result. -/
theorem loop_fuel (P : Static) (Q : Option ClassRef) (C : ClassRef) (d : Nat)
    (hd : Depth P C d) :
    ∀ fuel, d + 1 ≤ fuel →
      inherits_from_loop P Q fuel (some C) = inherits_from_loop P Q (d + 1) (some C) := by
  induction hd with
  | @root C0 h =>
    intro fuel hf
    obtain ⟨f, rfl⟩ : ∃ f, fuel = f + 1 := ⟨fuel - 1, by omega⟩
    rw [loop_step, loop_step, h]
    cases f <;> rfl
  | @parent C0 D e h _ ih =>
    intro fuel hf
    obtain ⟨f, rfl⟩ : ∃ f, fuel = f + 1 := ⟨fuel - 1, by omega⟩
    rw [loop_step, loop_step, h, ih f (by omega)]

/-- A walk that does not meet the class it looks for needs all `d + 1`
iterations: with `d` it has not finished. -/
theorem loop_needs (P : Static) (Q : Option ClassRef) (C : ClassRef) (d : Nat)
    (hd : Depth P C d) (hq : ∀ A, Reaches P C A → Q ≠ some A) :
    inherits_from_loop P Q d (some C) = none := by
  induction hd with
  | @root C0 h => rfl
  | @parent C0 D e h _ ih =>
    have h1 : ¬ some C0 = Q := fun h2 => hq C0 (Reaches.self C0) h2.symm
    simp only [inherits_from_loop, if_neg h1, h]
    exact ih (fun A hA => hq A (Reaches.parent h hA))

/-- C25: the ancestor walk terminates.  For an instance `x` whose class `C` has
a parent chain that ends after `d` links, `inherits_from(x, Q)` returns 1 or 0
for every `Q` within `d + 1` iterations of its loop, one per descriptor visited,
and more iterations give the same result; a walk that does not meet `Q` visits
all `d + 1` descriptors.  The six descriptors of the repository have such a
chain, of depth at most 2.  The walk from a class that is its own parent does
not finish within any number of iterations. -/
theorem C25_ancestor_walk_terminates (P : Static) (C : ClassRef) (d : Nat)
    (hd : Depth P C d) :
    (∀ (s : State) (x : Ptr) (o : Obj), s.obj x = some o → o.«class» = some C →
      ∀ Q : Option ClassRef,
        (inherits_from P (d + 1) s x Q = some 1 ∨ inherits_from P (d + 1) s x Q = some 0)
        ∧ (∀ fuel, d + 1 ≤ fuel →
            inherits_from P fuel s x Q = inherits_from P (d + 1) s x Q)
        ∧ ((∀ A, Reaches P C A → Q ≠ some A) → inherits_from P d s x Q = none))
    ∧ (∀ K ∈ [abstract_object, vector, matrix, set, iterator, time_iterator],
        ∃ e, e ≤ 2 ∧ Depth P K e)
    ∧ (∀ fuel Q, Q ≠ some (ClassRef.user 3) →
        inherits_from_loop demo Q fuel (some (ClassRef.user 3)) = none) := by
  refine ⟨?_, fun K hK => (shipped_chain P K hK).2, ?_⟩
  · intro s x o ho htag Q
    simp only [inherits_from, ho, Option.bind_eq_bind, Option.some_bind, htag]
    exact ⟨loop_total P Q C d hd (d + 1) (le_refl _), loop_fuel P Q C d hd,
      loop_needs P Q C d hd⟩
  · intro fuel Q hQ
    induction fuel with
    | zero => rfl
    | succ f ih =>
      have h1 : ¬ some (ClassRef.user 3) = Q := fun h => hQ h.symm
      simp only [inherits_from_loop, if_neg h1]
      exact ih

/-- Witness for C25: the vector of the example state has a chain of depth 1;
the walk for `matrix` finishes with 2 iterations and not with 1. -/
theorem C25_ancestor_walk_terminates_witness :
    Depth demo vector 1
      ∧ inherits_from demo 2 example_mixed 1 (some matrix) = some 0
      ∧ inherits_from demo 7 example_mixed 1 (some matrix) = some 0
      ∧ inherits_from demo 1 example_mixed 1 (some matrix) = none
      ∧ inherits_from demo 1 example_mixed 1 (some vector) = some 1 :=
  have hd : Depth demo vector 1 := Depth.parent rfl (Depth.root rfl)
  have h := (C25_ancestor_walk_terminates demo vector 1 hd).1 example_mixed 1 _ rfl rfl
    (some matrix)
  ⟨hd, by decide, by rw [h.2.1 7 (by decide)]; decide, by decide, by decide⟩

/-! ## Loops over the entries of a matrix (C21, C22) -/

/-- A property that holds before a `for` loop and is carried from each index
to the next by the body holds after the loop, and the loop finishes. -/
theorem for_loop_inv (body : Int → State → Option State) (Inv : Nat → State → Prop) :
    ∀ (count start : Nat) (s : State), Inv start s →
      (∀ t s, start ≤ t → t < start + count → Inv t s →
        ∃ s2, body (t : Int) s = some s2 ∧ Inv (t + 1) s2) →
      ∃ s2, for_loop body count (start : Int) s = some s2 ∧ Inv (start + count) s2 := by
  intro count
  induction count with
  | zero => intro start s h _; exact ⟨s, rfl, h⟩
  | succ n ih =>
    intro start s h hstep
    obtain ⟨s1, hb, hi⟩ := hstep start s (le_refl _) (by omega) h
    obtain ⟨s2, h2, hi2⟩ := ih (start + 1) s1 hi
      (fun t s ht1 ht2 => hstep t s (by omega) (by omega))
    refine ⟨s2, ?_, ?_⟩
    · have hcast : ((start + 1 : Nat) : Int) = (start : Int) + 1 := by push_cast; rfl
      rw [hcast] at h2
      simp only [for_loop, Option.bind_eq_bind, hb, Option.some_bind, h2]
    · have : start + (n + 1) = start + 1 + n := by omega
      rw [this]
      exact hi2

theorem read_real_spec (s : State) (a : Ptr) (xs : List real) (i : Nat)
    (hp : s.reals a = some xs) : s.read_real a (i : Int) = xs[i]? := by
  simp [State.read_real, hp]

theorem write_real_spec (s : State) (a : Ptr) (xs : List real) (i : Nat) (v : real)
    (hp : s.reals a = some xs) (hi : i < xs.length) :
    s.write_real a (i : Int) v = some (s.store a (Block.reals (xs.set i v))) := by
  simp [State.write_real, hp, hi]

theorem array_frame_refl (s : State) (p : Ptr) (zs : List real) (h : s.reals p = some zs) :
    ArrayFrame s s p zs :=
  ⟨h, fun _ _ => rfl, rfl, rfl⟩

theorem array_frame_read (s0 s : State) (p src : Ptr) (zs xs : List real) (k : Nat)
    (hf : ArrayFrame s0 s p zs) (hne : src ≠ p) (hx : s0.reals src = some xs) :
    s.read_real src (k : Int) = xs[k]? := by
  apply read_real_spec
  rw [reals_congr s0 s src (hf.2.1 src hne), hx]

theorem array_frame_write (s0 s : State) (p : Ptr) (zs : List real) (k : Nat) (v : real)
    (hf : ArrayFrame s0 s p zs) (hk : k < zs.length) :
    ∃ s2, s.write_real p (k : Int) v = some s2 ∧ ArrayFrame s0 s2 p (zs.set k v) := by
  refine ⟨_, write_real_spec s p zs k v hf.1 hk, ?_, ?_, hf.2.2.1, hf.2.2.2⟩
  · exact reals_of_load _ _ _ (load_store_self _ _ _ _ (reals_some s p zs hf.1))
  · intro q hq
    rw [load_store_other _ _ _ _ hq, hf.2.1 q hq]

theorem cell_lt (r c i j : Nat) (hi : i < r) (hj : j < c) : c * i + j < r * c := by
  have h := Nat.mul_le_mul_left c (Nat.succ_le_of_lt hi)
  rw [Nat.mul_succ, Nat.mul_comm c r] at h
  omega

theorem cell_inj (c i j i2 j2 : Nat) (hj : j < c) (hj2 : j2 < c)
    (h : c * i + j = c * i2 + j2) : i = i2 ∧ j = j2 := by
  rcases lt_trichotomy i i2 with hlt | heq | hgt
  · have h1 := Nat.mul_le_mul_left c (Nat.succ_le_of_lt hlt)
    rw [Nat.mul_succ] at h1
    omega
  · subst heq
    exact ⟨rfl, by omega⟩
  · have h1 := Nat.mul_le_mul_left c (Nat.succ_le_of_lt hgt)
    rw [Nat.mul_succ] at h1
    omega

/-- Two nested loops over the cells of an array of `rows * cols` reals that
holds `init` everywhere: when the body for the cell `(i, j)` finishes and
changes the entry `cols * i + j` to `val i j` and nothing else, the loops
finish and leave `val i j` in every cell. -/
theorem fill_loops (cell : Int → Int → State → Option State) (s0 : State) (p : Ptr)
    (rows cols : Nat) (val : Nat → Nat → real) (init : real) (ys : List real)
    (hp : s0.reals p = some ys) (hlen : ys.length = rows * cols)
    (hinit : ∀ k, k < rows * cols → ys[k]? = some init)
    (hcell : ∀ (i j : Nat) (s : State) (zs : List real), i < rows → j < cols →
      ArrayFrame s0 s p zs → zs.length = rows * cols → zs[cols * i + j]? = some init →
      ∃ s2 zs2, cell (i : Int) (j : Int) s = some s2 ∧ ArrayFrame s0 s2 p zs2
        ∧ zs2.length = zs.length ∧ zs2[cols * i + j]? = some (val i j)
        ∧ ∀ m, m ≠ cols * i + j → zs2[m]? = zs[m]?) :
    ∃ s3 zs, for_loop (fun i => for_loop (fun j => cell i j) cols 0) rows 0 s0 = some s3
      ∧ ArrayFrame s0 s3 p zs ∧ zs.length = rows * cols
      ∧ ∀ i j, i < rows → j < cols → zs[cols * i + j]? = some (val i j) := by
  have hrow : ∀ (i : Nat) (s : State), i < rows →
      (∃ zs, ArrayFrame s0 s p zs ∧ zs.length = rows * cols
        ∧ ∀ i2 j2, i2 < rows → j2 < cols →
            zs[cols * i2 + j2]? = some (if i2 < i then val i2 j2 else init)) →
      ∃ s2, for_loop (fun j => cell (i : Int) j) cols ((0 : Nat) : Int) s = some s2
        ∧ ∃ zs, ArrayFrame s0 s2 p zs ∧ zs.length = rows * cols
          ∧ ∀ i2 j2, i2 < rows → j2 < cols →
              zs[cols * i2 + j2]? = some (if i2 < i + 1 then val i2 j2 else init) := by
    intro i s hi hinv
    obtain ⟨s2, h2, zs, hz1, hz2, hz3⟩ := for_loop_inv (fun j => cell (i : Int) j)
      (fun j s => ∃ zs, ArrayFrame s0 s p zs ∧ zs.length = rows * cols
        ∧ ∀ i2 j2, i2 < rows → j2 < cols →
            zs[cols * i2 + j2]? = some (if i2 < i ∨ (i2 = i ∧ j2 < j) then val i2 j2 else init))
      cols 0 s
      (by
        obtain ⟨zs, h1, h2, h3⟩ := hinv
        refine ⟨zs, h1, h2, fun i2 j2 hi2 hj2 => ?_⟩
        rw [h3 i2 j2 hi2 hj2]
        by_cases hc : i2 < i
        · rw [if_pos hc, if_pos (Or.inl hc)]
        · rw [if_neg hc, if_neg (by omega)])
      (by
        intro j s1 _ hj hs1
        obtain ⟨zs, h1, h2, h3⟩ := hs1
        have hcur : zs[cols * i + j]? = some init := by
          rw [h3 i j hi (by omega), if_neg (by omega)]
        obtain ⟨s2, zs2, hc1, hc2, hc3, hc4, hc5⟩ := hcell i j s1 zs hi (by omega) h1 h2 hcur
        refine ⟨s2, hc1, zs2, hc2, by rw [hc3, h2], fun i2 j2 hi2 hj2 => ?_⟩
        by_cases hsame : cols * i2 + j2 = cols * i + j
        · obtain ⟨rfl, rfl⟩ := cell_inj cols i2 j2 i j hj2 (by omega) hsame
          rw [hc4, if_pos (Or.inr ⟨rfl, by omega⟩)]
        · rw [hc5 _ hsame, h3 i2 j2 hi2 hj2]
          have hne : ¬ (i2 = i ∧ j2 = j) := fun h => hsame (by rw [h.1, h.2])
          by_cases hc : i2 < i ∨ (i2 = i ∧ j2 < j)
          · rw [if_pos hc, if_pos (by omega)]
          · rw [if_neg hc, if_neg (by omega)])
    refine ⟨s2, h2, zs, hz1, hz2, fun i2 j2 hi2 hj2 => ?_⟩
    rw [hz3 i2 j2 hi2 hj2]
    by_cases hc : i2 < i + 1
    · rw [if_pos hc, if_pos (by omega)]
    · rw [if_neg hc, if_neg (by omega)]
  obtain ⟨s3, h3, zs, hz1, hz2, hz3⟩ := for_loop_inv
    (fun i => for_loop (fun j => cell i j) cols 0)
    (fun i s => ∃ zs, ArrayFrame s0 s p zs ∧ zs.length = rows * cols
      ∧ ∀ i2 j2, i2 < rows → j2 < cols →
          zs[cols * i2 + j2]? = some (if i2 < i then val i2 j2 else init))
    rows 0 s0
    ⟨ys, array_frame_refl s0 p ys hp, hlen, fun i2 j2 hi2 hj2 => by
      rw [hinit _ (cell_lt rows cols i2 j2 hi2 hj2), if_neg (by omega)]⟩
    (fun i s _ hi hs => hrow i s (by omega) hs)
  refine ⟨s3, zs, h3, hz1, hz2, fun i j hi hj => ?_⟩
  rw [hz3 i j hi hj, if_pos (by omega)]

theorem getElem?_getD (xs : List real) (k : Nat) (h : k < xs.length) :
    xs[k]? = some (xs.getD k 0) := by
  simp [List.getD, List.getElem?_eq_getElem h]

/-- The array of a matrix with entries, as a list (the empty list when the
matrix has no entries). -/
theorem matrix_view_data (P : Static) (fuel : Nat) (s : State) (A : Ptr) (r c : Nat)
    (hA : MatrixView P fuel s A r c) :
    ∃ o xs, s.obj A = some o ∧ Inherits P fuel s A matrix
      ∧ o.matrix.rows = (r : Int) ∧ o.matrix.cols = (c : Int)
      ∧ (0 < r * c → s.reals o.matrix.dat = some xs ∧ r * c ≤ xs.length)
      ∧ ∀ i j, i < r → j < c → matrix_entry s A i j = some (xs.getD (c * i + j) 0) := by
  obtain ⟨o, ho, hi, hr, hc, hdata⟩ := hA
  obtain ⟨xs, hx⟩ : ∃ xs, 0 < r * c → (s.reals o.matrix.dat = some xs ∧ r * c ≤ xs.length) := by
    rcases hdata with h | ⟨xs, h⟩
    · exact ⟨[], fun hp => absurd h (by omega)⟩
    · exact ⟨xs, fun _ => h⟩
  refine ⟨o, xs, ho, hi, hr, hc, hx, fun i j hi2 hj2 => ?_⟩
  obtain ⟨hxs, hxl⟩ := hx (Nat.mul_pos (by omega) (by omega))
  have hcast : (c : Int) * (i : Int) + (j : Int) = ((c * i + j : Nat) : Int) := by
    push_cast; rfl
  simp only [matrix_entry, ho, Option.bind_eq_bind, Option.some_bind, hc, hcast]
  rw [read_real_spec s _ xs _ hxs]
  exact getElem?_getD xs _ (lt_of_lt_of_le (cell_lt r c i j hi2 hj2) hxl)

/-- The function `matrix_transpose` on a matrix with `r` rows and `c` columns:
a new matrix with `c` rows and `r` columns whose entry `(i, j)` is the entry
`(j, i)` of the argument; every block of the former state is unchanged. -/
theorem matrix_transpose_spec (P : Static) (fuel : Nat) (hf : 2 ≤ fuel) (s : State) (A : Ptr)
    (r c : Nat) (hA : MatrixView P fuel s A r c) :
    ∃ T s3 oT, matrix_transpose P fuel A s = some (T, s3) ∧ T ≠ NULL ∧ s.load T = none
      ∧ s3.obj T = some oT ∧ oT.«class» = some matrix
      ∧ MatrixView P fuel s3 T c r
      ∧ (∀ i j, i < c → j < r →
          ∃ v, matrix_entry s A j i = some v ∧ matrix_entry s3 T i j = some v)
      ∧ (∀ q, s.load q ≠ none → s3.load q = s.load q) ∧ s3.out = s.out := by
  obtain ⟨o, xs, ho, hi, hr, hc, hx, hent⟩ := matrix_view_data P fuel s A r c hA
  obtain ⟨s1, h1, hl1, hfr1, hout1⟩ := new_exact P matrix Ctor.matrix_constructor s rfl
  have hc1 := obj_of_load _ _ _ _ hl1
  have hiw : Inherits P fuel s1 (fresh s.heap) matrix :=
    ⟨_, matrix, 1, hc1, rfl, Depth.parent rfl (Depth.root rfl), by omega, Reaches.self _⟩
  obtain ⟨s2, p, h2, hc2, hp2, hpn, hfr2, hout2⟩ :=
    matrix_set_dim_fresh P fuel s1 (fresh s.heap) o.matrix.cols o.matrix.rows _ hc1 hiw rfl
  obtain ⟨M, hM, hMk, hMr, hMc, hMd⟩ : ∃ M, s2.obj (fresh s.heap) = some M
      ∧ M.«class» = some matrix ∧ M.matrix.rows = (c : Int) ∧ M.matrix.cols = (r : Int)
      ∧ M.matrix.dat = p := ⟨_, hc2, rfl, hc, hr, rfl⟩
  have hlive : ∀ q, s.load q ≠ none → q ≠ fresh s.heap ∧ s2.load q = s.load q := by
    intro q hq
    have hq1 : q ≠ fresh s.heap := by
      rintro rfl
      exact hq (load_fresh s)
    exact ⟨hq1, by rw [hfr2 q (by rw [hfr1 q hq1]; exact hq) hq1, hfr1 q hq1]⟩
  have hnotp : ∀ q, s.load q ≠ none → q ≠ p := by
    rintro q hq rfl
    rw [hfr1 _ (hlive _ hq).1] at hpn
    exact hq hpn
  have hpc : fresh s.heap ≠ p := by
    intro h
    rw [← h, hl1] at hpn
    cases hpn
  have hys : s2.reals p = some (List.replicate (c * r) 0) := by
    have h0 : (0 : Int) ≤ o.matrix.cols * o.matrix.rows := by
      rw [hc, hr]; positivity
    have hn : (o.matrix.cols * o.matrix.rows).toNat = c * r := by
      rw [hc, hr]
      have : (c : Int) * (r : Int) = ((c * r : Nat) : Int) := by push_cast; rfl
      rw [this, Int.toNat_ofNat]
    rw [← hn]
    exact hp2 h0
  obtain ⟨s3, zs, h3, hfr3, hzl, hcells⟩ := fill_loops (fun i j => transpose_assign o M i j)
    s2 p c r (fun i j => xs.getD (c * j + i) 0) 0 _ hys (by simp)
    (fun k hk => by simp [List.getElem?_replicate, hk])
    (by
      intro i j s4 zs hi2 hj2 hfr hlen _
      obtain ⟨hxs, hxl⟩ := hx (Nat.mul_pos (by omega) (by omega))
      have hsrc_live : s.load o.matrix.dat ≠ none := by rw [reals_some s _ _ hxs]; simp
      have hsrc : s2.reals o.matrix.dat = some xs := by
        rw [reals_congr s s2 _ (hlive _ hsrc_live).2, hxs]
      have hcast1 : (c : Int) * (j : Int) + (i : Int) = ((c * j + i : Nat) : Int) := by
        push_cast; rfl
      have hcast2 : (r : Int) * (i : Int) + (j : Int) = ((r * i + j : Nat) : Int) := by
        push_cast; rfl
      have hread := array_frame_read s2 s4 p o.matrix.dat zs xs (c * j + i) hfr
        (hnotp _ hsrc_live) hsrc
      rw [getElem?_getD xs _ (lt_of_lt_of_le (cell_lt r c j i hj2 hi2) hxl)] at hread
      have hidx : r * i + j < zs.length := by
        rw [hlen]; exact cell_lt c r i j hi2 hj2
      obtain ⟨s5, hw, hfr5⟩ := array_frame_write s2 s4 p zs (r * i + j)
        (xs.getD (c * j + i) 0) hfr hidx
      refine ⟨s5, _, ?_, hfr5, List.length_set _ _ _, ?_, fun m hm => ?_⟩
      · simp only [transpose_assign, hc, hMc, hMd, hcast1, hcast2, hread, Option.bind_eq_bind,
          Option.some_bind, hw]
      · rw [List.getElem?_set_self hidx]
      · rw [List.getElem?_set_ne (fun h => hm h.symm)])
  have hT3 : s3.obj (fresh s.heap) = some M :=
    (obj_congr s2 s3 _ (hfr3.2.1 _ hpc)).trans hM
  have hiT : Inherits P fuel s3 (fresh s.heap) matrix :=
    ⟨M, matrix, 1, hT3, hMk, Depth.parent rfl (Depth.root rfl), by omega, Reaches.self _⟩
  refine ⟨fresh s.heap, s3, M, ?_, fresh_pos _, load_fresh s, hT3, hMk,
    ⟨M, hT3, hiT, hMr, hMc, Or.inr ⟨zs, by rw [hMd]; exact hfr3.1, by omega⟩⟩, ?_, ?_, ?_⟩
  · simp only [matrix_transpose, inherits_from_of_inherits P fuel s A _ hi, Option.bind_eq_bind,
      Option.some_bind, ho, h1, h2, hM, hMr, hMc, Int.toNat_ofNat, h3]
    simp
  · intro i j hi2 hj2
    refine ⟨xs.getD (c * j + i) 0, hent j i hj2 hi2, ?_⟩
    have hcast2 : (r : Int) * (i : Int) + (j : Int) = ((r * i + j : Nat) : Int) := by
      push_cast; rfl
    simp only [matrix_entry, hT3, Option.bind_eq_bind, Option.some_bind, hMc, hMd, hcast2]
    rw [read_real_spec s3 p zs _ hfr3.1]
    exact hcells i j hi2 hj2
  · intro q hq
    rw [hfr3.2.1 q (hnotp q hq), (hlive q hq).2]
  · rw [hfr3.2.2.1, hout2, hout1]

/-- C21: for a matrix `A` with `r` rows and `c` columns, `matrix_transpose(A)`
returns a new matrix `T` (a non-null pointer to a block that was not in use)
with `c` rows and `r` columns such that `T[i][j] = A[j][i]` for all `i < c` and
`j < r`, in row-major storage; the blocks of the former state, `A` included, are
unchanged.  Transposing `T` in turn gives a matrix with `r` rows and `c` columns
and the entries of `A`. -/
theorem C21_transpose (P : Static) (fuel : Nat) (hf : 2 ≤ fuel) (s : State) (A : Ptr)
    (r c : Nat) (hA : MatrixView P fuel s A r c) :
    ∃ T s3, matrix_transpose P fuel A s = some (T, s3) ∧ T ≠ NULL ∧ s.load T = none
      ∧ MatrixView P fuel s3 T c r
      ∧ (∀ i j, i < c → j < r →
          ∃ v, matrix_entry s A j i = some v ∧ matrix_entry s3 T i j = some v)
      ∧ (∀ q, s.load q ≠ none → s3.load q = s.load q)
      ∧ ∃ T2 s4, matrix_transpose P fuel T s3 = some (T2, s4) ∧ T2 ≠ T ∧ T2 ≠ A
        ∧ MatrixView P fuel s4 T2 r c
        ∧ ∀ i j, i < r → j < c →
            ∃ v, matrix_entry s A i j = some v ∧ matrix_entry s4 T2 i j = some v := by
  obtain ⟨T, s3, oT, h1, h2, h3, h4, -, h5, h6, h7, -⟩ :=
    matrix_transpose_spec P fuel hf s A r c hA
  obtain ⟨T2, s4, o2, k1, -, k3, -, -, k5, k6, -, -⟩ :=
    matrix_transpose_spec P fuel hf s3 T c r h5
  refine ⟨T, s3, h1, h2, h3, h5, h6, h7, T2, s4, k1, ?_, ?_, k5, fun i j hi hj => ?_⟩
  · rintro rfl
    simp [State.obj, k3] at h4
  · rintro rfl
    obtain ⟨o, ho, -⟩ := hA
    obtain ⟨n, hn⟩ := load_of_obj s T2 o ho
    have := h7 T2 (by rw [hn]; simp)
    rw [k3, hn] at this
    cases this
  · obtain ⟨v, hv1, hv2⟩ := h6 j i hj hi
    obtain ⟨w, hw1, hw2⟩ := k6 i j hi hj
    rw [hv2] at hw1
    cases hw1
    exact ⟨v, hv1, hw2⟩

/-- Witness for C21: the transpose of the 2 x 3 matrix of the example state has
the entry 6 of row 1, column 2 at row 2, column 1. -/
theorem C21_transpose_witness :
    MatrixView demo 2 example_matrices 1 2 3
      ∧ matrix_entry example_matrices 1 1 2 = some 6
      ∧ ∃ T s3, matrix_transpose demo 2 1 example_matrices = some (T, s3)
          ∧ matrix_entry s3 T 2 1 = some 6 := by
  have hA : MatrixView demo 2 example_matrices 1 2 3 :=
    ⟨_, rfl, ⟨_, matrix, 1, rfl, rfl, Depth.parent rfl (Depth.root rfl), by decide,
      Reaches.self _⟩, rfl, rfl, Or.inr ⟨[1, 2, 3, 4, 5, 6], rfl, by decide⟩⟩
  have he : matrix_entry example_matrices 1 1 2 = some 6 := by decide
  obtain ⟨T, s3, h1, -, -, -, h6, -⟩ := C21_transpose demo 2 (le_refl _) example_matrices 1 2 3 hA
  obtain ⟨v, hv1, hv2⟩ := h6 2 1 (by decide) (by decide)
  rw [he] at hv1
  cases hv1
  exact ⟨hA, he, T, s3, h1, hv2⟩

/-- The parent chain of a class is a single path: of two classes reached from
`C`, one is reached from the other. -/
theorem reaches_linear (P : Static) {C K : ClassRef} (h : Reaches P C K) :
    ∀ K2, Reaches P C K2 → Reaches P K K2 ∨ Reaches P K2 K := by
  induction h with
  | self C0 => intro K2 h2; exact Or.inl h2
  | @parent C0 D Q hp hDQ ih =>
    intro K2 h2
    cases h2 with
    | self => exact Or.inr (Reaches.parent hp hDQ)
    | @parent _ D2 _ hp2 h3 =>
      rw [hp] at hp2
      cases hp2
      exact ih K2 h3

/-- No class descends from both `matrix` and `vector`. -/
theorem matrix_not_vector (P : Static) (C : ClassRef) (h : Reaches P C matrix) :
    ¬ Reaches P C vector := by
  intro hv
  have root_end : ∀ K, K ≠ abstract_object → ¬ Reaches P abstract_object K := by
    intro K hK h0
    cases h0 with
    | self => exact hK rfl
    | @parent _ D _ hp _ => simp [classAt, _abstract_object] at hp
  rcases reaches_linear P h vector hv with h1 | h1
  · cases h1 with
    | @parent _ D _ hp h2 =>
      simp only [classAt, _matrix, Option.some.injEq] at hp
      subst hp
      exact root_end _ (by decide) h2
  · cases h1 with
    | @parent _ D _ hp h2 =>
      simp only [classAt, _vector, Option.some.injEq] at hp
      subst hp
      exact root_end _ (by decide) h2

/-- The function `matrix_dot` on two matrices whose inner dimensions differ:
the result is `NULL` and the state is unchanged. -/
theorem matrix_dot_mismatch (P : Static) (fuel : Nat) (s : State) (A B : Ptr)
    (r n m c : Nat) (hA : MatrixView P fuel s A r n) (hB : MatrixView P fuel s B m c)
    (hnm : n ≠ m) : matrix_dot P fuel A B s = some (NULL, s) := by
  obtain ⟨oa, hoa, hia, -, hca, -⟩ := hA
  obtain ⟨ob, hob, hib, hrb, -, -⟩ := hB
  have hnv : NotInherits P fuel s B vector := by
    obtain ⟨o, C, d, h1, h2, h3, h4, h5⟩ := hib
    exact ⟨o, C, d, h1, h2, h3, h4, matrix_not_vector P C h5⟩
  have hne : ¬ ((n : Int) = (m : Int)) := by omega
  simp [matrix_dot, matrix_dot_matrix_case, matrix_dot_vector_case,
    inherits_from_of_inherits P fuel s A _ hia, inherits_from_of_inherits P fuel s B _ hib,
    inherits_from_of_not_inherits P fuel s B _ hnv, hoa, hob, hca, hrb, hne]

/-- The function `matrix_dot` on an `r x n` matrix `A` and an `n x c` matrix
`B`: a new `r x c` matrix whose entry `(i, j)` is the sum over `k < n` of
`A[i][k] * B[k][j]`; every block of the former state is unchanged. -/
theorem matrix_dot_spec (P : Static) (fuel : Nat) (hf : 2 ≤ fuel) (s : State) (A B : Ptr)
    (r n c : Nat) (hA : MatrixView P fuel s A r n) (hB : MatrixView P fuel s B n c) :
    ∃ M s3 oM, matrix_dot P fuel A B s = some (M, s3) ∧ M ≠ NULL ∧ s.load M = none
      ∧ s3.obj M = some oM ∧ oM.«class» = some matrix
      ∧ MatrixView P fuel s3 M r c
      ∧ (∃ a b : Nat → Nat → real,
          (∀ i k, i < r → k < n → matrix_entry s A i k = some (a i k))
          ∧ (∀ k j, k < n → j < c → matrix_entry s B k j = some (b k j))
          ∧ ∀ i j, i < r → j < c →
              matrix_entry s3 M i j
                = some (Finset.sum (Finset.range n) fun k => a i k * b k j))
      ∧ (∀ q, s.load q ≠ none → s3.load q = s.load q) ∧ s3.out = s.out := by
  obtain ⟨oa, xs, hoa, hia, hra, hca, hxa, henta⟩ := matrix_view_data P fuel s A r n hA
  obtain ⟨ob, bs, hob, hib, hrb, hcb, hxb, hentb⟩ := matrix_view_data P fuel s B n c hB
  obtain ⟨s1, h1, hl1, hfr1, hout1⟩ := new_exact P matrix Ctor.matrix_constructor s rfl
  have hc1 := obj_of_load _ _ _ _ hl1
  have hiw : Inherits P fuel s1 (fresh s.heap) matrix :=
    ⟨_, matrix, 1, hc1, rfl, Depth.parent rfl (Depth.root rfl), by omega, Reaches.self _⟩
  obtain ⟨s2, p, h2, hc2, hp2, hpn, hfr2, hout2⟩ :=
    matrix_set_dim_fresh P fuel s1 (fresh s.heap) oa.matrix.rows ob.matrix.cols _ hc1 hiw rfl
  obtain ⟨M, hM, hMk, hMr, hMc, hMd⟩ : ∃ M, s2.obj (fresh s.heap) = some M
      ∧ M.«class» = some matrix ∧ M.matrix.rows = (r : Int) ∧ M.matrix.cols = (c : Int)
      ∧ M.matrix.dat = p := ⟨_, hc2, rfl, hra, hcb, rfl⟩
  have hlive : ∀ q, s.load q ≠ none → q ≠ fresh s.heap ∧ s2.load q = s.load q := by
    intro q hq
    have hq1 : q ≠ fresh s.heap := by
      rintro rfl
      exact hq (load_fresh s)
    exact ⟨hq1, by rw [hfr2 q (by rw [hfr1 q hq1]; exact hq) hq1, hfr1 q hq1]⟩
  have hnotp : ∀ q, s.load q ≠ none → q ≠ p := by
    rintro q hq rfl
    rw [hfr1 _ (hlive _ hq).1] at hpn
    exact hq hpn
  have hpc : fresh s.heap ≠ p := by
    intro h
    rw [← h, hl1] at hpn
    cases hpn
  have hys : s2.reals p = some (List.replicate (r * c) 0) := by
    have h0 : (0 : Int) ≤ oa.matrix.rows * ob.matrix.cols := by
      rw [hra, hcb]; positivity
    have hn : (oa.matrix.rows * ob.matrix.cols).toNat = r * c := by
      rw [hra, hcb]
      have : (r : Int) * (c : Int) = ((r * c : Nat) : Int) := by push_cast; rfl
      rw [this, Int.toNat_ofNat]
    rw [← hn]
    exact hp2 h0
  obtain ⟨s3, zs, h3, hfr3, hzl, hcells⟩ := fill_loops
    (fun i j => for_loop (fun k => dot_assign oa ob M i j k) n 0)
    s2 p r c
    (fun i j => Finset.sum (Finset.range n)
      fun k => xs.getD (n * i + k) 0 * bs.getD (c * k + j) 0) 0 _ hys (by simp)
    (fun k hk => by simp [List.getElem?_replicate, hk])
    (by
      intro i j s4 zs hi2 hj2 hfr hlen hcur
      have hidx : c * i + j < zs.length := by
        rw [hlen]; exact cell_lt r c i j hi2 hj2
      have hcast0 : (c : Int) * (i : Int) + (j : Int) = ((c * i + j : Nat) : Int) := by
        push_cast; rfl
      obtain ⟨s5, h5, zs5, hz1, hz2, hz3, hz4⟩ := for_loop_inv
        (fun k => dot_assign oa ob M (i : Int) (j : Int) k)
        (fun k s => ∃ zs2, ArrayFrame s2 s p zs2 ∧ zs2.length = zs.length
          ∧ zs2[c * i + j]? = some (Finset.sum (Finset.range k)
              fun k => xs.getD (n * i + k) 0 * bs.getD (c * k + j) 0)
          ∧ ∀ m, m ≠ c * i + j → zs2[m]? = zs[m]?)
        n 0 s4 ⟨zs, hfr, rfl, by rw [hcur]; simp, fun _ _ => rfl⟩
        (by
          intro k s6 _ hk hs6
          obtain ⟨zs6, hf6, hl6, hv6, ho6⟩ := hs6
          have hk2 : k < n := by omega
          obtain ⟨hxs, hxl⟩ := hxa (Nat.mul_pos (by omega) (by omega))
          obtain ⟨hbs, hbl⟩ := hxb (Nat.mul_pos (by omega) (by omega))
          have ha_live : s.load oa.matrix.dat ≠ none := by rw [reals_some s _ _ hxs]; simp
          have hb_live : s.load ob.matrix.dat ≠ none := by rw [reals_some s _ _ hbs]; simp
          have hsa : s2.reals oa.matrix.dat = some xs := by
            rw [reals_congr s s2 _ (hlive _ ha_live).2, hxs]
          have hsb : s2.reals ob.matrix.dat = some bs := by
            rw [reals_congr s s2 _ (hlive _ hb_live).2, hbs]
          have hcast1 : (n : Int) * (i : Int) + (k : Int) = ((n * i + k : Nat) : Int) := by
            push_cast; rfl
          have hcast2 : (c : Int) * (k : Int) + (j : Int) = ((c * k + j : Nat) : Int) := by
            push_cast; rfl
          have hrm := read_real_spec s6 p zs6 (c * i + j) hf6.1
          rw [hv6] at hrm
          have hra2 := array_frame_read s2 s6 p oa.matrix.dat zs6 xs (n * i + k) hf6
            (hnotp _ ha_live) hsa
          rw [getElem?_getD xs _ (lt_of_lt_of_le (cell_lt r n i k hi2 hk2) hxl)] at hra2
          have hrb2 := array_frame_read s2 s6 p ob.matrix.dat zs6 bs (c * k + j) hf6
            (hnotp _ hb_live) hsb
          rw [getElem?_getD bs _ (lt_of_lt_of_le (cell_lt n c k j hk2 hj2) hbl)] at hrb2
          have hidx6 : c * i + j < zs6.length := by rw [hl6]; exact hidx
          obtain ⟨s7, hw, hf7⟩ := array_frame_write s2 s6 p zs6 (c * i + j)
            (Finset.sum (Finset.range k)
                (fun k => xs.getD (n * i + k) 0 * bs.getD (c * k + j) 0)
              + xs.getD (n * i + k) 0 * bs.getD (c * k + j) 0) hf6 hidx6
          refine ⟨s7, ?_, _, hf7, by rw [List.length_set, hl6], ?_, fun m hm => ?_⟩
          · simp only [dot_assign, hca, hcb, hMc, hMd, hcast0, hcast1, hcast2, hrm, hra2, hrb2,
              Option.bind_eq_bind, Option.some_bind, hw]
          · rw [List.getElem?_set_self hidx6, Finset.sum_range_succ]
          · rw [List.getElem?_set_ne (fun h => hm h.symm), ho6 m hm])
      refine ⟨s5, zs5, h5, hz1, hz2, ?_, hz4⟩
      rw [hz3]
      simp)
  have hT3 : s3.obj (fresh s.heap) = some M :=
    (obj_congr s2 s3 _ (hfr3.2.1 _ hpc)).trans hM
  have hiT : Inherits P fuel s3 (fresh s.heap) matrix :=
    ⟨M, matrix, 1, hT3, hMk, Depth.parent rfl (Depth.root rfl), by omega, Reaches.self _⟩
  refine ⟨fresh s.heap, s3, M, ?_, fresh_pos _, load_fresh s, hT3, hMk,
    ⟨M, hT3, hiT, hMr, hMc, Or.inr ⟨zs, by rw [hMd]; exact hfr3.1, by omega⟩⟩,
    ⟨fun i k => xs.getD (n * i + k) 0, fun k j => bs.getD (c * k + j) 0, henta, hentb, ?_⟩,
    ?_, ?_⟩
  · have hcond : matrix_dot_matrix_case P fuel s A B = some true := by
      simp [matrix_dot_matrix_case, inherits_from_of_inherits P fuel s A _ hia,
        inherits_from_of_inherits P fuel s B _ hib, hoa, hob, hca, hrb]
    simp only [matrix_dot, hcond, Option.bind_eq_bind, Option.some_bind, if_true,
      hoa, hob, h1, h2, hM, hMr, hMc, hca, Int.toNat_ofNat, h3]
    simp
  · intro i j hi2 hj2
    have hcast0 : (c : Int) * (i : Int) + (j : Int) = ((c * i + j : Nat) : Int) := by
      push_cast; rfl
    simp only [matrix_entry, hT3, Option.bind_eq_bind, Option.some_bind, hMc, hMd, hcast0]
    rw [read_real_spec s3 p zs _ hfr3.1]
    exact hcells i j hi2 hj2
  · intro q hq
    rw [hfr3.2.1 q (hnotp q hq), (hlive q hq).2]
  · rw [hfr3.2.2.1, hout2, hout1]

/-- C22: for a matrix `A` with `r` rows and `n` columns and a matrix `B` with
`m` rows and `c` columns: when `n = m`, `matrix_dot(A, B)` returns a new matrix
`M` (a non-null pointer to a block that was not in use) with `r` rows and `c`
columns whose entry `M[i][j]` is the sum over `k < n` of `A[i][k] * B[k][j]`,
and the blocks of the former state are unchanged; when `n != m`,
`matrix_dot(A, B)` returns `NULL` and the state is unchanged, so nothing is
created. -/
theorem C22_matrix_dot (P : Static) (fuel : Nat) (hf : 2 ≤ fuel) (s : State) (A B : Ptr)
    (r n m c : Nat) (hA : MatrixView P fuel s A r n) (hB : MatrixView P fuel s B m c) :
    (n = m → ∃ M s3, matrix_dot P fuel A B s = some (M, s3) ∧ M ≠ NULL ∧ s.load M = none
      ∧ MatrixView P fuel s3 M r c
      ∧ (∃ a b : Nat → Nat → real,
          (∀ i k, i < r → k < n → matrix_entry s A i k = some (a i k))
          ∧ (∀ k j, k < n → j < c → matrix_entry s B k j = some (b k j))
          ∧ ∀ i j, i < r → j < c →
              matrix_entry s3 M i j
                = some (Finset.sum (Finset.range n) fun k => a i k * b k j))
      ∧ (∀ q, s.load q ≠ none → s3.load q = s.load q))
    ∧ (n ≠ m → matrix_dot P fuel A B s = some (NULL, s)) := by
  refine ⟨?_, matrix_dot_mismatch P fuel s A B r n m c hA hB⟩
  rintro rfl
  obtain ⟨M, s3, oM, h1, h2, h3, -, -, h5, h6, h7, -⟩ :=
    matrix_dot_spec P fuel hf s A B r n c hA hB
  exact ⟨M, s3, h1, h2, h3, h5, h6, h7⟩

/-- Witness for C22: in the example state the product of the 2 x 3 matrix `A`
and the 3 x 2 matrix `B` has the entry `4 * 0 + 5 * 1 + 6 * 2 = 17` at row 1,
column 1, and the product of `A` with itself is `NULL`. -/
theorem C22_matrix_dot_witness :
    MatrixView demo 2 example_matrices 1 2 3 ∧ MatrixView demo 2 example_matrices 2 3 2
      ∧ (∃ M s3, matrix_dot demo 2 1 2 example_matrices = some (M, s3)
          ∧ matrix_entry s3 M 1 1 = some 17)
      ∧ matrix_dot demo 2 1 1 example_matrices = some (NULL, example_matrices) := by
  have hA : MatrixView demo 2 example_matrices 1 2 3 :=
    ⟨_, rfl, ⟨_, matrix, 1, rfl, rfl, Depth.parent rfl (Depth.root rfl), by decide,
      Reaches.self _⟩, rfl, rfl, Or.inr ⟨[1, 2, 3, 4, 5, 6], rfl, by decide⟩⟩
  have hB : MatrixView demo 2 example_matrices 2 3 2 :=
    ⟨_, rfl, ⟨_, matrix, 1, rfl, rfl, Depth.parent rfl (Depth.root rfl), by decide,
      Reaches.self _⟩, rfl, rfl, Or.inr ⟨[1, 0, 0, 1, 2, 2], rfl, by decide⟩⟩
  refine ⟨hA, hB, ?_,
    (C22_matrix_dot demo 2 (le_refl _) example_matrices 1 1 2 3 2 3 hA hA).2 (by decide)⟩
  obtain ⟨M, s3, h1, -, -, -, ⟨a, b, ha, hb, hm⟩, -⟩ :=
    (C22_matrix_dot demo 2 (le_refl _) example_matrices 1 2 2 3 3 2 hA hB).1 rfl
  refine ⟨M, s3, h1, ?_⟩
  have a0 := ha 1 0 (by decide) (by decide)
  have a1 := ha 1 1 (by decide) (by decide)
  have a2 := ha 1 2 (by decide) (by decide)
  have b0 := hb 0 1 (by decide) (by decide)
  have b1 := hb 1 1 (by decide) (by decide)
  have b2 := hb 2 1 (by decide) (by decide)
  rw [show matrix_entry example_matrices 1 1 0 = some 4 by decide] at a0
  rw [show matrix_entry example_matrices 1 1 1 = some 5 by decide] at a1
  rw [show matrix_entry example_matrices 1 1 2 = some 6 by decide] at a2
  rw [show matrix_entry example_matrices 2 0 1 = some 0 by decide] at b0
  rw [show matrix_entry example_matrices 2 1 1 = some 1 by decide] at b1
  rw [show matrix_entry example_matrices 2 2 1 = some 2 by decide] at b2
  rw [hm 1 1 (by decide) (by decide), Finset.sum_range_succ, Finset.sum_range_succ,
    Finset.sum_range_succ, Finset.sum_range_zero, ← Option.some.inj a0, ← Option.some.inj a1,
    ← Option.some.inj a2, ← Option.some.inj b0, ← Option.some.inj b1, ← Option.some.inj b2]
  rfl

end ooc
